import Mathlib

/-!
# OpenShock hub firmware: command handling, rate limiting and the chunked HTTP reader

A shallow embedding of `src/src/CommandHandler.cpp`,
`src/src/http/HTTPRequestManager.cpp`, `src/src/wifi/WiFiScanManager.cpp`,
`src/src/OtaUpdateManager.cpp` and `src/src/config/Config.cpp`, followed by theorems
about it.

Conventions of the embedding
* global mutable singletons become fields of an explicit state that every
  operation takes and returns;
* `OpenShock::millis()` is an input (`now`) of the operation that reads it;
* `int64_t` values are `Int`, sizes and unsigned values are `Nat`; the two
  platform-dependent widths (`sizeof(std::size_t)` and the width of `long`)
  are fields of `Platform`;
* strings are `List Char`, byte buffers are `List Nat`;
* mutexes and locks are not modelled: every operation is one atomic step.
-/

namespace OpenShock

/-! ## Definitions -/

/-! ### Platform -/

/-- Integer widths of the compilation target that the sources leave to the
compiler. -/
structure Platform where
  /-- The value of `sizeof(std::size_t)`, in bytes. -/
  sizeofSizeT : Nat
  /-- Number of bits of the type `long`. -/
  longBits : Nat
deriving DecidableEq, Repr

/-- The ESP32 family the firmware is built for: a 32-bit ILP32 target. -/
def esp32 : Platform := { sizeofSizeT := 4, longBits := 32 }

/-- Two's-complement reduction of an integer to a signed type of `bits` bits. -/
def wrapSigned (bits : Nat) (x : Int) : Int :=
  (x + 2 ^ (bits - 1)) % 2 ^ bits - 2 ^ (bits - 1)

/-! ### CommandHandler.cpp -/

/-- Modelled from the spec: the declaration of `ShockerCommandType` is not among
the sources; the spec gives `commandType: enum{Shock,Vibrate,Stop}`. -/
inductive ShockerCommandType where
  | Shock
  | Vibrate
  | Stop
deriving DecidableEq, Repr

/-- The declaration of `ShockerModelType` is not among the sources; a model is
kept as the numeric value of the enum. -/
abbrev ShockerModelType := Nat

def KEEP_ALIVE_INTERVAL : Int := 60000

def KEEP_ALIVE_DURATION : Nat := 300

/-- Number of slots of the keep-alive queue: `xQueueCreate(32, sizeof(KnownShocker))`. -/
def KEEP_ALIVE_QUEUE_LENGTH : Nat := 32

structure KnownShocker where
  killTask : Bool
  model : ShockerModelType
  shockerId : Nat
  lastActivityTimestamp : Int
deriving DecidableEq, Repr

/-- The arguments of one `RFTransmitter::SendCommand` call. -/
structure Command where
  model : ShockerModelType
  shockerId : Nat
  type : ShockerCommandType
  intensity : Nat
  durationMs : Nat
deriving DecidableEq, Repr

/-- Modelled from the spec: `RFTransmitter` is declared in `radio/RFTransmitter.h`,
which is not among the sources. The spec describes it as "a bounded queue of
pending shock/vibrate/stop commands" consumed by a transmission loop. -/
structure RFTransmitter where
  /-- Number of commands the pending queue can hold. -/
  capacity : Nat
  /-- Commands submitted and not yet dequeued, oldest first. -/
  pending : List Command
deriving DecidableEq, Repr

/-- Modelled from the spec: `RFTransmitter::ClearPendingCommands` "purges any
not-yet-transmitted commands for the same physical queue (full queue clear, not
per-shocker filter)". -/
def RFTransmitter.ClearPendingCommands (tx : RFTransmitter) : RFTransmitter :=
  { tx with pending := [] }

/-- Modelled from the spec: `RFTransmitter::SendCommand` appends the command to the
bounded pending queue and reports whether it was accepted. -/
def RFTransmitter.SendCommand (tx : RFTransmitter) (cmd : Command) : Bool × RFTransmitter :=
  if tx.pending.length < tx.capacity then
    (true, { tx with pending := tx.pending ++ [cmd] })
  else
    (false, tx)

/-- A call made on the installed transmitter. -/
inductive TxCall where
  | ClearPendingCommands
  | SendCommand (cmd : Command)
deriving DecidableEq, Repr

/-- The static variables of `CommandHandler.cpp` that `HandleCommand` reads or
writes, and the record of the calls made on the transmitter. -/
structure CommandHandlerState where
  /-- The variable `s_rfTransmitter`; `none` is `nullptr`. -/
  rfTransmitter : Option RFTransmitter
  /-- The variable `s_keepAliveQueue` with the messages waiting in it, oldest
  first; `none` is `nullptr`. -/
  keepAliveQueue : Option (List KnownShocker)
  /-- Every call made on a transmitter so far, oldest first. -/
  txCalls : List TxCall
deriving DecidableEq, Repr

/-- The call `xQueueSend(s_keepAliveQueue, &cmd, pdMS_TO_TICKS(10))` with no
concurrent receiver: the message is stored when a slot is free. -/
def xQueueSendKeepAlive (queue : List KnownShocker) (msg : KnownShocker) : Bool × List KnownShocker :=
  if queue.length < KEEP_ALIVE_QUEUE_LENGTH then (true, queue ++ [msg]) else (false, queue)

/-- The function `CommandHandler::HandleCommand`; `now` is the value of
`OpenShock::millis()` read when the activity message is built. -/
def HandleCommand (s : CommandHandlerState) (now : Int) (model : ShockerModelType)
    (shockerId : Nat) (type : ShockerCommandType) (intensity : Nat) (durationMs : Nat) :
    Bool × CommandHandlerState :=
  match s.rfTransmitter with
  | none => (false, s)
  | some tx =>
    -- Stop logic
    let isStop := decide (type = ShockerCommandType.Stop)
    let type := if isStop then ShockerCommandType.Vibrate else type
    let intensity := if isStop then 0 else intensity
    let durationMs := if isStop then 300 else durationMs
    let tx := if isStop then tx.ClearPendingCommands else tx
    let calls := if isStop then s.txCalls ++ [TxCall.ClearPendingCommands] else s.txCalls
    let cmd : Command :=
      { model := model, shockerId := shockerId, type := type, intensity := intensity,
        durationMs := durationMs }
    let sent := tx.SendCommand cmd
    let ok := sent.1
    let calls := calls ++ [TxCall.SendCommand cmd]
    let queue :=
      match s.keepAliveQueue with
      | none => none
      | some q =>
        if ok then
          some (xQueueSendKeepAlive q
            { killTask := false, model := model, shockerId := shockerId,
              lastActivityTimestamp := now + durationMs }).2
        else some q
    (ok, { rfTransmitter := some sent.2, keepAliveQueue := queue, txCalls := calls })

/-! ### CommandHandler.cpp: the keep-alive task -/

/-- The function `calculateEepyTime`; `now` is the value of `OpenShock::millis()` it
reads. `std::clamp(v, lo, hi)` is `lo` when `v < lo`, `hi` when `hi < v`, else `v`. -/
def calculateEepyTime (timeToKeepAlive : Int) (now : Int) : Nat :=
  let v := timeToKeepAlive - now
  (if v < 0 then 0 else if KEEP_ALIVE_INTERVAL < v then KEEP_ALIVE_INTERVAL else v).toNat

/-- The local variables of `_keepAliveTask`. The entries of `activityMap` are kept in
the order in which the `for` loop visits them (the order of a `std::unordered_map` is
not specified, so every order is possible). -/
structure KeepAliveTask where
  timeToKeepAlive : Int
  activityMap : List KnownShocker
deriving DecidableEq, Repr

/-- The keep-alive command of a tracked shocker: the first five arguments of the
`SendCommand` call in `_keepAliveTask` (the sixth one, `false`, is a parameter of the
transmitter that neither the sources nor the spec describe). -/
def keepAliveCommand (cmdRef : KnownShocker) : Command :=
  { model := cmdRef.model, shockerId := cmdRef.shockerId, type := ShockerCommandType.Vibrate,
    intensity := 0, durationMs := KEEP_ALIVE_DURATION }

/-- The `for` loop of `_keepAliveTask` over the entries still to visit: the entries
after the loop, the state after the calls made, and the value of `timeToKeepAlive`.
The `break` taken when `s_rfTransmitter` is `nullptr` leaves the entry at hand and
all later ones as they are. -/
def keepAliveEntries (now : Int) :
    List KnownShocker → CommandHandlerState → Int → List KnownShocker × CommandHandlerState × Int
  | [], s, timeToKeepAlive => ([], s, timeToKeepAlive)
  | cmdRef :: rest, s, timeToKeepAlive =>
    if cmdRef.lastActivityTimestamp + KEEP_ALIVE_INTERVAL < now then
      match s.rfTransmitter with
      | none => (cmdRef :: rest, s, timeToKeepAlive)
      | some tx =>
        let sent := tx.SendCommand (keepAliveCommand cmdRef)
        let s :=
          { s with
            rfTransmitter := some sent.2
            txCalls := s.txCalls ++ [TxCall.SendCommand (keepAliveCommand cmdRef)] }
        let cmdRef := { cmdRef with lastActivityTimestamp := now }
        let timeToKeepAlive := min timeToKeepAlive (cmdRef.lastActivityTimestamp + KEEP_ALIVE_INTERVAL)
        let visited := keepAliveEntries now rest s timeToKeepAlive
        (cmdRef :: visited.1, visited.2.1, visited.2.2)
    else
      let timeToKeepAlive := min timeToKeepAlive (cmdRef.lastActivityTimestamp + KEEP_ALIVE_INTERVAL)
      let visited := keepAliveEntries now rest s timeToKeepAlive
      (cmdRef :: visited.1, visited.2.1, visited.2.2)

/-- One keep-alive pass of `_keepAliveTask`: the part of its outer loop that follows
the reception of messages, with `now` the value of `OpenShock::millis()` it reads. -/
def keepAlivePass (s : CommandHandlerState) (task : KeepAliveTask) (now : Int) :
    CommandHandlerState × KeepAliveTask :=
  -- Keep track of the minimum activity time, so we know when to wake up
  let timeToKeepAlive := now + KEEP_ALIVE_INTERVAL
  let visited := keepAliveEntries now task.activityMap s timeToKeepAlive
  (visited.2.1, { timeToKeepAlive := visited.2.2, activityMap := visited.1 })

/-- A keep-alive is due for the tracked shocker at the time `now`. -/
def keepAliveDue (now : Int) (cmdRef : KnownShocker) : Bool :=
  decide (cmdRef.lastActivityTimestamp + KEEP_ALIVE_INTERVAL < now)

/-- The tracked shocker after a pass at `now` that served it when it was due. -/
def afterKeepAlive (now : Int) (cmdRef : KnownShocker) : KnownShocker :=
  if keepAliveDue now cmdRef then { cmdRef with lastActivityTimestamp := now } else cmdRef

/-- The earliest of the deadline `start` and the keep-alive deadlines
`lastActivityTimestamp + 60000` of the given shockers. -/
def earliestDeadline (start : Int) (entries : List KnownShocker) : Int :=
  entries.foldl (fun acc cmdRef => min acc (cmdRef.lastActivityTimestamp + KEEP_ALIVE_INTERVAL)) start

/-! ### CommandHandler.cpp: switching the keep-alive task on and off -/

/-- A call that creates or deletes a FreeRTOS object. -/
inductive RtosCall where
  | xQueueCreate
  | vQueueDelete
  | TaskCreateExpensive (handle : Nat)
deriving DecidableEq, Repr

/-- The static variables that `_internalSetKeepAliveEnabled` reads or writes, and
the record of the queues and tasks it created or deleted, oldest first. -/
structure KeepAliveState where
  /-- The variable `s_keepAliveQueue` with the messages waiting in it; `none` is
  `nullptr`. -/
  keepAliveQueue : Option (List KnownShocker)
  /-- The variable `s_keepAliveTaskHandle`; `none` is `nullptr`. -/
  keepAliveTaskHandle : Option Nat
  rtosCalls : List RtosCall
deriving DecidableEq, Repr

/-- What FreeRTOS answers during one call of `_internalSetKeepAliveEnabled`. -/
structure KeepAliveEnv where
  /-- Whether `xQueueCreate` returns a queue. -/
  queueCreated : Bool
  /-- The handle that `TaskUtils::TaskCreateExpensive` stores when it returns
  `pdPASS`; `none` when it fails. -/
  taskCreated : Option Nat
  /-- The answers to `eTaskGetState(s_keepAliveTaskHandle) == eDeleted`, one for
  every test the waiting loop makes. -/
  taskDeleted : List Bool
deriving DecidableEq, Repr

/-- The message `KnownShocker cmd {.killTask = true}`. -/
def killMessage : KnownShocker :=
  { killTask := true, model := 0, shockerId := 0, lastActivityTimestamp := 0 }

/-- The loop of `_internalSetKeepAliveEnabled` that waits for the task to stop and
sends it the kill message after every test that finds it alive. The result is `none`
when the answers end before the task is reported deleted. -/
def waitForKeepAliveTask : List Bool → List KnownShocker → Option (List KnownShocker)
  | [], _ => none
  | true :: _, queue => some queue
  | false :: answers, queue =>
    waitForKeepAliveTask answers (xQueueSendKeepAlive queue killMessage).2

/-- The function `_internalSetKeepAliveEnabled`. -/
def _internalSetKeepAliveEnabled (env : KeepAliveEnv) (s : KeepAliveState) (enabled : Bool) :
    Option (Bool × KeepAliveState) :=
  let wasEnabled := s.keepAliveQueue.isSome && s.keepAliveTaskHandle.isSome
  if enabled = wasEnabled then
    some (true, s)
  else if enabled then
    if !env.queueCreated then
      some (false, { s with keepAliveQueue := none })
    else
      let s := { s with keepAliveQueue := some [], rtosCalls := s.rtosCalls ++ [RtosCall.xQueueCreate] }
      match env.taskCreated with
      | none =>
        some (false,
          { s with keepAliveQueue := none, rtosCalls := s.rtosCalls ++ [RtosCall.vQueueDelete] })
      | some handle =>
        some (true,
          { s with
            keepAliveTaskHandle := some handle
            rtosCalls := s.rtosCalls ++ [RtosCall.TaskCreateExpensive handle] })
  else
    match s.keepAliveTaskHandle, s.keepAliveQueue with
    | some _, some queue =>
      -- Wait for the task to stop
      match waitForKeepAliveTask env.taskDeleted queue with
      | none => none
      | some _ =>
        some (true,
          { s with keepAliveQueue := none, rtosCalls := s.rtosCalls ++ [RtosCall.vQueueDelete] })
    | _, _ => some (true, s)

/-! ### HTTPRequestManager.cpp: the rate limiter -/

def HTTP_BUFFER_SIZE : Nat := 4096

/-- The constant `HTTP_DOWNLOAD_SIZE_LIMIT`: 200 MB. -/
def HTTP_DOWNLOAD_SIZE_LIMIT : Nat := 200 * 1024 * 1024

/-- The nested struct `RateLimit::Limit`. -/
structure Limit where
  durationMs : Int
  count : Nat
deriving DecidableEq, Repr

/-- The data members of `struct RateLimit` (its mutex is not modelled). -/
structure RateLimit where
  blockUntilMs : Int
  limits : List Limit
  requests : List Int
deriving DecidableEq, Repr

/-- The constructor `RateLimit::RateLimit()`. -/
def RateLimit.init : RateLimit := { blockUntilMs := 0, limits := [], requests := [] }

/-- The predicate of the `std::upper_bound` call in `addLimit`, as a test on the
stored limit: the lambda `[](int64_t durationMs, const Limit& limit)` returning
`durationMs > limit.durationMs`. -/
def addLimitComp (durationMs : Int) (limit : Limit) : Bool :=
  decide (durationMs > limit.durationMs)

/-- The method `RateLimit::addLimit`. `std::upper_bound(first, last, value, comp)` is
the first position whose element `e` satisfies `comp(value, e)` (the range is
partitioned by it, since only `addLimit` ever inserts); the new limit is inserted
in front of that position. -/
def RateLimit.addLimit (rl : RateLimit) (durationMs : Nat) (count : Nat) : RateLimit :=
  { rl with
    limits :=
      rl.limits.takeWhile (fun l => !addLimitComp durationMs l)
        ++ { durationMs := durationMs, count := count }
          :: rl.limits.dropWhile (fun l => !addLimitComp durationMs l) }

/-- The method `RateLimit::clearLimits`. -/
def RateLimit.clearLimits (rl : RateLimit) : RateLimit := { rl with limits := [] }

/-- The method `RateLimit::tryRequest`, with `now` the value of `OpenShock::millis()`.
The result is `none` where the source evaluates `m_limits.back()` on an empty
vector (undefined behaviour), which needs a recorded request and no limit. -/
def RateLimit.tryRequest (rl : RateLimit) (now : Int) : Option (Bool × RateLimit) :=
  if rl.blockUntilMs > now then
    some (false, rl)
  else
    -- Remove all requests that are older than `m_limits.back().durationMs`
    let pruned : Option (List Int) :=
      match rl.requests, rl.limits.getLast? with
      | [], _ => some []
      | _ :: _, none => none
      | r :: rs, some back => some ((r :: rs).dropWhile (fun q => decide (q < now - back.durationMs)))
    match pruned with
    | none => none
    | some requests =>
      -- Check if we've exceeded any limits
      match rl.limits.find? (fun limit => decide (requests.length ≥ limit.count)) with
      | some it =>
        some (false, { rl with blockUntilMs := now + it.durationMs, requests := requests })
      | none =>
        -- Add the request
        some (true, { rl with requests := requests ++ [now] })

/-- The method `RateLimit::clearRequests`. -/
def RateLimit.clearRequests (rl : RateLimit) : RateLimit := { rl with requests := [] }

/-- The method `RateLimit::blockUntil`. -/
def RateLimit.blockUntil (rl : RateLimit) (blockUntilMs : Int) : RateLimit :=
  { rl with blockUntilMs := blockUntilMs }

/-- The method `RateLimit::requestsSince`. -/
def RateLimit.requestsSince (rl : RateLimit) (sinceMs : Int) : Nat :=
  rl.requests.countP (fun requestMs => decide (requestMs ≥ sinceMs))

/-- A run of `tryRequest` calls at the given times, oldest first: the answers in
call order and the final limiter. -/
def RateLimit.tryRequests (rl : RateLimit) : List Int → Option (List Bool × RateLimit)
  | [] => some ([], rl)
  | now :: rest =>
    match rl.tryRequest now with
    | none => none
    | some (ok, rl1) =>
      match RateLimit.tryRequests rl1 rest with
      | none => none
      | some (oks, rl2) => some (ok :: oks, rl2)

/-- The function `_rateLimitFactory`; `apiDomain` is the build-time constant
`OPENSHOCK_API_DOMAIN`, which the sources do not define. -/
def _rateLimitFactory (apiDomain : List Char) (domain : List Char) : RateLimit :=
  let rateLimit := RateLimit.init
  -- Add default limits
  let rateLimit := rateLimit.addLimit 1000 5
  let rateLimit := rateLimit.addLimit (10 * 1000) 10
  -- per-domain limits
  if domain = apiDomain then
    let rateLimit := rateLimit.addLimit (60 * 1000) 12
    rateLimit.addLimit (60 * 60 * 1000) 120
  else
    rateLimit

/-! ### HTTPRequestManager.cpp: the domain of a URL -/

/-- The call `std::string_view::find(str)`: the first position at which `str`
occurs in `s`; `none` is `npos`. -/
def svFind (s str : List Char) : Option Nat :=
  (List.range (s.length + 1)).find? (fun i => str.isPrefixOf (s.drop i))

/-- The call `std::string_view::find(ch)`: the first position of `ch` in `s`;
`none` is `npos`. -/
def svFindChar (s : List Char) (ch : Char) : Option Nat :=
  if ch ∈ s then some (s.indexOf ch) else none

/-- The call `std::string_view::rfind(ch, pos)`: the last position of `ch` in `s`
that is at most `pos`; `none` is `npos`, as a result and as the argument `pos`. -/
def svRfindChar (s : List Char) (ch : Char) (pos : Option Nat) : Option Nat :=
  let limit := match pos with
    | none => s.length
    | some p => min (p + 1) s.length
  let searched := s.take limit
  if ch ∈ searched then some (searched.length - 1 - searched.reverse.indexOf ch) else none

/-- The value of `seperator - 1` in `std::size_t` arithmetic, as a position:
`0 - 1` wraps around to the largest value, which is `npos`. -/
def sizePred (seperator : Nat) : Option Nat :=
  if seperator = 0 then none else some (seperator - 1)

/-- The function `_getDomain`. The statement `url.substr(seperator + 3);` of the
source computes a view and discards it: `url` stays as it was. -/
def _getDomain (url : List Char) : List Char :=
  if url.isEmpty then
    []
  else
    -- Remove the protocol
    let url :=
      match svFind url [':', '/', '/'] with
      | some seperator =>
        let _discarded := url.drop (seperator + 3)
        url
      | none => url
    -- Remove the path
    let url :=
      match svFindChar url '/' with
      | some seperator => url.take seperator
      | none => url
    -- Remove the port
    let url :=
      match svRfindChar url ':' none with
      | some seperator => url.take seperator
      | none => url
    -- Remove all subdomains
    match svRfindChar url '.' none with
    | none => url
    | some seperator =>
      match svRfindChar url '.' (sizePred seperator) with
      | some seperator => url.drop (seperator + 1)
      | none => url

/-- The host name made of the given labels, joined by dots. -/
def hostOfLabels (labels : List (List Char)) : List Char :=
  List.intercalate ['.'] labels

/-- The URL without scheme `host[:port][/path]`. -/
def urlOfParts (labels : List (List Char)) (port path : Option (List Char)) : List Char :=
  hostOfLabels labels
    ++ (match port with
        | none => []
        | some p => ':' :: p)
    ++ (match path with
        | none => []
        | some p => '/' :: p)

/-! ### HTTPRequestManager.cpp: the chunk parser -/

/-- The enumerators of `HTTP::RequestResult` that the sources use (the declaration
is in `http/HTTPRequestManager.h`, which is not among them). -/
inductive RequestResult where
  | InvalidURL
  | RequestFailed
  | TimedOut
  | RateLimited
  | CodeRejected
  | Cancelled
  | Success
deriving DecidableEq, Repr

structure StreamReaderResult where
  result : RequestResult
  nWritten : Nat
deriving DecidableEq, Repr

/-- The function `_isCRLF`, applied to the pointer `buffer + offset`: the byte at
`offset` is '\r' (13) and the next one is '\n' (10). -/
def _isCRLF (buffer : List Nat) (offset : Nat) : Bool :=
  buffer[offset]? == some 13 && buffer[offset + 1]? == some 10

/-- The function `_tryFindCRLF`: the first `cur` with `cur < len - 1` at which a CRLF
starts; `none` is the result `false`, which leaves `pos` untouched. -/
def _tryFindCRLF (buffer : List Nat) (len : Nat) : Option Nat :=
  (List.range (len - 1)).find? (fun cur => _isCRLF buffer cur)

/-- The value of one hexadecimal digit in `_tryParseHexSizeT`: '0'..'9', 'a'..'f',
'A'..'F'; `none` for any other character. -/
def hexDigitValue (c : Nat) : Option Nat :=
  if 48 ≤ c ∧ c ≤ 57 then some (c - 48)
  else if 97 ≤ c ∧ c ≤ 102 then some (c - 97 + 10)
  else if 65 ≤ c ∧ c ≤ 70 then some (c - 65 + 10)
  else none

/-- The loop of `_tryParseHexSizeT`, from the value `result` accumulated so far. -/
def parseHexDigits (result : Nat) : List Nat → Option Nat
  | [] => some result
  | c :: rest =>
    match hexDigitValue c with
    | some d => parseHexDigits ((result <<< 4) ||| d) rest
    | none => none

/-- The function `_tryParseHexSizeT`; `none` is the result `false`. At most
`sizeof(std::size_t) * 2` digits are accepted, so that `result << 4` never leaves the
range of `std::size_t`. -/
def _tryParseHexSizeT (P : Platform) (str : List Nat) : Option Nat :=
  if str.isEmpty || decide (str.length > P.sizeofSizeT * 2) then none
  else parseHexDigits 0 str

inductive ParserState where
  | Ok
  | NeedMoreData
  | Invalid
deriving DecidableEq, Repr

/-- The function `_parseChunkHeader` on the first `bufferLen = buffer.length` bytes of
the buffer. The result carries the values of the reference parameters `headerLen` and
`payloadLen` after the call; with the state `Invalid` no caller reads them. -/
def _parseChunkHeader (P : Platform) (buffer : List Nat) (headerLen payloadLen : Nat) :
    ParserState × Nat × Nat :=
  if buffer.length < 5 then
    (ParserState.NeedMoreData, headerLen, payloadLen)
  else
    -- Find the first CRLF
    match _tryFindCRLF buffer buffer.length with
    | none => (ParserState.NeedMoreData, headerLen, payloadLen)
    | some headerLen =>
      -- Header must have at least one character
      if headerLen = 0 then
        (ParserState.Invalid, headerLen, payloadLen)
      else
        -- Check for end of size field
        let sizeFieldEnd :=
          match (List.range headerLen).find? (fun i => buffer[i]? == some 59) with
          | some i => i
          | none => headerLen
        -- Bounds check
        if sizeFieldEnd = 0 ∨ sizeFieldEnd > 16 then
          (ParserState.Invalid, headerLen, payloadLen)
        else
          -- Parse the chunk size
          match _tryParseHexSizeT P (buffer.take sizeFieldEnd) with
          | none => (ParserState.Invalid, headerLen, payloadLen)
          | some payloadLen =>
            if payloadLen > HTTP_DOWNLOAD_SIZE_LIMIT then
              (ParserState.Invalid, headerLen, payloadLen)
            else
              -- Set the header length to the end of the CRLF
              (ParserState.Ok, headerLen + 2, payloadLen)

/-- The function `_parseChunk`, with the values of `payloadPos` and `payloadLen` after
the call. -/
def _parseChunk (P : Platform) (buffer : List Nat) (payloadPos payloadLen : Nat) :
    ParserState × Nat × Nat :=
  let header :=
    if payloadPos = 0 then _parseChunkHeader P buffer payloadPos payloadLen
    else (ParserState.Ok, payloadPos, payloadLen)
  match header with
  | (ParserState.Ok, payloadPos, payloadLen) =>
    let totalLen := payloadPos + payloadLen + 2
    if buffer.length < totalLen then
      (ParserState.NeedMoreData, payloadPos, payloadLen)
    else if !_isCRLF buffer (totalLen - 2) then
      (ParserState.Invalid, payloadPos, payloadLen)
    else
      (ParserState.Ok, payloadPos, payloadLen)
  | other => other

/-- The function `_alignChunk`: the buffer (its first `bufferCursor` bytes) after the
consumed chunk has been moved out. -/
def _alignChunk (buffer : List Nat) (payloadPos payloadLen : Nat) : List Nat :=
  let totalLen := payloadPos + payloadLen + 2
  let remaining := buffer.length - totalLen
  if remaining > 0 then (buffer.drop totalLen).take remaining else []

/-! ### HTTPRequestManager.cpp: the stream readers -/

/-- What the environment answers in one iteration of a reader loop. -/
structure StreamEvent where
  /-- The value of `client.connected()`. -/
  connected : Bool
  /-- The value of `OpenShock::millis()`. -/
  now : Int
  /-- The value of `stream->available()`. -/
  available : Nat
  /-- The most bytes that `stream->readBytes` hands over in this call; it returns
  that many, or fewer when the caller asked for fewer or the stream holds fewer. -/
  readLen : Nat
deriving DecidableEq, Repr

/-- One call of the download callback: the offset and the bytes passed. -/
abbrev CallbackCall := Nat × List Nat

/-- The local variables of `_readStreamDataChunked`, and the callback calls made so
far. `buffer` holds the first `bufferCursor` bytes of the 4096-byte buffer. -/
structure ChunkedReader where
  buffer : List Nat
  payloadPos : Nat
  payloadSize : Nat
  state : ParserState
  totalWritten : Nat
  calls : List CallbackCall
deriving DecidableEq, Repr

/-- How a pass through a loop body ends. -/
inductive LoopStep (σ : Type) where
  /-- The body ends or executes `continue`. -/
  | next (s : σ)
  /-- The body executes `break`, `result` holding the given value. -/
  | exit (result : RequestResult) (s : σ)

/-- The reader with which a pass through the loop body ends. -/
def LoopStep.state {σ : Type} : LoopStep σ → σ
  | LoopStep.next s => s
  | LoopStep.exit _ s => s

/-- The part of the loop body of `_readStreamDataChunked` from the label `parseMore`
on; `goto parseMore` is the recursive call. Every pass shortens the buffer, so that a
`fuel` above the buffer length is never used up. -/
def parseMore (P : Platform) (downloadCallback : Nat → List Nat → Bool) :
    Nat → ChunkedReader → Option (LoopStep ChunkedReader)
  | 0, _ => none
  | fuel + 1, r =>
    let parsed := _parseChunk P r.buffer r.payloadPos r.payloadSize
    let r := { r with state := parsed.1, payloadPos := parsed.2.1, payloadSize := parsed.2.2 }
    match r.state with
    | ParserState.Invalid => some (LoopStep.exit RequestResult.RequestFailed r)
    | ParserState.NeedMoreData =>
      if r.buffer.length = HTTP_BUFFER_SIZE then
        some (LoopStep.exit RequestResult.RequestFailed r)
      else
        some (LoopStep.next r)
    | ParserState.Ok =>
      -- Check for zero chunk size (end of transfer)
      if r.payloadSize = 0 then
        some (LoopStep.exit RequestResult.Success r)
      else
        let data := (r.buffer.drop r.payloadPos).take r.payloadSize
        let accepted := downloadCallback r.totalWritten data
        let r := { r with calls := r.calls ++ [(r.totalWritten, data)] }
        if !accepted then
          some (LoopStep.exit RequestResult.Cancelled r)
        else
          let r :=
            { r with
              totalWritten := r.totalWritten + r.payloadSize
              buffer := _alignChunk r.buffer r.payloadPos r.payloadSize
              payloadSize := 0
              payloadPos := 0 }
          if r.buffer.length > 0 then parseMore P downloadCallback fuel r
          else some (LoopStep.next r)

/-- The `while` loop of `_readStreamDataChunked`: `events` are the answers of the
environment, one per iteration, and `stream` the bytes the server has still to
deliver. The result is `none` when the events end before the loop does. -/
def readLoopChunked (P : Platform) (downloadCallback : Nat → List Nat → Bool) (begin : Int)
    (timeoutMs : Nat) : List StreamEvent → List Nat → ChunkedReader →
    Option (RequestResult × ChunkedReader)
  | [], _, _ => none
  | ev :: events, stream, r =>
    if !(ev.connected && r.state != ParserState.Invalid) then
      some (RequestResult.Success, r)
    else if begin + timeoutMs < ev.now then
      some (RequestResult.TimedOut, r)
    else if ev.available = 0 then
      readLoopChunked P downloadCallback begin timeoutMs events stream r
    else
      let bytesRead := min ev.readLen (min (HTTP_BUFFER_SIZE - r.buffer.length) stream.length)
      if bytesRead = 0 then
        some (RequestResult.RequestFailed, r)
      else
        let r := { r with buffer := r.buffer ++ stream.take bytesRead }
        match parseMore P downloadCallback (r.buffer.length + 1) r with
        | none => none
        | some (LoopStep.exit result r) => some (result, r)
        | some (LoopStep.next r) =>
          readLoopChunked P downloadCallback begin timeoutMs events (stream.drop bytesRead) r

/-- The function `_readStreamDataChunked` (the allocation of its buffer succeeding):
its result and the callback calls it made, in call order. -/
def _readStreamDataChunked (P : Platform) (events : List StreamEvent) (stream : List Nat)
    (downloadCallback : Nat → List Nat → Bool) (begin : Int) (timeoutMs : Nat) :
    Option (StreamReaderResult × List CallbackCall) :=
  let r : ChunkedReader :=
    { buffer := [], payloadPos := 0, payloadSize := 0, state := ParserState.NeedMoreData,
      totalWritten := 0, calls := [] }
  match readLoopChunked P downloadCallback begin timeoutMs events stream r with
  | none => none
  | some (result, r) => some ({ result := result, nWritten := r.totalWritten }, r.calls)

/-- The `while` loop of `_readStreamData`, from the value of `nWritten` and the
callback calls made so far; `events` and `stream` are as in `readLoopChunked`. -/
def readLoopFixed (downloadCallback : Nat → List Nat → Bool) (begin : Int) (timeoutMs : Nat)
    (contentLength : Nat) : List StreamEvent → List Nat → Nat → List CallbackCall →
    Option (StreamReaderResult × List CallbackCall)
  | [], _, _, _ => none
  | ev :: events, stream, nWritten, calls =>
    if !(ev.connected && decide (nWritten < contentLength)) then
      some ({ result := RequestResult.Success, nWritten := nWritten }, calls)
    else if begin + timeoutMs < ev.now then
      some ({ result := RequestResult.TimedOut, nWritten := nWritten }, calls)
    else if ev.available = 0 then
      readLoopFixed downloadCallback begin timeoutMs contentLength events stream nWritten calls
    else
      let bytesToRead := min ev.available HTTP_BUFFER_SIZE
      let bytesRead := min ev.readLen (min bytesToRead stream.length)
      if bytesRead = 0 then
        some ({ result := RequestResult.RequestFailed, nWritten := nWritten }, calls)
      else
        let data := stream.take bytesRead
        let accepted := downloadCallback nWritten data
        let calls := calls ++ [(nWritten, data)]
        if !accepted then
          some ({ result := RequestResult.Cancelled, nWritten := nWritten }, calls)
        else
          readLoopFixed downloadCallback begin timeoutMs contentLength events
            (stream.drop bytesRead) (nWritten + bytesRead) calls

/-- The function `_readStreamData`: its result and the callback calls it made. -/
def _readStreamData (events : List StreamEvent) (stream : List Nat) (contentLength : Nat)
    (downloadCallback : Nat → List Nat → Bool) (begin : Int) (timeoutMs : Nat) :
    Option (StreamReaderResult × List CallbackCall) :=
  readLoopFixed downloadCallback begin timeoutMs contentLength events stream 0 []

/-! ### HTTPRequestManager.cpp: the GET request -/

def HTTP_CODE_REQUEST_TIMEOUT : Int := 408

def HTTP_CODE_TOO_MANY_REQUESTS : Int := 429

/-- The value of a string of decimal digits. -/
def decimalValue (s : List Char) : Nat :=
  s.foldl (fun acc c => 10 * acc + (c.toNat - 48)) 0

/-- The library call `String::toInt()` (which is `atol`) on a string of decimal
digits, the only strings `_doGetStream` calls it on: the value of the string, and the
largest `long` when the value is above it. -/
def toInt (P : Platform) (s : List Char) : Int :=
  min (decimalValue s : Int) (2 ^ (P.longBits - 1) - 1)

/-- What the HTTP client and the clock answer during one call of `_doGetStream`. -/
structure HttpExchange where
  /-- The value of `OpenShock::millis()` on entry, kept in `begin`. -/
  nowBegin : Int
  /-- The value of `client.begin(url)`. -/
  beginOk : Bool
  /-- The value of `client.GET()`. -/
  responseCode : Int
  /-- The value of `OpenShock::millis()` in the timeout test that follows `GET`. -/
  nowAfterGet : Int
  /-- The value of `client.header("Retry-After")`: empty when the header is absent. -/
  retryAfter : List Char
  /-- The value of `OpenShock::millis()` read when the block-until time is computed. -/
  nowRateLimited : Int
  /-- The value of `client.getSize()`. -/
  contentLength : Int
  /-- Whether `client.getStreamPtr()` is not `nullptr`. -/
  streamPresent : Bool
  /-- The answers of the environment to the reader loop, one per iteration. -/
  events : List StreamEvent
  /-- The bytes of the response body. -/
  stream : List Nat

/-- The type `HTTP::Response<std::size_t>`. -/
structure Response where
  result : RequestResult
  code : Int
  data : Nat
deriving DecidableEq, Repr

/-- The function `_doGetStream`: the response, the rate limiter after the call and
the calls made of the download callback. -/
def _doGetStream (P : Platform) (x : HttpExchange) (acceptedCodes : List Int)
    (rateLimiter : RateLimit) (contentLengthCallback : Int → Bool)
    (downloadCallback : Nat → List Nat → Bool) (timeoutMs : Nat) :
    Option (Response × RateLimit × List CallbackCall) :=
  let begin := x.nowBegin
  if !x.beginOk then
    some ({ result := RequestResult.RequestFailed, code := 0, data := 0 }, rateLimiter, [])
  else
    let responseCode := x.responseCode
    if responseCode = HTTP_CODE_REQUEST_TIMEOUT ∨ begin + timeoutMs < x.nowAfterGet then
      some ({ result := RequestResult.TimedOut, code := responseCode, data := 0 }, rateLimiter, [])
    else if responseCode = HTTP_CODE_TOO_MANY_REQUESTS then
      -- Get "Retry-After" header
      let retryAfterStr := x.retryAfter
      -- Try to parse it as an integer (delay-seconds)
      let retryAfter : Int :=
        if retryAfterStr.length > 0 ∧ retryAfterStr.all Char.isDigit then toInt P retryAfterStr
        else 0
      -- If header missing/unparseable, default to 15 seconds
      let retryAfter : Int := if retryAfter ≤ 0 then 15 else retryAfter
      -- Get the block-until time; the product is computed in the type `long`
      let blockUntilMs := x.nowRateLimited + wrapSigned P.longBits (retryAfter * 1000)
      -- Apply the block-until time
      some ({ result := RequestResult.RateLimited, code := responseCode, data := 0 },
        rateLimiter.blockUntil blockUntilMs, [])
    else if !acceptedCodes.contains responseCode then
      some ({ result := RequestResult.CodeRejected, code := responseCode, data := 0 },
        rateLimiter, [])
    else
      let contentLength := x.contentLength
      if contentLength = 0 then
        some ({ result := RequestResult.Success, code := responseCode, data := 0 },
          rateLimiter, [])
      else if contentLength > 0 ∧ contentLength > HTTP_DOWNLOAD_SIZE_LIMIT then
        some ({ result := RequestResult.RequestFailed, code := responseCode, data := 0 },
          rateLimiter, [])
      else if contentLength > 0 ∧ !contentLengthCallback contentLength then
        some ({ result := RequestResult.Cancelled, code := responseCode, data := 0 },
          rateLimiter, [])
      else if !x.streamPresent then
        some ({ result := RequestResult.RequestFailed, code := 0, data := 0 }, rateLimiter, [])
      else
        let read :=
          if contentLength > 0 then
            _readStreamData x.events x.stream contentLength.toNat downloadCallback begin timeoutMs
          else
            _readStreamDataChunked P x.events x.stream downloadCallback begin timeoutMs
        match read with
        | none => none
        | some (result, calls) =>
          some ({ result := result.result, code := responseCode, data := result.nWritten },
            rateLimiter, calls)

/-- The number of seconds of cooldown that a 429 response with the given Retry-After
header value asks for: the value of the header when it is a non-empty string of
decimal digits with a value greater than 0, and 15 in every other case. -/
def retryAfterSeconds (header : List Char) : Nat :=
  if header ≠ [] ∧ header.all Char.isDigit = true ∧ 0 < decimalValue header then
    decimalValue header
  else 15

/-! ### Chunked transfer encoding, as the sender writes it -/

/-- The character of the hexadecimal digit `d`, in lower case. -/
def hexDigitChar (d : Nat) : Nat :=
  if d < 10 then 48 + d else 87 + d

/-- The hexadecimal digits of `n`, most significant first (`fuel` bounds their number). -/
def hexDigits : Nat → Nat → List Nat
  | 0, _ => []
  | fuel + 1, n =>
    if n < 16 then [hexDigitChar n]
    else hexDigits fuel (n / 16) ++ [hexDigitChar (n % 16)]

/-- The number `n` in hexadecimal, lower case, without leading zeros. -/
def toHex (n : Nat) : List Nat :=
  hexDigits (n + 1) n

/-- One chunk of a chunked body: `{hex length}CRLF{payload}CRLF`. -/
def encodeChunk (payload : List Nat) : List Nat :=
  toHex payload.length ++ 13 :: 10 :: (payload ++ [13, 10])

/-- The callback calls that deliver the given payloads one by one, the first at
offset `offset` and each next one at the offset where the previous one ended. -/
def deliveries (offset : Nat) : List (List Nat) → List CallbackCall
  | [] => []
  | payload :: rest => (offset, payload) :: deliveries (offset + payload.length) rest

/-- The total number of bytes of the given payloads. -/
def totalLength (payloads : List (List Nat)) : Nat :=
  (payloads.map List.length).sum

/-- The bytes `h` are a size field that the chunk parser reads as the number `n`:
one to sixteen characters, no more than `std::size_t` has hexadecimal digits, none
of them '\r' or ';', with the hexadecimal value `n`, which is within the download
limit. -/
structure ValidSizeField (P : Platform) (h : List Nat) (n : Nat) : Prop where
  ne_nil : h ≠ []
  length_le : h.length ≤ 16
  length_le_size : h.length ≤ P.sizeofSizeT * 2
  chars : ∀ c ∈ h, c ≠ 13 ∧ c ≠ 59
  parse : parseHexDigits 0 h = some n
  small : n ≤ HTTP_DOWNLOAD_SIZE_LIMIT

/-- The size field of a chunk header line: the bytes before its first ';', or the
whole line when it has none. -/
def sizeFieldOf (line : List Nat) : List Nat :=
  line.takeWhile (fun c => c != 59)

/-- The value of a string of hexadecimal digits. -/
def hexValue (field : List Nat) : Nat :=
  field.foldl (fun acc c => 16 * acc + (hexDigitValue c).getD 0) 0

/-! ### Chunks before a chunk that does not fit into the buffer -/

/-- The chunks that carry the given payloads, one after the other, without a terminal
chunk. -/
def chunksOf : List (List Nat) → List Nat
  | [] => []
  | payload :: rest => encodeChunk payload ++ chunksOf rest

/-- The header variables of the reader are unset, or hold the position and length of
the payload of the next chunk: the first of the chunks of `ps`, or, when there is
none, the chunk with header line `line` and payload `q` that follows them. -/
def HeaderVarsBefore (ps : List (List Nat)) (line q : List Nat) (r : ChunkedReader) : Prop :=
  r.payloadPos = 0 ∨
    match ps with
    | [] => r.payloadPos = line.length + 2 ∧ r.payloadSize = q.length
    | p :: _ => r.payloadPos = (toHex p.length).length + 2 ∧ r.payloadSize = p.length

/-- The length of the next chunk: the first of the chunks of `ps`, or, when there is
none, the chunk with header line `line` and payload `q`. -/
def nextChunkLength (ps : List (List Nat)) (line q : List Nat) : Nat :=
  match ps with
  | [] => line.length + 2 + q.length + 2
  | p :: _ => (encodeChunk p).length

/-! ### WiFiScanManager.cpp -/

def OPENSHOCK_WIFI_SCAN_MAX_CHANNEL : Nat := 13

/-- The enum `WiFiScanTaskNotificationFlags`. -/
def CHANNEL_DONE : Nat := 1 <<< 0

def ERROR : Nat := 1 <<< 1

def WIFI_DISABLED : Nat := 1 <<< 2

def CLEAR_FLAGS : Nat := CHANNEL_DONE ||| ERROR

/-- The values of the enum `WiFiScanStatus` that `WiFiScanManager.cpp` uses (its
declaration is not among the sources). -/
inductive WiFiScanStatus where
  | Started
  | InProgress
  | Completed
  | TimedOut
  | Aborted
  | Error
deriving DecidableEq, Repr

/-- The constant `WIFI_SCAN_RUNNING` of the Arduino WiFi library. -/
def WIFI_SCAN_RUNNING : Int := -1

/-- The constant `WIFI_SCAN_FAILED` of the Arduino WiFi library. -/
def WIFI_SCAN_FAILED : Int := -2

/-- The function `_isScanError`. -/
def _isScanError (retval : Int) : Bool :=
  decide (retval < 0) && decide (retval ≠ WIFI_SCAN_RUNNING)

/-- What `_scanningTaskImpl` did: the channels on which it started a scan, the
statuses it passed to `_notifyStatusChangedHandlers`, and the flags that
`_handleScanError` sent with `_notifyTask`, each oldest first. -/
structure ScanTrace where
  scanned : List Nat
  statuses : List WiFiScanStatus
  notified : List Nat
deriving DecidableEq, Repr

/-- The function `_handleScanError`. -/
def _handleScanError (retval : Int) (trace : ScanTrace) : ScanTrace :=
  if retval ≥ 0 then trace
  else { trace with notified := trace.notified ++ [ERROR] }

/-- The function `_scanChannel`; `retval` is what `WiFi.scanNetworks` returns. -/
def _scanChannel (channel : Nat) (retval : Int) (trace : ScanTrace) : Int × ScanTrace :=
  let trace := { trace with scanned := trace.scanned ++ [channel] }
  if !_isScanError retval then (retval, trace)
  else (retval, _handleScanError retval trace)

/-- The `while (true)` loop of `_scanningTaskImpl`. `waits` are the outcomes of the
`xTaskNotifyWait` calls, one per iteration: `none` when the call does not return
`pdTRUE` (timeout), else the notification value; `scans` are the values that the
`WiFi.scanNetworks` calls return. The `uint8_t` variable `channel` is decremented
modulo 256. The result is `none` when these answers end before the loop does. -/
def scanLoop : List (Option Nat) → List Int → Nat → ScanTrace → Option (WiFiScanStatus × ScanTrace)
  | [], _, _, _ => none
  | none :: _, _, _, trace => some (WiFiScanStatus.TimedOut, trace)
  | some notificationFlags :: waits, scans, channel, trace =>
    -- Check if we were notified of an error or if WiFi was disabled
    if notificationFlags ≠ CHANNEL_DONE then
      if notificationFlags &&& WIFI_DISABLED ≠ 0 then
        some (WiFiScanStatus.Aborted, trace)
      else if notificationFlags &&& ERROR ≠ 0 then
        some (WiFiScanStatus.Error, trace)
      else
        some (WiFiScanStatus.Error, trace)
    else
      -- Select the next channel, or break if we're done
      let channel := (channel + 255) % 256
      if channel ≤ 0 then
        some (WiFiScanStatus.Completed, trace)
      else
        -- Start the scan on the next channel
        match scans with
        | [] => none
        | retval :: scans =>
          let scan := _scanChannel channel retval trace
          if _isScanError scan.1 then some (WiFiScanStatus.Error, scan.2)
          else scanLoop waits scans channel scan.2

/-- The function `_scanningTaskImpl`. -/
def _scanningTaskImpl (scans : List Int) (waits : List (Option Nat)) :
    Option (WiFiScanStatus × ScanTrace) :=
  -- Start the scan on the highest channel and work our way down
  let channel := OPENSHOCK_WIFI_SCAN_MAX_CHANNEL
  match scans with
  | [] => none
  | retval :: scans =>
    let scan := _scanChannel channel retval { scanned := [], statuses := [], notified := [] }
    if _isScanError scan.1 then some (WiFiScanStatus.Error, scan.2)
    else
      let trace :=
        { scan.2 with
          statuses := scan.2.statuses ++ [WiFiScanStatus.Started, WiFiScanStatus.InProgress] }
      scanLoop waits scans channel trace

/-- How far a task created by `StartScan` has come in `_scanningTask`. -/
inductive ScanTaskPhase where
  /-- The task is in `_scanningTaskImpl`. -/
  | scanning
  /-- The task has passed the result of the scan to the status handlers. -/
  | reported
  /-- The task has set `s_scanTaskHandle` to `nullptr`. -/
  | exiting
  /-- The task was deleted, by `vTaskDelete(nullptr)` or by `AbortScan`. -/
  | deleted
deriving DecidableEq, Repr

/-- The static variables of `WiFiScanManager.cpp` that `StartScan`, `AbortScan` and
`_scanningTask` read or write, with the tasks created so far and the calls made on
the status handlers. A task handle is the position of the task in `tasks`. -/
structure WiFiScanState where
  /-- The variable `s_scanTaskHandle`; `none` is `nullptr`. -/
  scanTaskHandle : Option Nat
  /-- Every task that `TaskCreateExpensive` created, oldest first. -/
  tasks : List ScanTaskPhase
  /-- The keys of the map `s_statusChangedHandlers`, in the order of iteration. -/
  statusChangedHandlers : List Nat
  /-- The calls made on the status handlers, oldest first: key and status. -/
  statusCalls : List (Nat × WiFiScanStatus)
deriving DecidableEq, Repr

/-- The test `eTaskGetState(handle) == eDeleted`. -/
def taskDeleted (s : WiFiScanState) (handle : Nat) : Bool :=
  s.tasks[handle]? == some ScanTaskPhase.deleted

/-- The function `_notifyStatusChangedHandlers`. -/
def _notifyStatusChangedHandlers (s : WiFiScanState) (status : WiFiScanStatus) : WiFiScanState :=
  { s with statusCalls := s.statusCalls ++ s.statusChangedHandlers.map (fun key => (key, status)) }

/-- The function `WiFiScanManager::IsScanning`. -/
def IsScanning (s : WiFiScanState) : Bool :=
  s.scanTaskHandle.isSome

/-- The function `WiFiScanManager::StartScan`; `taskCreated` tells whether
`TaskUtils::TaskCreateExpensive` returns `pdPASS`, in which case it stores the handle
of the new task (on failure the handle variable is left as it is). -/
def StartScan (s : WiFiScanState) (taskCreated : Bool) : Bool × WiFiScanState :=
  -- Check if a scan is already in progress
  if s.scanTaskHandle.any (fun handle => !taskDeleted s handle) then
    (false, s)
  else if !taskCreated then
    (false, s)
  else
    (true,
      { s with
        scanTaskHandle := some s.tasks.length
        tasks := s.tasks ++ [ScanTaskPhase.scanning] })

/-- The function `WiFiScanManager::AbortScan`. -/
def AbortScan (s : WiFiScanState) : Bool × WiFiScanState :=
  match s.scanTaskHandle with
  | none => (false, s)
  | some handle =>
    if taskDeleted s handle then
      (false, s)
    else
      -- Kill the task
      let s := { s with tasks := s.tasks.set handle ScanTaskPhase.deleted, scanTaskHandle := none }
      -- Inform the change handlers that the scan was aborted
      (true, _notifyStatusChangedHandlers s WiFiScanStatus.Aborted)

/-- A step of the system around `s_scanTaskHandle`: a call of `StartScan` or
`AbortScan`, or one of the three parts of `_scanningTask` run by the task `task`. -/
inductive ScanAction where
  | StartScan (taskCreated : Bool)
  | AbortScan
  /-- The task returns from `_scanningTaskImpl` with `status` and notifies the status
  handlers of the scan result. -/
  | taskReports (task : Nat) (status : WiFiScanStatus)
  /-- The task clears the task handle. -/
  | taskClearsHandle (task : Nat)
  /-- The task kills itself: `vTaskDelete(nullptr)`. -/
  | taskDeletesItself (task : Nat)
deriving DecidableEq, Repr

/-- The state after one step; a part of `_scanningTask` is run only by a task that
has come to it. -/
def scanStep (s : WiFiScanState) : ScanAction → WiFiScanState
  | ScanAction.StartScan taskCreated => (StartScan s taskCreated).2
  | ScanAction.AbortScan => (AbortScan s).2
  | ScanAction.taskReports task status =>
    if s.tasks[task]? = some ScanTaskPhase.scanning then
      { _notifyStatusChangedHandlers s status with
        tasks := s.tasks.set task ScanTaskPhase.reported }
    else s
  | ScanAction.taskClearsHandle task =>
    if s.tasks[task]? = some ScanTaskPhase.reported then
      { s with scanTaskHandle := none, tasks := s.tasks.set task ScanTaskPhase.exiting }
    else s
  | ScanAction.taskDeletesItself task =>
    if s.tasks[task]? = some ScanTaskPhase.exiting then
      { s with tasks := s.tasks.set task ScanTaskPhase.deleted }
    else s

/-- The state after the given steps, from the state at start-up: no task, no task
handle, the given status handlers registered. -/
def scanRun (handlers : List Nat) (actions : List ScanAction) : WiFiScanState :=
  actions.foldl scanStep
    { scanTaskHandle := none, tasks := [], statusChangedHandlers := handlers, statusCalls := [] }

/-- The task is active: it has not yet cleared the task handle and was not deleted. -/
def ScanTaskPhase.active : ScanTaskPhase → Bool
  | ScanTaskPhase.scanning => true
  | ScanTaskPhase.reported => true
  | _ => false

/-- The channels `channel - 1`, `channel - 2`, ..., `channel - count`. -/
def channelsBelow : Nat → Nat → List Nat
  | _, 0 => []
  | channel, count + 1 => (channel - 1) :: channelsBelow (channel - 1) count

/-- Every active task is the one whose handle is stored in `s_scanTaskHandle`. -/
def ActiveIsStored (s : WiFiScanState) : Prop :=
  ∀ i p, s.tasks[i]? = some p → p.active = true → s.scanTaskHandle = some i

/-! ### CommandHandler.cpp: the pin of the transmitter -/

/-- The values of `SetGPIOResultCode` (its declaration is not among the sources; the
spec lists `Success`, `InvalidPin`, `InternalError`). -/
inductive SetGPIOResultCode where
  | Success
  | InvalidPin
  | InternalError
deriving DecidableEq, Repr

/-- What the functions that `CommandHandler::SetRfTxPin` calls answer during one call
with the pin `txPin`. -/
structure SetRfTxPinEnv where
  /-- The value of `OpenShock::IsValidOutputPin(txPin)`. -/
  validOutputPin : Bool
  /-- The transmitter that `std::make_unique<RFTransmitter>(txPin)` constructs. -/
  rfxmit : RFTransmitter
  /-- The value of `rfxmit->ok()`. -/
  rfxmitOk : Bool
  /-- The value of `Config::SetRFConfigTxPin(txPin)`. -/
  configSaved : Bool
deriving DecidableEq, Repr

/-- The function `CommandHandler::Ok`. -/
def CommandHandler.Ok (s : CommandHandlerState) : Bool :=
  s.rfTransmitter.isSome

/-- The function `CommandHandler::SetRfTxPin`. -/
def SetRfTxPin (env : SetRfTxPinEnv) (s : CommandHandlerState) :
    SetGPIOResultCode × CommandHandlerState :=
  if !env.validOutputPin then
    (SetGPIOResultCode.InvalidPin, s)
  else
    -- Destroying existing RF transmitter
    let s :=
      match s.rfTransmitter with
      | some _ => { s with rfTransmitter := none }
      | none => s
    -- Creating new RF transmitter
    if !env.rfxmitOk then
      (SetGPIOResultCode.InternalError, s)
    else if !env.configSaved then
      (SetGPIOResultCode.InternalError, s)
    else
      (SetGPIOResultCode.Success, { s with rfTransmitter := some env.rfxmit })

/-! ### Config.cpp: the WiFi credentials -/

/-- The fields of `Config::WiFiCredentials` that `AddWiFiCredentials` uses; `id` is a
`uint8_t`. -/
structure WiFiCredentials where
  id : Nat
  ssid : List Char
  password : List Char
deriving DecidableEq, Repr

/-- The first loop of `Config::AddWiFiCredentials`, over the entries from the iterator
`it` on: the entries from there on after the loop, the value of `id`, and the set
bits of `bits`. The `continue` after `it = erase(it)` runs the `++it` of the loop
head, which steps over the entry that followed the erased one; the result is `none`
when there is no such entry (the increment of the end iterator is undefined). -/
def markUsedIds (ssid password : List Char) :
    List WiFiCredentials → List Nat → Option (List WiFiCredentials × Nat × List Nat)
  | [], bits => some ([], 0, bits)
  | creds :: rest, bits =>
    if creds.ssid = ssid then
      some ({ creds with password := password } :: rest, creds.id, bits)
    else if creds.id = 0 then
      match rest with
      | [] => none
      | next :: rest =>
        match markUsedIds ssid password rest bits with
        | none => none
        | some (entries, id, bits) => some (next :: entries, id, bits)
    else
      -- Mark ID as used
      match markUsedIds ssid password rest (bits ++ [creds.id - 1]) with
      | none => none
      | some (entries, id, bits) => some (creds :: entries, id, bits)

/-- The second loop of `Config::AddWiFiCredentials`: the first index below 255 whose
bit is not set, plus one; `id` when every bit is set. -/
def firstAvailableId (bits : List Nat) (id : Nat) : Nat :=
  match (List.range 255).find? (fun i => !bits.contains i) with
  | some i => i + 1
  | none => id

/-- The function `Config::AddWiFiCredentials` on the list
`_configData.wifi.credentialsList`: the value returned and the list afterwards. -/
def AddWiFiCredentials (credentialsList : List WiFiCredentials) (ssid password : List Char) :
    Option (Nat × List WiFiCredentials) :=
  match markUsedIds ssid password credentialsList [] with
  | none => none
  | some (credentialsList, id, bits) =>
    -- Get first available ID
    let id := firstAvailableId bits id
    if id = 0 then
      some (0, credentialsList)
    else
      some (id, credentialsList ++ [{ id := id, ssid := ssid, password := password }])

/-! ### OtaUpdateManager.cpp: the release of a firmware version -/

/-- The fields of `OtaUpdateManager::FirmwareRelease`. -/
structure FirmwareRelease where
  appBinaryUrl : List Char
  appBinaryHash : List Nat
  filesystemBinaryUrl : List Char
  filesystemBinaryHash : List Nat
deriving DecidableEq, Repr

/-- The string and hexadecimal utilities that `TryGetFirmwareRelease` calls; their
definitions are not among the sources, so they are parameters of the embedding. -/
structure StringUtils where
  /-- The function `OpenShock::StringSplitNewLines`. -/
  StringSplitNewLines : List Char → List (List Char)
  /-- The function `OpenShock::StringSplitWhiteSpace`. -/
  StringSplitWhiteSpace : List Char → List (List Char)
  /-- The function `OpenShock::StringTrim`. -/
  StringTrim : List Char → List Char
  /-- The function `HexUtils::TryParseHex` with an output of 32 bytes: the bytes
  written, `none` when it returns false. -/
  TryParseHex : List Char → Option (List Nat)

/-- What the calls of `FormatToString` and of `HTTP::GetString` answer during one
call of `TryGetFirmwareRelease`. -/
structure ReleaseFetch where
  /-- The URL written by the first `FormatToString`; `none` when it returns false. -/
  appBinaryUrl : Option (List Char)
  /-- The URL written by the second `FormatToString`. -/
  filesystemBinaryUrl : Option (List Char)
  /-- The URL written by the third `FormatToString`. -/
  sha256HashesUrl : Option (List Char)
  /-- The field `result` of the response to the request for the hashes. -/
  result : RequestResult
  /-- The field `data` of that response. -/
  data : List Char
deriving DecidableEq, Repr

/-- The function `_tryParseIntoHash`: the bytes of the hash, `none` for false. -/
def _tryParseIntoHash (U : StringUtils) (hash : List Char) : Option (List Nat) :=
  U.TryParseHex hash

/-- The loop of `TryGetFirmwareRelease` over the lines of the hash list, from the
values of `foundAppHash` and `foundFilesystemHash`; after the last line the function
returns true. -/
def parseHashes (U : StringUtils) :
    List (List Char) → Bool → Bool → FirmwareRelease → Bool × FirmwareRelease
  | [], _, _, release => (true, release)
  | line :: lines, foundAppHash, foundFilesystemHash, release =>
    let parts := U.StringSplitWhiteSpace line
    match parts with
    | [part0, part1] =>
      let hash := U.StringTrim part0
      let file := U.StringTrim part1
      let file := if "./".toList.isPrefixOf file then file.drop 2 else file
      if hash.length ≠ 64 then
        (false, release)
      else if file = "app.bin".toList then
        if foundAppHash then
          (false, release)
        else
          match _tryParseIntoHash U hash with
          | none => (false, release)
          | some bytes =>
            parseHashes U lines true foundFilesystemHash { release with appBinaryHash := bytes }
      else if file = "staticfs.bin".toList then
        if foundFilesystemHash then
          (false, release)
        else
          match _tryParseIntoHash U hash with
          | none => (false, release)
          | some bytes =>
            parseHashes U lines foundAppHash true { release with filesystemBinaryHash := bytes }
      else
        parseHashes U lines foundAppHash foundFilesystemHash release
    | _ => (false, release)

/-- The function `OtaUpdateManager::TryGetFirmwareRelease`: the value returned and the
contents of `release` afterwards. -/
def TryGetFirmwareRelease (U : StringUtils) (x : ReleaseFetch) (release : FirmwareRelease) :
    Bool × FirmwareRelease :=
  match x.appBinaryUrl with
  | none => (false, release)
  | some appBinaryUrl =>
    let release := { release with appBinaryUrl := appBinaryUrl }
    match x.filesystemBinaryUrl with
    | none => (false, release)
    | some filesystemBinaryUrl =>
      let release := { release with filesystemBinaryUrl := filesystemBinaryUrl }
      -- Construct hash URLs.
      match x.sha256HashesUrl with
      | none => (false, release)
      | some _ =>
        -- Fetch hashes.
        if x.result ≠ RequestResult.Success then
          (false, release)
        else
          parseHashes U (U.StringSplitNewLines x.data) false false release

/-- The hash list has an entry for the file: a line that `TryGetFirmwareRelease` reads
as a hash and this file name. -/
def HasHashEntry (U : StringUtils) (data : List Char) (fileName : List Char) : Prop :=
  ∃ line ∈ U.StringSplitNewLines data, ∃ part0 part1,
    U.StringSplitWhiteSpace line = [part0, part1] ∧
    (let file := U.StringTrim part1
     (if "./".toList.isPrefixOf file then file.drop 2 else file) = fileName)

/-! ## Theorems -/

/-! ### CommandHandler -/

/-- C1: `HandleCommand` called while no transmitter is installed returns false for
every command, and leaves the whole state as it was: no call is made on a
transmitter and nothing is posted to the keep-alive queue. -/
theorem HandleCommand_without_transmitter (s : CommandHandlerState) (now : Int)
    (model : ShockerModelType) (shockerId : Nat) (type : ShockerCommandType)
    (intensity durationMs : Nat) (h : s.rfTransmitter = none) :
    HandleCommand s now model shockerId type intensity durationMs = (false, s) ∧
    (HandleCommand s now model shockerId type intensity durationMs).2.txCalls = s.txCalls ∧
    (HandleCommand s now model shockerId type intensity durationMs).2.keepAliveQueue
      = s.keepAliveQueue := by
  simp [HandleCommand, h]

theorem HandleCommand_without_transmitter_witness :
    HandleCommand { rfTransmitter := none, keepAliveQueue := some [], txCalls := [] } 1000 0 1
        ShockerCommandType.Stop 50 1000
      = (false, { rfTransmitter := none, keepAliveQueue := some [], txCalls := [] }) :=
  (HandleCommand_without_transmitter
    { rfTransmitter := none, keepAliveQueue := some [], txCalls := [] } 1000 0 1
    ShockerCommandType.Stop 50 1000 rfl).1

/-- C2: a Stop command handled while a transmitter (with room for one command) is
installed makes exactly two calls on it, `ClearPendingCommands` and then one
`SendCommand` with the caller's model and shocker id, type Vibrate, intensity 0 and
duration 300 ms, whatever intensity and duration the caller gave; the pending queue
then holds that command alone, whatever it held before for any shocker id. In
particular after a Vibrate (id 1, 50, 1000 ms) followed by a Stop for id 1 the queue
holds only the zero-intensity 300 ms Vibrate. -/
theorem HandleCommand_stop_clears_then_sends (s : CommandHandlerState) (tx : RFTransmitter)
    (now : Int) (model : ShockerModelType) (shockerId intensity durationMs : Nat)
    (h : s.rfTransmitter = some tx) (hcap : 0 < tx.capacity) :
    (HandleCommand s now model shockerId ShockerCommandType.Stop intensity durationMs).1 = true ∧
    (HandleCommand s now model shockerId ShockerCommandType.Stop intensity durationMs).2.txCalls
      = s.txCalls ++ [TxCall.ClearPendingCommands,
          TxCall.SendCommand ⟨model, shockerId, ShockerCommandType.Vibrate, 0, 300⟩] ∧
    (HandleCommand s now model shockerId ShockerCommandType.Stop intensity durationMs).2.rfTransmitter
      = some { capacity := tx.capacity,
               pending := [⟨model, shockerId, ShockerCommandType.Vibrate, 0, 300⟩] } ∧
    ∀ (now0 : Int) (model0 : ShockerModelType),
      (HandleCommand
          (HandleCommand s now0 model0 1 ShockerCommandType.Vibrate 50 1000).2
          now model 1 ShockerCommandType.Stop intensity durationMs).2.rfTransmitter
        = some { capacity := tx.capacity,
                 pending := [⟨model, 1, ShockerCommandType.Vibrate, 0, 300⟩] } := by
  have hsend : ∀ (t : RFTransmitter) (c : Command), 0 < t.capacity →
      t.ClearPendingCommands.SendCommand c
        = (true, { capacity := t.capacity, pending := [c] }) := by
    intro t c ht
    simp [RFTransmitter.SendCommand, RFTransmitter.ClearPendingCommands, ht]
  refine ⟨?_, ?_, ?_, ?_⟩
  · simp [HandleCommand, h, hsend tx _ hcap]
  · simp [HandleCommand, h]
  · simp [HandleCommand, h, hsend tx _ hcap]
  · intro now0 model0
    have hcap2 : 0 < (tx.SendCommand ⟨model0, 1, ShockerCommandType.Vibrate, 50, 1000⟩).2.capacity := by
      unfold RFTransmitter.SendCommand
      split <;> simpa using hcap
    have hc : (tx.SendCommand ⟨model0, 1, ShockerCommandType.Vibrate, 50, 1000⟩).2.capacity
        = tx.capacity := by
      unfold RFTransmitter.SendCommand
      split <;> rfl
    simp [HandleCommand, h, hsend _ _ hcap2, hc]

theorem HandleCommand_stop_clears_then_sends_witness :
    (HandleCommand
        { rfTransmitter := some { capacity := 4, pending := [⟨0, 7, ShockerCommandType.Shock, 99, 5000⟩] },
          keepAliveQueue := none, txCalls := [] }
        1000 0 1 ShockerCommandType.Stop 80 2000).2.rfTransmitter
      = some { capacity := 4, pending := [⟨0, 1, ShockerCommandType.Vibrate, 0, 300⟩] } :=
  (HandleCommand_stop_clears_then_sends
    { rfTransmitter := some { capacity := 4, pending := [⟨0, 7, ShockerCommandType.Shock, 99, 5000⟩] },
      keepAliveQueue := none, txCalls := [] }
    { capacity := 4, pending := [⟨0, 7, ShockerCommandType.Shock, 99, 5000⟩] }
    1000 0 1 80 2000 rfl (by decide)).2.2.1

/-! ### Rate limiter -/

/-- The requests kept by the pruning loop of `tryRequest`. -/
theorem RateLimit.tryRequest_eq (rl : RateLimit) (now : Int) (back : Limit)
    (hback : rl.limits.getLast? = some back) (hblock : rl.blockUntilMs ≤ now) :
    rl.tryRequest now =
      match rl.limits.find? (fun limit => decide
          ((rl.requests.dropWhile (fun q => decide (q < now - back.durationMs))).length
            ≥ limit.count)) with
      | some it =>
        some (false, { rl with blockUntilMs := now + it.durationMs,
                               requests := rl.requests.dropWhile
                                 (fun q => decide (q < now - back.durationMs)) })
      | none =>
        some (true, { rl with requests := rl.requests.dropWhile
                                 (fun q => decide (q < now - back.durationMs)) ++ [now] }) := by
  unfold RateLimit.tryRequest
  rw [if_neg (by omega), hback]
  cases hreq : rl.requests with
  | nil => simp
  | cons r rs => simp

theorem RateLimit.tryRequest_blocked (rl : RateLimit) (now : Int)
    (hblock : rl.blockUntilMs > now) : rl.tryRequest now = some (false, rl) := by
  unfold RateLimit.tryRequest
  rw [if_pos hblock]

/-- What an admission tells about the limiter before and after it. -/
theorem RateLimit.tryRequest_admitted (rl rl1 : RateLimit) (now : Int) (back : Limit)
    (hback : rl.limits.getLast? = some back)
    (h : rl.tryRequest now = some (true, rl1)) :
    rl.blockUntilMs ≤ now ∧ rl1.limits = rl.limits ∧ rl1.blockUntilMs = rl.blockUntilMs ∧
    rl1.requests
      = rl.requests.dropWhile (fun q => decide (q < now - back.durationMs)) ++ [now] ∧
    ∀ l ∈ rl.limits,
      (rl.requests.dropWhile (fun q => decide (q < now - back.durationMs))).length < l.count := by
  by_cases hb : rl.blockUntilMs > now
  · rw [RateLimit.tryRequest_blocked rl now hb] at h
    simp at h
  · have hb1 : rl.blockUntilMs ≤ now := by omega
    rw [RateLimit.tryRequest_eq rl now back hback hb1] at h
    split at h
    · simp at h
    · rename_i hfind
      simp only [Option.some.injEq, Prod.mk.injEq, true_and] at h
      subst h
      refine ⟨hb1, rfl, rfl, rfl, ?_⟩
      intro l hl
      have := List.find?_eq_none.mp hfind l hl
      simpa using this

theorem dropWhile_append_keep {α : Type} (p : α → Bool) (xs ys : List α) (y : α)
    (hy : p y = false) :
    (xs ++ y :: ys).dropWhile p = xs.dropWhile p ++ y :: ys := by
  induction xs with
  | nil => simp [List.dropWhile, hy]
  | cons x xs ih =>
    cases hx : p x <;> simp [List.dropWhile, hx, ih]

theorem factory_getLast (apiDomain domain : List Char) :
    (_rateLimitFactory apiDomain domain).limits.getLast? = some ⟨1000, 5⟩ := by
  unfold _rateLimitFactory
  split <;> decide

theorem factory_mem (apiDomain domain : List Char) :
    (⟨1000, 5⟩ : Limit) ∈ (_rateLimitFactory apiDomain domain).limits := by
  unfold _rateLimitFactory
  split <;> decide

/-- C3: on a limiter with the windows that `_rateLimitFactory` configures (for the
backend domain or any other), whatever its recorded requests and cooldown: when five
`tryRequest` calls in a row, at times t1, ..., t5 with t2 ≤ t3 ≤ t4 ≤ t5, all returned
true, a sixth call at a time t6 ≥ t5 with t6 - t1 < 1000 returns false (that t1 ≤ t2
is not needed). -/
theorem tryRequest_sixth_within_second_rejected (apiDomain domain : List Char)
    (rl0 rl1 rl2 rl3 rl4 rl5 : RateLimit) (t1 t2 t3 t4 t5 t6 : Int)
    (hlimits : rl0.limits = (_rateLimitFactory apiDomain domain).limits)
    (h1 : rl0.tryRequest t1 = some (true, rl1))
    (h2 : rl1.tryRequest t2 = some (true, rl2))
    (h3 : rl2.tryRequest t3 = some (true, rl3))
    (h4 : rl3.tryRequest t4 = some (true, rl4))
    (h5 : rl4.tryRequest t5 = some (true, rl5))
    (h23 : t2 ≤ t3) (h34 : t3 ≤ t4) (h45 : t4 ≤ t5) (h56 : t5 ≤ t6)
    (hwin : t6 - t1 < 1000) :
    ∃ rl6, rl5.tryRequest t6 = some (false, rl6) := by
  have hb0 : rl0.limits.getLast? = some ⟨1000, 5⟩ := by
    rw [hlimits]; exact factory_getLast apiDomain domain
  obtain ⟨-, hl1, -, hr1, -⟩ := RateLimit.tryRequest_admitted rl0 rl1 t1 _ hb0 h1
  have hb1 : rl1.limits.getLast? = some ⟨1000, 5⟩ := by rw [hl1]; exact hb0
  obtain ⟨-, hl2, -, hr2, -⟩ := RateLimit.tryRequest_admitted rl1 rl2 t2 _ hb1 h2
  have hb2 : rl2.limits.getLast? = some ⟨1000, 5⟩ := by rw [hl2]; exact hb1
  obtain ⟨-, hl3, -, hr3, -⟩ := RateLimit.tryRequest_admitted rl2 rl3 t3 _ hb2 h3
  have hb3 : rl3.limits.getLast? = some ⟨1000, 5⟩ := by rw [hl3]; exact hb2
  obtain ⟨-, hl4, -, hr4, -⟩ := RateLimit.tryRequest_admitted rl3 rl4 t4 _ hb3 h4
  have hb4 : rl4.limits.getLast? = some ⟨1000, 5⟩ := by rw [hl4]; exact hb3
  obtain ⟨-, hl5, -, hr5, -⟩ := RateLimit.tryRequest_admitted rl4 rl5 t5 _ hb4 h5
  have hb5 : rl5.limits.getLast? = some ⟨1000, 5⟩ := by rw [hl5]; exact hb4
  have hmem : (⟨1000, 5⟩ : Limit) ∈ rl5.limits := by
    rw [hl5, hl4, hl3, hl2, hl1, hlimits]; exact factory_mem apiDomain domain
  simp only at hr1 hr2 hr3 hr4 hr5
  rw [hr1, dropWhile_append_keep _ _ _ _ (by simp; omega)] at hr2
  simp only [List.append_assoc, List.cons_append, List.nil_append] at hr2
  rw [hr2, dropWhile_append_keep _ _ _ _ (by simp; omega)] at hr3
  simp only [List.append_assoc, List.cons_append, List.nil_append] at hr3
  rw [hr3, dropWhile_append_keep _ _ _ _ (by simp; omega)] at hr4
  simp only [List.append_assoc, List.cons_append, List.nil_append] at hr4
  rw [hr4, dropWhile_append_keep _ _ _ _ (by simp; omega)] at hr5
  simp only [List.append_assoc, List.cons_append, List.nil_append] at hr5
  by_cases hb : rl5.blockUntilMs > t6
  · exact ⟨rl5, RateLimit.tryRequest_blocked rl5 t6 hb⟩
  · rw [RateLimit.tryRequest_eq rl5 t6 _ hb5 (by omega)]
    split
    · exact ⟨_, rfl⟩
    · rename_i hfind
      have := List.find?_eq_none.mp hfind _ hmem
      rw [hr5, dropWhile_append_keep _ _ _ _ (by simp; omega)] at this
      simp at this

theorem tryRequest_sixth_within_second_rejected_witness :
    ∃ rl6, RateLimit.tryRequest
        { blockUntilMs := 0, limits := [⟨10000, 10⟩, ⟨1000, 5⟩], requests := [0, 100, 200, 300, 400] }
        999 = some (false, rl6) :=
  tryRequest_sixth_within_second_rejected ['a'] ['b']
    { blockUntilMs := 0, limits := [⟨10000, 10⟩, ⟨1000, 5⟩], requests := [] }
    { blockUntilMs := 0, limits := [⟨10000, 10⟩, ⟨1000, 5⟩], requests := [0] }
    { blockUntilMs := 0, limits := [⟨10000, 10⟩, ⟨1000, 5⟩], requests := [0, 100] }
    { blockUntilMs := 0, limits := [⟨10000, 10⟩, ⟨1000, 5⟩], requests := [0, 100, 200] }
    { blockUntilMs := 0, limits := [⟨10000, 10⟩, ⟨1000, 5⟩], requests := [0, 100, 200, 300] }
    { blockUntilMs := 0, limits := [⟨10000, 10⟩, ⟨1000, 5⟩], requests := [0, 100, 200, 300, 400] }
    0 100 200 300 400 999
    (by decide) (by decide) (by decide) (by decide) (by decide) (by decide)
    (by decide) (by decide) (by decide) (by decide) (by decide)

theorem factory_small_count (apiDomain domain : List Char) :
    ∀ l ∈ (_rateLimitFactory apiDomain domain).limits, l.count ≤ 5 → l.durationMs = 1000 := by
  unfold _rateLimitFactory
  split <;> decide

theorem factory_count_pos (apiDomain domain : List Char) :
    ∀ l ∈ (_rateLimitFactory apiDomain domain).limits, 0 < l.count := by
  unfold _rateLimitFactory
  split <;> decide

/-- Requests recorded after an admission were recorded before it or are the new one. -/
theorem RateLimit.tryRequest_admitted_mem (rl rl1 : RateLimit) (now : Int) (back : Limit)
    (hback : rl.limits.getLast? = some back)
    (h : rl.tryRequest now = some (true, rl1)) (bound : Int)
    (hold : ∀ r ∈ rl.requests, r ≤ bound) (hnow : now ≤ bound) :
    ∀ r ∈ rl1.requests, r ≤ bound := by
  obtain ⟨-, -, -, hr, -⟩ := RateLimit.tryRequest_admitted rl rl1 now back hback h
  intro r hmem
  rw [hr, List.mem_append] at hmem
  rcases hmem with hmem | hmem
  · exact hold r ((List.dropWhile_sublist _).subset hmem)
  · simp at hmem
    omega

/-- C5: on a limiter with the windows that `_rateLimitFactory` configures, fresh or
with recorded requests none of which is later than t1 (as in every state reached at
non-decreasing times): after five `tryRequest` calls admitted at times t1 ≤ ... ≤ t5
and a sixth rejected at t6 ≥ t5, with no other call on the limiter in between, a
`tryRequest` at any time t > t6 + 1000 returns true. -/
theorem tryRequest_admitted_again_after_window (apiDomain domain : List Char)
    (rl0 rl1 rl2 rl3 rl4 rl5 rl6 : RateLimit) (t1 t2 t3 t4 t5 t6 t : Int)
    (hlimits : rl0.limits = (_rateLimitFactory apiDomain domain).limits)
    (hold : ∀ r ∈ rl0.requests, r ≤ t1)
    (h1 : rl0.tryRequest t1 = some (true, rl1))
    (h2 : rl1.tryRequest t2 = some (true, rl2))
    (h3 : rl2.tryRequest t3 = some (true, rl3))
    (h4 : rl3.tryRequest t4 = some (true, rl4))
    (h5 : rl4.tryRequest t5 = some (true, rl5))
    (h6 : rl5.tryRequest t6 = some (false, rl6))
    (h12 : t1 ≤ t2) (h23 : t2 ≤ t3) (h34 : t3 ≤ t4) (h45 : t4 ≤ t5) (h56 : t5 ≤ t6)
    (ht : t > t6 + 1000) :
    ∃ rl7, rl6.tryRequest t = some (true, rl7) := by
  have hb0 : rl0.limits.getLast? = some ⟨1000, 5⟩ := by
    rw [hlimits]; exact factory_getLast apiDomain domain
  obtain ⟨hk1, hl1, hbl1, -, -⟩ := RateLimit.tryRequest_admitted rl0 rl1 t1 _ hb0 h1
  have hb1 : rl1.limits.getLast? = some ⟨1000, 5⟩ := by rw [hl1]; exact hb0
  obtain ⟨-, hl2, hbl2, -, -⟩ := RateLimit.tryRequest_admitted rl1 rl2 t2 _ hb1 h2
  have hb2 : rl2.limits.getLast? = some ⟨1000, 5⟩ := by rw [hl2]; exact hb1
  obtain ⟨-, hl3, hbl3, -, -⟩ := RateLimit.tryRequest_admitted rl2 rl3 t3 _ hb2 h3
  have hb3 : rl3.limits.getLast? = some ⟨1000, 5⟩ := by rw [hl3]; exact hb2
  obtain ⟨-, hl4, hbl4, -, -⟩ := RateLimit.tryRequest_admitted rl3 rl4 t4 _ hb3 h4
  have hb4 : rl4.limits.getLast? = some ⟨1000, 5⟩ := by rw [hl4]; exact hb3
  obtain ⟨-, hl5, hbl5, hr5, hc5⟩ := RateLimit.tryRequest_admitted rl4 rl5 t5 _ hb4 h5
  have hb5 : rl5.limits.getLast? = some ⟨1000, 5⟩ := by rw [hl5]; exact hb4
  have hlim5 : rl5.limits = (_rateLimitFactory apiDomain domain).limits := by
    rw [hl5, hl4, hl3, hl2, hl1, hlimits]
  -- every recorded request is at most t5
  have hm1 := RateLimit.tryRequest_admitted_mem rl0 rl1 t1 _ hb0 h1 t5
    (fun r hr => by have := hold r hr; omega) (by omega)
  have hm2 := RateLimit.tryRequest_admitted_mem rl1 rl2 t2 _ hb1 h2 t5 hm1 (by omega)
  have hm3 := RateLimit.tryRequest_admitted_mem rl2 rl3 t3 _ hb2 h3 t5 hm2 (by omega)
  have hm4 := RateLimit.tryRequest_admitted_mem rl3 rl4 t4 _ hb3 h4 t5 hm3 (by omega)
  have hm5 := RateLimit.tryRequest_admitted_mem rl4 rl5 t5 _ hb4 h5 t5 hm4 (by omega)
  -- at most five requests are recorded
  have hlen5 : rl5.requests.length ≤ 5 := by
    have := hc5 ⟨1000, 5⟩ (by
      rw [hl4, hl3, hl2, hl1, hlimits]; exact factory_mem apiDomain domain)
    rw [hr5, List.length_append]
    simp only [List.length_singleton]
    simp only at this
    omega
  -- the rejection at t6 starts a cooldown of 1000 ms
  have hblock5 : rl5.blockUntilMs ≤ t6 := by
    rw [hbl5, hbl4, hbl3, hbl2, hbl1]; omega
  rw [RateLimit.tryRequest_eq rl5 t6 _ hb5 hblock5] at h6
  split at h6
  case h_2 => simp at h6
  rename_i it hfind
  simp only [Option.some.injEq, Prod.mk.injEq, true_and] at h6
  have hit := List.find?_some hfind
  have hmemit := List.mem_of_find?_eq_some hfind
  have hdur : it.durationMs = 1000 := by
    apply factory_small_count apiDomain domain it (by rw [← hlim5]; exact hmemit)
    have hle := (List.dropWhile_sublist (fun q => decide (q < t6 - (1000 : Int)))
      (l := rl5.requests)).length_le
    simp only [ge_iff_le, decide_eq_true_eq] at hit
    omega
  have hb6 : rl6.limits.getLast? = some ⟨1000, 5⟩ := by rw [← h6]; exact hb5
  have hblock6 : rl6.blockUntilMs ≤ t := by rw [← h6]; simp only; omega
  have hreq6 : ∀ r ∈ rl6.requests, r ≤ t5 := by
    rw [← h6]
    intro r hr
    exact hm5 r ((List.dropWhile_sublist _).subset hr)
  have hdrop : rl6.requests.dropWhile (fun q => decide (q < t - (1000 : Int))) = [] := by
    rw [List.dropWhile_eq_nil_iff]
    intro r hr
    have := hreq6 r hr
    simp only [decide_eq_true_eq]
    omega
  rw [RateLimit.tryRequest_eq rl6 t _ hb6 hblock6]
  simp only [hdrop]
  split
  · rename_i it2 hfind2
    have hit2 := List.find?_some hfind2
    have hmem2 := List.mem_of_find?_eq_some hfind2
    have hlim6 : rl6.limits = (_rateLimitFactory apiDomain domain).limits := by
      rw [← h6]; exact hlim5
    have := factory_count_pos apiDomain domain it2 (by rw [← hlim6]; exact hmem2)
    simp at hit2
    omega
  · exact ⟨_, rfl⟩

theorem tryRequest_admitted_again_after_window_witness :
    ∃ rl7, RateLimit.tryRequest
        { blockUntilMs := 1500, limits := [⟨10000, 10⟩, ⟨1000, 5⟩],
          requests := [0, 100, 200, 300, 400] }
        1501 = some (true, rl7) :=
  tryRequest_admitted_again_after_window ['a'] ['b']
    { blockUntilMs := 0, limits := [⟨10000, 10⟩, ⟨1000, 5⟩], requests := [] }
    { blockUntilMs := 0, limits := [⟨10000, 10⟩, ⟨1000, 5⟩], requests := [0] }
    { blockUntilMs := 0, limits := [⟨10000, 10⟩, ⟨1000, 5⟩], requests := [0, 100] }
    { blockUntilMs := 0, limits := [⟨10000, 10⟩, ⟨1000, 5⟩], requests := [0, 100, 200] }
    { blockUntilMs := 0, limits := [⟨10000, 10⟩, ⟨1000, 5⟩], requests := [0, 100, 200, 300] }
    { blockUntilMs := 0, limits := [⟨10000, 10⟩, ⟨1000, 5⟩], requests := [0, 100, 200, 300, 400] }
    { blockUntilMs := 1500, limits := [⟨10000, 10⟩, ⟨1000, 5⟩],
      requests := [0, 100, 200, 300, 400] }
    0 100 200 300 400 500 1501
    (by decide) (by decide) (by decide) (by decide) (by decide) (by decide) (by decide)
    (by decide) (by decide) (by decide) (by decide) (by decide) (by decide) (by decide)

/-- C4 (the code at a failing input): on a limiter built by `_rateLimitFactory`, for
the backend domain or any other, eleven `tryRequest` calls at the times 0 (five
times), 1001 (five times) and 2002 are all admitted, although they lie within 2002 ms
and the limiter has a window of 10 requests per 10000 ms: `addLimit` stores the
windows longest first, so that `m_limits.back()` in `tryRequest` is the shortest
window (1000 ms) and every request older than that is forgotten. -/
theorem tryRequests_admits_eleven_within_ten_seconds (apiDomain domain : List Char) :
    ((_rateLimitFactory apiDomain domain).tryRequests
        [0, 0, 0, 0, 0, 1001, 1001, 1001, 1001, 1001, 2002]).map Prod.fst
      = some [true, true, true, true, true, true, true, true, true, true, true] ∧
    (⟨10000, 10⟩ : Limit) ∈ (_rateLimitFactory apiDomain domain).limits := by
  unfold _rateLimitFactory
  split <;> decide

/-- C6: while the cooldown lasts (`blockUntilMs > now`) `tryRequest` returns false and
leaves the limiter as it was (recorded timestamps, limits and `blockUntilMs`),
whatever the limiter holds; so after `blockUntil(T)` every run of `tryRequest` calls
at times earlier than T is rejected call by call and leaves the limiter unchanged. -/
theorem tryRequest_rejects_during_cooldown (rl : RateLimit) (now : Int)
    (h : rl.blockUntilMs > now) :
    rl.tryRequest now = some (false, rl) ∧
    ∀ (other : RateLimit) (T : Int) (times : List Int), (∀ t ∈ times, t < T) →
      (other.blockUntil T).tryRequests times
        = some (List.replicate times.length false, other.blockUntil T) := by
  refine ⟨RateLimit.tryRequest_blocked rl now h, ?_⟩
  intro other T times
  induction times with
  | nil => intro _; rfl
  | cons t ts ih =>
    intro hts
    have ht : (other.blockUntil T).blockUntilMs > t := by
      simp only [RateLimit.blockUntil]
      have := hts t (List.mem_cons_self t ts)
      omega
    have ih1 := ih (fun u hu => hts u (List.mem_cons_of_mem t hu))
    simp only [RateLimit.tryRequests, RateLimit.tryRequest_blocked _ t ht, ih1,
      List.length_cons, List.replicate_succ]

theorem tryRequest_rejects_during_cooldown_witness :
    RateLimit.tryRequest { blockUntilMs := 15000, limits := [], requests := [1, 2, 3] } 14999
        = some (false, { blockUntilMs := 15000, limits := [], requests := [1, 2, 3] }) ∧
      (RateLimit.blockUntil (_rateLimitFactory ['a'] ['b']) 15000).tryRequests [0, 7000, 14999]
        = some ([false, false, false],
            RateLimit.blockUntil (_rateLimitFactory ['a'] ['b']) 15000) :=
  ⟨(tryRequest_rejects_during_cooldown
      { blockUntilMs := 15000, limits := [], requests := [1, 2, 3] } 14999 (by decide)).1,
    (tryRequest_rejects_during_cooldown
      { blockUntilMs := 15000, limits := [], requests := [1, 2, 3] } 14999 (by decide)).2
      (_rateLimitFactory ['a'] ['b']) 15000 [0, 7000, 14999] (by decide)⟩

/-! ### The domain of a URL -/

theorem svFindChar_none (s : List Char) (c : Char) (h : c ∉ s) : svFindChar s c = none := by
  simp [svFindChar, h]

theorem svFindChar_append (a b : List Char) (c : Char) (h : c ∉ a) :
    svFindChar (a ++ c :: b) c = some a.length := by
  simp [svFindChar, List.indexOf_append_of_not_mem h]

theorem svRfindChar_none (s : List Char) (c : Char) (pos : Option Nat) (h : c ∉ s) :
    svRfindChar s c pos = none := by
  unfold svRfindChar
  have : c ∉ List.take (match pos with
    | none => s.length
    | some p => min (p + 1) s.length) s := fun hm => h (List.mem_of_mem_take hm)
  simp only [this, if_false]

theorem svRfindChar_append (a b : List Char) (c : Char) (h : c ∉ b) :
    svRfindChar (a ++ c :: b) c none = some a.length := by
  have hb : c ∉ b.reverse := by simpa using h
  simp only [svRfindChar, List.take_length]
  rw [if_pos (by simp)]
  simp only [List.reverse_append, List.reverse_cons, List.append_assoc, List.singleton_append,
    List.indexOf_append_of_not_mem hb, List.indexOf_cons_self, List.length_append,
    List.length_cons, List.length_reverse]
  congr 1
  omega

theorem svRfindChar_before (a b : List Char) (c : Char) (ha : a ≠ []) :
    svRfindChar (a ++ c :: b) c (sizePred a.length) = svRfindChar a c none := by
  have hlen : 0 < a.length := List.length_pos.mpr ha
  have h1 : sizePred a.length = some (a.length - 1) := by
    have : a.length ≠ 0 := by omega
    simp [sizePred, this]
  have h2 : min (a.length - 1 + 1) (a ++ c :: b).length = a.length := by
    simp only [List.length_append, List.length_cons]; omega
  simp only [svRfindChar, h1, h2, List.take_left', List.take_length]

theorem hostOfLabels_single (z : List Char) : hostOfLabels [z] = z := by
  simp [hostOfLabels, List.intercalate]

theorem hostOfLabels_cons (x y : List Char) (rest : List (List Char)) :
    hostOfLabels (x :: y :: rest) = x ++ '.' :: hostOfLabels (y :: rest) := by
  simp [hostOfLabels, List.intercalate]

theorem hostOfLabels_concat (init : List (List Char)) (z : List Char) (h : init ≠ []) :
    hostOfLabels (init ++ [z]) = hostOfLabels init ++ '.' :: z := by
  induction init with
  | nil => exact absurd rfl h
  | cons x rest ih =>
    cases rest with
    | nil => simp [hostOfLabels_cons, hostOfLabels_single]
    | cons y rest =>
      have := ih (by simp)
      simp only [List.cons_append] at this ⊢
      rw [hostOfLabels_cons, this, hostOfLabels_cons]
      simp

theorem hostOfLabels_not_mem (labels : List (List Char)) (c : Char) (hc : c ≠ '.')
    (h : ∀ l ∈ labels, c ∉ l) : c ∉ hostOfLabels labels := by
  induction labels with
  | nil => simp [hostOfLabels, List.intercalate]
  | cons x rest ih =>
    cases rest with
    | nil => simpa [hostOfLabels_single] using h x (by simp)
    | cons y rest =>
      rw [hostOfLabels_cons]
      have h1 := h x (by simp)
      have h2 := ih (fun l hl => h l (List.mem_cons_of_mem x hl))
      simp [h1, h2, hc]

theorem hostOfLabels_ne_nil (labels : List (List Char)) (hne : labels ≠ [])
    (h : ∀ l ∈ labels, l ≠ []) : hostOfLabels labels ≠ [] := by
  cases labels with
  | nil => exact absurd rfl hne
  | cons x rest =>
    cases rest with
    | nil => simpa [hostOfLabels_single] using h x (by simp)
    | cons y rest =>
      rw [hostOfLabels_cons]
      simp
/-- The last step of `_getDomain`, on a host name made of labels. -/
theorem stripSubdomains_host (labels : List (List Char)) (hne : labels ≠ [])
    (hl : ∀ l ∈ labels, l ≠ [] ∧ '.' ∉ l) :
    (match svRfindChar (hostOfLabels labels) '.' none with
      | none => hostOfLabels labels
      | some seperator =>
        match svRfindChar (hostOfLabels labels) '.' (sizePred seperator) with
        | some seperator => (hostOfLabels labels).drop (seperator + 1)
        | none => hostOfLabels labels)
      = hostOfLabels (labels.drop (labels.length - 2)) := by
  rcases List.eq_nil_or_concat labels with h | ⟨init, z, rfl⟩
  · exact absurd h hne
  simp only [List.concat_eq_append] at hl ⊢
  have hz : '.' ∉ z := (hl z (by simp)).2
  rcases List.eq_nil_or_concat init with h | ⟨init2, y, rfl⟩
  · subst h
    simp only [List.nil_append, hostOfLabels_single, svRfindChar_none z '.' none hz,
      List.length_singleton, List.drop_zero, Nat.sub_eq_zero_of_le (Nat.le_succ 1)]
  simp only [List.concat_eq_append] at hl ⊢
  have hy : '.' ∉ y := (hl y (by simp)).2
  have hyne : y ≠ [] := (hl y (by simp)).1
  have hdrop : (init2 ++ [y] ++ [z]).drop ((init2 ++ [y] ++ [z]).length - 2) = [y, z] := by
    have : (init2 ++ [y] ++ [z]).length - 2 = init2.length := by simp
    rw [this, List.append_assoc, List.drop_left']
    · rfl
    · rfl
  rw [hdrop, hostOfLabels_concat _ z (by simp)]
  rw [svRfindChar_append _ z '.' hz]
  simp only
  have hAne : hostOfLabels (init2 ++ [y]) ≠ [] := by
    apply hostOfLabels_ne_nil _ (by simp)
    intro l hlm
    exact (hl l (by simp at hlm ⊢; tauto)).1
  rw [svRfindChar_before _ z '.' hAne]
  by_cases h : init2 = []
  · subst h
    simp only [List.nil_append, hostOfLabels_single, svRfindChar_none y '.' none hy,
      hostOfLabels_cons]
  · rw [hostOfLabels_concat init2 y h, svRfindChar_append _ y '.' hy]
    simp only [hostOfLabels_cons, hostOfLabels_single, List.append_assoc]
    have hsplit : hostOfLabels init2 ++ ('.' :: y ++ '.' :: z)
        = (hostOfLabels init2 ++ ['.']) ++ (y ++ '.' :: z) := by simp
    have hlen : (hostOfLabels init2 ++ ['.']).length = (hostOfLabels init2).length + 1 := by
      simp
    rw [hsplit, List.drop_left' hlen]

/-- C8: for a URL without scheme of the form host, host:port, host/path or
host:port/path, whose host is one or more non-empty labels joined by dots, the labels
containing no dot, colon or slash and the port no colon or slash, `_getDomain`
returns the last two labels of the host joined by a dot, and the host itself when it
has a single label. -/
theorem getDomain_without_scheme (labels : List (List Char)) (port path : Option (List Char))
    (hne : labels ≠ [])
    (hlabels : ∀ l ∈ labels, l ≠ [] ∧ '.' ∉ l ∧ ':' ∉ l ∧ '/' ∉ l)
    (hport : ∀ p, port = some p → ':' ∉ p ∧ '/' ∉ p) :
    _getDomain (urlOfParts labels port path)
      = hostOfLabels (labels.drop (labels.length - 2)) := by
  have hhost_ne : hostOfLabels labels ≠ [] :=
    hostOfLabels_ne_nil labels hne (fun l hl => (hlabels l hl).1)
  have hcolon : ':' ∉ hostOfLabels labels :=
    hostOfLabels_not_mem labels ':' (by decide) (fun l hl => (hlabels l hl).2.2.1)
  have hslash : '/' ∉ hostOfLabels labels :=
    hostOfLabels_not_mem labels '/' (by decide) (fun l hl => (hlabels l hl).2.2.2)
  have hstrip := stripSubdomains_host labels hne (fun l hl => ⟨(hlabels l hl).1, (hlabels l hl).2.1⟩)
  -- the URL without its path
  have hpath : (match svFindChar (urlOfParts labels port path) '/' with
      | some seperator => (urlOfParts labels port path).take seperator
      | none => urlOfParts labels port path) = urlOfParts labels port none := by
    cases path with
    | none =>
      have : '/' ∉ urlOfParts labels port none := by
        cases port with
        | none => simpa [urlOfParts] using hslash
        | some p => simp [urlOfParts, hslash, (hport p rfl).2]
      rw [svFindChar_none _ _ this]
    | some q =>
      have hmem : '/' ∉ urlOfParts labels port none := by
        cases port with
        | none => simpa [urlOfParts] using hslash
        | some p => simp [urlOfParts, hslash, (hport p rfl).2]
      have heq : urlOfParts labels port (some q) = urlOfParts labels port none ++ '/' :: q := by
        simp [urlOfParts]
      rw [heq, svFindChar_append _ _ _ hmem]
      simp
  -- and without its port
  have hportStrip : (match svRfindChar (urlOfParts labels port none) ':' none with
      | some seperator => (urlOfParts labels port none).take seperator
      | none => urlOfParts labels port none) = hostOfLabels labels := by
    cases port with
    | none =>
      have heq : urlOfParts labels none none = hostOfLabels labels := by simp [urlOfParts]
      rw [heq, svRfindChar_none _ _ _ hcolon]
    | some p =>
      have heq : urlOfParts labels (some p) none = hostOfLabels labels ++ ':' :: p := by
        simp [urlOfParts]
      rw [heq, svRfindChar_append _ _ _ (hport p rfl).1]
      simp
  have hurl_ne : (urlOfParts labels port path).isEmpty = false := by
    cases hh : hostOfLabels labels with
    | nil => exact absurd hh hhost_ne
    | cons c cs => simp [urlOfParts, hh]
  unfold _getDomain
  rw [hurl_ne]
  simp only [Bool.false_eq_true, if_false]
  have hscheme : (match svFind (urlOfParts labels port path) [':', '/', '/'] with
      | some _ => urlOfParts labels port path
      | none => urlOfParts labels port path) = urlOfParts labels port path := by
    cases svFind (urlOfParts labels port path) [':', '/', '/'] <;> rfl
  rw [hscheme, hpath, hportStrip]
  exact hstrip

theorem getDomain_without_scheme_witness :
    _getDomain "api.example.com:443/x".toList = "example.com".toList :=
  getDomain_without_scheme ["api".toList, "example".toList, "com".toList]
    (some "443".toList) (some "x".toList) (by decide) (by decide) (by decide)

/-- C9 (the code at a failing input): for the URL of the comment in `_getDomain`,
"https://api.example.com:443/path", the function returns "https" and not
"example.com": the view computed by `url.substr(seperator + 3)` is discarded, the
first '/' found is the one of "://", and what is left of the URL is its scheme. A URL
of another host with the same scheme gets the same domain, hence the same limiter. -/
theorem getDomain_with_scheme_returns_scheme :
    _getDomain "https://api.example.com:443/path".toList = "https".toList ∧
    _getDomain "api.example.com:443/path".toList = "example.com".toList ∧
    _getDomain "https://firmware.other.org/version.txt".toList = "https".toList := by
  decide

/-! ### The GET request -/

theorem wrapSigned_of_lt (bits : Nat) (x : Int) (hbits : 0 < bits) (h0 : 0 ≤ x)
    (hx : x < 2 ^ (bits - 1)) : wrapSigned bits x = x := by
  unfold wrapSigned
  have hpow : (2 : Int) ^ bits = 2 * 2 ^ (bits - 1) := by
    have : bits = (bits - 1) + 1 := by omega
    conv_lhs => rw [this, pow_succ]
    ring
  have hpos : (0 : Int) < 2 ^ (bits - 1) := by positivity
  rw [hpow, Int.emod_eq_of_lt (by omega) (by omega)]
  omega

/-- C7 (as amended): when `client.begin` succeeds, the response code is 429 and the
deadline `begin + timeoutMs` has not passed when `GET` returns, `_doGetStream` returns
RateLimited (with code 429, nothing read and no callback call) and sets the limiter's
`blockUntilMs` to now + 1000*r, where r is the Retry-After value if that header is a
non-empty string of decimal digits with a value greater than 0, and 15 in every other
case, provided 1000*r is less than 2^(w-1), w being the width of `long`. -/
theorem doGetStream_too_many_requests (P : Platform) (x : HttpExchange)
    (acceptedCodes : List Int) (rateLimiter : RateLimit) (contentLengthCallback : Int → Bool)
    (downloadCallback : Nat → List Nat → Bool) (timeoutMs : Nat)
    (hbegin : x.beginOk = true) (hcode : x.responseCode = 429)
    (htime : x.nowAfterGet ≤ x.nowBegin + timeoutMs)
    (hfit : 1000 * retryAfterSeconds x.retryAfter < 2 ^ (P.longBits - 1)) :
    _doGetStream P x acceptedCodes rateLimiter contentLengthCallback downloadCallback timeoutMs
      = some ({ result := RequestResult.RateLimited, code := 429, data := 0 },
          rateLimiter.blockUntil (x.nowRateLimited + 1000 * retryAfterSeconds x.retryAfter),
          []) := by
  have hr : 1 ≤ retryAfterSeconds x.retryAfter := by
    unfold retryAfterSeconds
    split
    · rename_i h; omega
    · omega
  have hbits : 0 < P.longBits := by
    rcases Nat.eq_zero_or_pos P.longBits with h0 | h0
    · rw [h0] at hfit; simp at hfit; omega
    · exact h0
  have hfitZ : (1000 * (retryAfterSeconds x.retryAfter : Int)) < 2 ^ (P.longBits - 1) := by
    exact_mod_cast hfit
  -- the seconds the code computes are those of the claim
  have hsec : (if (if x.retryAfter.length > 0 ∧ x.retryAfter.all Char.isDigit = true
        then toInt P x.retryAfter else 0) ≤ 0 then (15 : Int)
      else (if x.retryAfter.length > 0 ∧ x.retryAfter.all Char.isDigit = true
        then toInt P x.retryAfter else 0)) = (retryAfterSeconds x.retryAfter : Int) := by
    by_cases hd : x.retryAfter.length > 0 ∧ x.retryAfter.all Char.isDigit = true
    · have hne : x.retryAfter ≠ [] := List.length_pos.mp hd.1
      rw [if_pos hd]
      by_cases hv : 0 < decimalValue x.retryAfter
      · have hspec : retryAfterSeconds x.retryAfter = decimalValue x.retryAfter := by
          unfold retryAfterSeconds
          rw [if_pos ⟨hne, hd.2, hv⟩]
        rw [hspec] at hfitZ ⊢
        have hto : toInt P x.retryAfter = decimalValue x.retryAfter := by
          unfold toInt
          omega
        rw [hto, if_neg (by omega)]
      · have hspec : retryAfterSeconds x.retryAfter = 15 := by
          unfold retryAfterSeconds
          rw [if_neg (by tauto)]
        have hpos : (0 : Int) < 2 ^ (P.longBits - 1) := by positivity
        have hto : toInt P x.retryAfter = 0 := by
          unfold toInt
          have : decimalValue x.retryAfter = 0 := by omega
          rw [this]
          simp only [Nat.cast_zero]
          omega
        rw [hto, hspec]
        simp
    · have hspec : retryAfterSeconds x.retryAfter = 15 := by
        unfold retryAfterSeconds
        rw [if_neg]
        rintro ⟨h1, h2, -⟩
        exact hd ⟨List.length_pos.mpr h1, h2⟩
      rw [if_neg hd, hspec]
      simp
  unfold _doGetStream
  simp only [hbegin, hcode, Bool.not_true, Bool.false_eq_true, if_false,
    HTTP_CODE_REQUEST_TIMEOUT, HTTP_CODE_TOO_MANY_REQUESTS]
  rw [if_neg (by omega), if_pos trivial, hsec,
    wrapSigned_of_lt P.longBits _ hbits (by positivity) (by omega)]
  rw [Int.mul_comm]

theorem doGetStream_too_many_requests_witness :
    _doGetStream esp32
        { nowBegin := 0, beginOk := true, responseCode := 429, nowAfterGet := 800,
          retryAfter := "120".toList, nowRateLimited := 900, contentLength := 0,
          streamPresent := true, events := [], stream := [] }
        [200] RateLimit.init (fun _ => true) (fun _ _ => true) 10000
      = some ({ result := RequestResult.RateLimited, code := 429, data := 0 },
          RateLimit.init.blockUntil (900 + 1000 * retryAfterSeconds "120".toList), []) :=
  doGetStream_too_many_requests esp32
    { nowBegin := 0, beginOk := true, responseCode := 429, nowAfterGet := 800,
      retryAfter := "120".toList, nowRateLimited := 900, contentLength := 0,
      streamPresent := true, events := [], stream := [] }
    [200] RateLimit.init (fun _ => true) (fun _ _ => true) 10000 rfl rfl (by decide) (by decide)

/-- C7 (the claim as stated fails): a 429 response that arrives after the deadline
`begin + timeoutMs` makes `_doGetStream` return TimedOut and leave the limiter
untouched; and on the 32-bit target a 429 response in time with "Retry-After: 3000000"
sets `blockUntilMs` to now - 1294967296, the product `retryAfter * 1000` leaving the
range of `long`, and not to now + 3000000000. -/
theorem doGetStream_429_not_always_rate_limited :
    _doGetStream esp32
        { nowBegin := 0, beginOk := true, responseCode := 429, nowAfterGet := 10001,
          retryAfter := "30".toList, nowRateLimited := 10001, contentLength := 0,
          streamPresent := true, events := [], stream := [] }
        [200] RateLimit.init (fun _ => true) (fun _ _ => true) 10000
      = some ({ result := RequestResult.TimedOut, code := 429, data := 0 }, RateLimit.init, []) ∧
    _doGetStream esp32
        { nowBegin := 0, beginOk := true, responseCode := 429, nowAfterGet := 800,
          retryAfter := "3000000".toList, nowRateLimited := 900, contentLength := 0,
          streamPresent := true, events := [], stream := [] }
        [200] RateLimit.init (fun _ => true) (fun _ _ => true) 10000
      = some ({ result := RequestResult.RateLimited, code := 429, data := 0 },
          RateLimit.init.blockUntil (900 - 1294967296), []) ∧
    retryAfterSeconds "3000000".toList = 3000000 :=
  ⟨by decide, by decide, by decide⟩

/-! ### The chunked reader -/

theorem find_range_none (f : Nat → Bool) (n : Nat) (h : ∀ i, i < n → f i = false) :
    (List.range n).find? f = none := by
  rw [List.find?_eq_none]
  intro i hi
  simp [h i (List.mem_range.mp hi)]

theorem find_range_first (f : Nat → Bool) (n m : Nat) (hm : m < n) (hf : f m = true)
    (hlt : ∀ i, i < m → f i = false) : (List.range n).find? f = some m := by
  induction n with
  | zero => omega
  | succ n ih =>
    rw [List.range_succ, List.find?_append]
    by_cases hmn : m < n
    · rw [ih hmn]; rfl
    · have : m = n := by omega
      subst this
      rw [find_range_none f m hlt]
      simp [hf]

theorem hexDigitValue_hexDigitChar (d : Nat) (h : d < 16) :
    hexDigitValue (hexDigitChar d) = some d := by
  unfold hexDigitValue hexDigitChar
  by_cases h10 : d < 10
  · simp only [h10, if_true]
    rw [if_pos (by omega)]
    simp
  · simp only [h10, if_false]
    rw [if_neg (by omega), if_pos (by omega)]
    have : 87 + d - 97 + 10 = d := by omega
    rw [this]

theorem hexDigitChar_ne (d : Nat) (h : d < 16) :
    hexDigitChar d ≠ 13 ∧ hexDigitChar d ≠ 59 := by
  unfold hexDigitChar
  split <;> omega

theorem parseHexDigits_append (acc : Nat) (xs : List Nat) (c : Nat) :
    parseHexDigits acc (xs ++ [c])
      = match parseHexDigits acc xs with
        | some r =>
          match hexDigitValue c with
          | some d => some ((r <<< 4) ||| d)
          | none => none
        | none => none := by
  induction xs generalizing acc with
  | nil =>
    simp only [List.nil_append, parseHexDigits]
  | cons x xs ih =>
    simp only [List.cons_append, parseHexDigits]
    cases hexDigitValue x with
    | none => rfl
    | some d => exact ih _

theorem shift_or_digit (r d : Nat) (h : d < 16) : (r <<< 4) ||| d = r * 16 + d := by
  rw [Nat.shiftLeft_eq]
  have h16 : d < 2 ^ 4 := by omega
  have := Nat.mul_add_lt_is_or h16 r
  rw [Nat.mul_comm r (2 ^ 4), ← this]

theorem parseHexDigits_hexDigits (fuel n : Nat) (h : n < fuel) :
    parseHexDigits 0 (hexDigits fuel n) = some n := by
  induction fuel generalizing n with
  | zero => omega
  | succ fuel ih =>
    unfold hexDigits
    by_cases h16 : n < 16
    · simp only [h16, if_true, parseHexDigits, hexDigitValue_hexDigitChar n h16]
      simp
    · simp only [h16, if_false]
      rw [parseHexDigits_append, ih (n / 16) (by omega),
        hexDigitValue_hexDigitChar (n % 16) (Nat.mod_lt _ (by omega))]
      simp only [shift_or_digit _ _ (Nat.mod_lt n (by omega : 16 > 0))]
      congr 1
      omega

theorem hexDigits_ne_nil (fuel n : Nat) (h : 0 < fuel) : hexDigits fuel n ≠ [] := by
  cases fuel with
  | zero => omega
  | succ fuel =>
    unfold hexDigits
    split <;> simp

theorem hexDigits_mem (fuel n : Nat) : ∀ c ∈ hexDigits fuel n, c ≠ 13 ∧ c ≠ 59 := by
  induction fuel generalizing n with
  | zero => intro c hc; simp [hexDigits] at hc
  | succ fuel ih =>
    intro c hc
    unfold hexDigits at hc
    split at hc
    · rename_i h16
      simp only [List.mem_singleton] at hc
      subst hc
      exact hexDigitChar_ne n h16
    · rw [List.mem_append] at hc
      rcases hc with hc | hc
      · exact ih _ c hc
      · simp only [List.mem_singleton] at hc
        subst hc
        exact hexDigitChar_ne _ (Nat.mod_lt _ (by omega))

theorem hexDigits_length (fuel n k : Nat) (hk : 0 < k) (h : n < 16 ^ k) :
    (hexDigits fuel n).length ≤ k := by
  induction fuel generalizing n k with
  | zero => simp [hexDigits]
  | succ fuel ih =>
    unfold hexDigits
    split
    · simp; omega
    · rename_i h16
      cases k with
      | zero => omega
      | succ k =>
        have hk1 : 0 < k := by
          rcases Nat.eq_zero_or_pos k with h0 | h0
          · subst h0; simp at h; omega
          · exact h0
        have : n / 16 < 16 ^ k := by
          rw [Nat.div_lt_iff_lt_mul (by omega)]
          rw [pow_succ] at h
          exact h
        have := ih (n / 16) k hk1 this
        simp only [List.length_append, List.length_singleton]
        omega

theorem getElem?_of_prefix (b full : List Nat) (i : Nat) (hpre : b <+: full) (hi : i < b.length) :
    b[i]? = full[i]? := by
  obtain ⟨t, rfl⟩ := hpre
  rw [List.getElem?_append_left hi]

theorem isCRLF_false_of_ne (b : List Nat) (i c : Nat) (hb : b[i]? = some c) (hc : c ≠ 13) :
    _isCRLF b i = false := by
  simp [_isCRLF, hb, hc]

theorem getElem?_header (h rest : List Nat) (i : Nat) (hi : i < h.length) :
    ∃ c, c ∈ h ∧ (h ++ rest)[i]? = some c := by
  refine ⟨h[i], List.getElem_mem hi, ?_⟩
  rw [List.getElem?_append_left hi, List.getElem?_eq_getElem hi]

theorem isCRLF_at (a rest : List Nat) : _isCRLF (a ++ 13 :: 10 :: rest) a.length = true := by
  have h1 : (a ++ 13 :: 10 :: rest)[a.length]? = some 13 := by
    rw [List.getElem?_append_right (le_refl _)]; simp
  have h2 : (a ++ 13 :: 10 :: rest)[a.length + 1]? = some 10 := by
    rw [List.getElem?_append_right (by omega)]; simp
  simp [_isCRLF, h1, h2]

theorem tryFindCRLF_header (h rest : List Nat) (hc : ∀ c ∈ h, c ≠ 13) :
    _tryFindCRLF (h ++ 13 :: 10 :: rest) (h ++ 13 :: 10 :: rest).length = some h.length := by
  unfold _tryFindCRLF
  apply find_range_first
  · simp only [List.length_append, List.length_cons]; omega
  · exact isCRLF_at h rest
  · intro i hi
    obtain ⟨c, hmem, hget⟩ := getElem?_header h (13 :: 10 :: rest) i hi
    exact isCRLF_false_of_ne _ i c hget (hc c hmem)

theorem tryFindCRLF_short (h b : List Nat) (hc : ∀ c ∈ h, c ≠ 13) (hpre : b <+: h ++ [13]) :
    _tryFindCRLF b b.length = none := by
  unfold _tryFindCRLF
  apply find_range_none
  intro i hi
  have hlen : b.length ≤ h.length + 1 := by
    have := hpre.length_le
    simpa using this
  have hib : i < b.length := by omega
  have hih : i < h.length := by omega
  obtain ⟨c, hmem, hget⟩ := getElem?_header h [13] i hih
  have := getElem?_of_prefix b (h ++ [13]) i hpre hib
  exact isCRLF_false_of_ne b i c (by rw [this, hget]) (hc c hmem)

theorem tryParseHexSizeT_valid (P : Platform) (h : List Nat) (n : Nat)
    (hv : ValidSizeField P h n) : _tryParseHexSizeT P h = some n := by
  unfold _tryParseHexSizeT
  have h1 : h.isEmpty = false := by
    cases h with
    | nil => exact absurd rfl hv.ne_nil
    | cons c cs => rfl
  have h2 : ¬ h.length > P.sizeofSizeT * 2 := by have := hv.length_le_size; omega
  simp only [h1, h2, decide_False, Bool.or_self, Bool.false_eq_true, if_false]
  exact hv.parse

/-- The header parser on a buffer that starts with a complete header line. -/
theorem parseChunkHeader_ok (P : Platform) (h rest : List Nat) (n x y : Nat)
    (hv : ValidSizeField P h n) (hlen : 5 ≤ (h ++ 13 :: 10 :: rest).length) :
    _parseChunkHeader P (h ++ 13 :: 10 :: rest) x y = (ParserState.Ok, h.length + 2, n) := by
  unfold _parseChunkHeader
  rw [if_neg (by omega), tryFindCRLF_header h rest (fun c hc => (hv.chars c hc).1)]
  have hpos : h.length ≠ 0 := by
    have := List.length_pos.mpr hv.ne_nil; omega
  have hsemi : (List.range h.length).find?
      (fun i => (h ++ 13 :: 10 :: rest)[i]? == some 59) = none := by
    apply find_range_none
    intro i hi
    obtain ⟨c, hmem, hget⟩ := getElem?_header h (13 :: 10 :: rest) i hi
    have := (hv.chars c hmem).2
    simp [hget, this]
  have htake : (h ++ 13 :: 10 :: rest).take h.length = h := List.take_left' rfl
  have hlimit : ¬ n > HTTP_DOWNLOAD_SIZE_LIMIT := by have := hv.small; omega
  have hbound : ¬ h.length > 16 := by have := hv.length_le; omega
  simp only [hpos, if_false, hsemi, hbound, htake, tryParseHexSizeT_valid P h n hv, hlimit,
    false_or]

/-- The header parser on a buffer that ends before the LF of the header line. -/
theorem parseChunkHeader_short (P : Platform) (h b : List Nat) (x y : Nat)
    (hc : ∀ c ∈ h, c ≠ 13) (hpre : b <+: h ++ [13]) :
    _parseChunkHeader P b x y = (ParserState.NeedMoreData, x, y) := by
  unfold _parseChunkHeader
  split
  · rfl
  · rw [tryFindCRLF_short h b hc hpre]

/-- The chunk parser on a buffer that starts with a complete chunk. -/
theorem parseChunk_complete (P : Platform) (h p rest : List Nat) (pos size : Nat)
    (hv : ValidSizeField P h p.length)
    (hps : pos = 0 ∨ (pos = h.length + 2 ∧ size = p.length)) :
    _parseChunk P (h ++ 13 :: 10 :: (p ++ 13 :: 10 :: rest)) pos size
      = (ParserState.Ok, h.length + 2, p.length) := by
  have hpos : 0 < h.length := List.length_pos.mpr hv.ne_nil
  have hlen : (h ++ 13 :: 10 :: (p ++ 13 :: 10 :: rest)).length
      = h.length + 2 + p.length + 2 + rest.length := by
    simp only [List.length_append, List.length_cons]; omega
  have hheader : (if pos = 0 then
        _parseChunkHeader P (h ++ 13 :: 10 :: (p ++ 13 :: 10 :: rest)) pos size
      else (ParserState.Ok, pos, size)) = (ParserState.Ok, h.length + 2, p.length) := by
    rcases hps with h0 | ⟨h1, h2⟩
    · rw [if_pos h0]
      exact parseChunkHeader_ok P h _ p.length pos size hv (by omega)
    · rw [if_neg (by omega), h1, h2]
  have hcrlf : _isCRLF (h ++ 13 :: 10 :: (p ++ 13 :: 10 :: rest))
      (h.length + 2 + p.length + 2 - 2) = true := by
    have h1 : h ++ 13 :: 10 :: (p ++ 13 :: 10 :: rest)
        = (h ++ 13 :: 10 :: p) ++ 13 :: 10 :: rest := by simp
    have h2 : h.length + 2 + p.length + 2 - 2 = (h ++ 13 :: 10 :: p).length := by
      simp only [List.length_append, List.length_cons]; omega
    rw [h1, h2]
    exact isCRLF_at _ rest
  unfold _parseChunk
  simp only [hheader]
  rw [if_neg (by omega)]
  simp only [hcrlf, Bool.not_true, Bool.false_eq_true, if_false]

/-- The chunk parser on a buffer that holds the beginning of a chunk, not all of it. -/
theorem parseChunk_partial (P : Platform) (h p b : List Nat) (pos size : Nat)
    (hv : ValidSizeField P h p.length)
    (hpre : b <+: h ++ 13 :: 10 :: (p ++ [13, 10]))
    (hlt : b.length < h.length + 2 + p.length + 2)
    (hps : pos = 0 ∨ (pos = h.length + 2 ∧ size = p.length)) :
    ∃ pos1 size1, _parseChunk P b pos size = (ParserState.NeedMoreData, pos1, size1) ∧
      (pos1 = 0 ∨ (pos1 = h.length + 2 ∧ size1 = p.length)) := by
  have hpos : 0 < h.length := List.length_pos.mpr hv.ne_nil
  unfold _parseChunk
  rcases hps with h0 | ⟨h1, h2⟩
  · rw [if_pos h0]
    by_cases hb : b.length ≤ h.length + 1
    · -- the header line is not complete
      have hpre2 : b <+: h ++ [13] := by
        have hfull : h ++ [13] <+: h ++ 13 :: 10 :: (p ++ [13, 10]) :=
          ⟨10 :: (p ++ [13, 10]), by simp⟩
        exact List.prefix_of_prefix_length_le hpre hfull (by simpa using hb)
      rw [parseChunkHeader_short P h b pos size (fun c hc => (hv.chars c hc).1) hpre2]
      exact ⟨pos, size, rfl, Or.inl h0⟩
    · by_cases h5 : b.length < 5
      · have : _parseChunkHeader P b pos size = (ParserState.NeedMoreData, pos, size) := by
          unfold _parseChunkHeader
          rw [if_pos h5]
        rw [this]
        exact ⟨pos, size, rfl, Or.inl h0⟩
      · -- the header line is complete, the chunk is not
        have hfull : h ++ [13, 10] <+: h ++ 13 :: 10 :: (p ++ [13, 10]) :=
          ⟨p ++ [13, 10], by simp⟩
        have hpre2 : h ++ [13, 10] <+: b :=
          List.prefix_of_prefix_length_le hfull hpre (by simp; omega)
        obtain ⟨rest, hrest⟩ := hpre2
        have hb2 : b = h ++ 13 :: 10 :: rest := by rw [← hrest]; simp
        rw [hb2, parseChunkHeader_ok P h rest p.length pos size hv (by rw [← hb2]; omega)]
        simp only
        rw [if_pos (by rw [← hb2]; omega)]
        exact ⟨_, _, rfl, Or.inr ⟨rfl, rfl⟩⟩
  · rw [if_neg (by omega)]
    simp only
    rw [if_pos (by omega)]
    exact ⟨pos, size, rfl, Or.inr ⟨h1, h2⟩⟩

theorem encodeChunk_length (p : List Nat) :
    (encodeChunk p).length = (toHex p.length).length + 2 + p.length + 2 := by
  simp only [encodeChunk, List.length_append, List.length_cons, List.length_nil]
  omega

theorem validSizeField_toHex (P : Platform) (hP : 2 ≤ P.sizeofSizeT) (p : List Nat)
    (hfit : (encodeChunk p).length ≤ HTTP_BUFFER_SIZE) :
    ValidSizeField P (toHex p.length) p.length := by
  rw [encodeChunk_length] at hfit
  have hsmall : p.length < 16 ^ 3 := by
    simp only [HTTP_BUFFER_SIZE] at hfit
    norm_num
    omega
  have hlen : (toHex p.length).length ≤ 3 := hexDigits_length _ _ 3 (by omega) hsmall
  refine ⟨hexDigits_ne_nil _ _ (by omega), by omega, by omega, hexDigits_mem _ _,
    parseHexDigits_hexDigits _ _ (by omega), ?_⟩
  simp only [HTTP_DOWNLOAD_SIZE_LIMIT]
  norm_num at hsmall
  omega

theorem totalLength_append (xs ys : List (List Nat)) :
    totalLength (xs ++ ys) = totalLength xs + totalLength ys := by
  simp [totalLength]

theorem deliveries_append (offset : Nat) (xs ys : List (List Nat)) :
    deliveries offset (xs ++ ys)
      = deliveries offset xs ++ deliveries (offset + totalLength xs) ys := by
  induction xs generalizing offset with
  | nil => simp [deliveries, totalLength]
  | cons x xs ih =>
    have h := ih (offset + x.length)
    simp only [totalLength, Nat.add_assoc] at h
    show (offset, x) :: deliveries (offset + x.length) (xs ++ ys) = _
    rw [h]
    simp only [List.cons_append, deliveries, totalLength, List.map_cons, List.sum_cons]

theorem alignChunk_eq (chunk b2 : List Nat) (pos len : Nat)
    (hlen : chunk.length = pos + len + 2) :
    _alignChunk (chunk ++ b2) pos len = b2 := by
  unfold _alignChunk
  simp only [List.length_append, hlen]
  split
  · rw [← hlen, List.drop_left' rfl]
    have : pos + len + 2 + b2.length - (pos + len + 2) = b2.length := by omega
    rw [hlen, this, List.take_length]
  · rename_i h
    have : b2.length = 0 := by omega
    exact (List.length_eq_zero.mp this).symm

theorem payload_of_buffer (h p rest : List Nat) :
    ((h ++ 13 :: 10 :: (p ++ 13 :: 10 :: rest)).drop (h.length + 2)).take p.length = p := by
  have h1 : h ++ 13 :: 10 :: (p ++ 13 :: 10 :: rest)
      = (h ++ [13, 10]) ++ (p ++ 13 :: 10 :: rest) := by simp
  have h2 : (h ++ [13, 10]).length = h.length + 2 := by simp
  rw [h1, List.drop_left' h2, List.take_left' rfl]

theorem alignChunk_length (buffer : List Nat) (pos len : Nat) :
    (_alignChunk buffer pos len).length = buffer.length - (pos + len + 2) := by
  unfold _alignChunk
  simp only
  split
  · simp only [List.length_take, List.length_drop]; omega
  · simp only [List.length_nil]; omega

/-- The fuel of `parseMore` is a device of the model only: with more fuel than the
buffer has bytes, the passes from the label `parseMore` always come to an end. -/
theorem parseMore_fuel_enough (P : Platform) (cb : Nat → List Nat → Bool) (fuel : Nat)
    (r : ChunkedReader) (h : r.buffer.length < fuel) :
    ∃ step, parseMore P cb fuel r = some step := by
  induction fuel generalizing r with
  | zero => omega
  | succ fuel ih =>
    unfold parseMore
    simp only
    split
    · exact ⟨_, rfl⟩
    · split <;> exact ⟨_, rfl⟩
    · split
      · exact ⟨_, rfl⟩
      · split
        · exact ⟨_, rfl⟩
        · split
          · rename_i hpos
            apply ih
            simp only [alignChunk_length] at hpos ⊢
            omega
          · exact ⟨_, rfl⟩

/-! ### The keep-alive task -/

theorem earliestDeadline_cons (start : Int) (k : KnownShocker) (rest : List KnownShocker) :
    earliestDeadline start (k :: rest)
      = earliestDeadline (min start (k.lastActivityTimestamp + KEEP_ALIVE_INTERVAL)) rest := rfl

/-- The value `earliestDeadline` is a lower bound of the deadlines it is taken over,
and it is one of them. -/
theorem earliestDeadline_is_min (start : Int) (entries : List KnownShocker) :
    earliestDeadline start entries ≤ start ∧
    (∀ k ∈ entries, earliestDeadline start entries ≤ k.lastActivityTimestamp + KEEP_ALIVE_INTERVAL) ∧
    (earliestDeadline start entries = start ∨
      ∃ k ∈ entries, earliestDeadline start entries = k.lastActivityTimestamp + KEEP_ALIVE_INTERVAL) := by
  induction entries generalizing start with
  | nil => simp [earliestDeadline]
  | cons k rest ih =>
    rw [earliestDeadline_cons]
    obtain ⟨h1, h2, h3⟩ := ih (min start (k.lastActivityTimestamp + KEEP_ALIVE_INTERVAL))
    refine ⟨by omega, ?_, ?_⟩
    · intro j hj
      rcases List.mem_cons.mp hj with rfl | hj
      · omega
      · exact h2 j hj
    · rcases h3 with h3 | ⟨j, hj, h3⟩
      · rcases min_choice start (k.lastActivityTimestamp + KEEP_ALIVE_INTERVAL) with hm | hm
        · left; rw [h3, hm]
        · right; exact ⟨k, List.mem_cons_self k rest, by rw [h3, hm]⟩
      · right; exact ⟨j, List.mem_cons_of_mem k hj, h3⟩

/-- The `for` loop of the keep-alive task while a transmitter is installed. -/
theorem keepAliveEntries_installed (now : Int) (entries : List KnownShocker)
    (s : CommandHandlerState) (timeToKeepAlive : Int) (tx : RFTransmitter)
    (h : s.rfTransmitter = some tx) :
    (keepAliveEntries now entries s timeToKeepAlive).1 = entries.map (afterKeepAlive now) ∧
    (keepAliveEntries now entries s timeToKeepAlive).2.1.txCalls
      = s.txCalls ++ (entries.filter (keepAliveDue now)).map
          (fun k => TxCall.SendCommand (keepAliveCommand k)) ∧
    (keepAliveEntries now entries s timeToKeepAlive).2.2
      = earliestDeadline timeToKeepAlive (entries.map (afterKeepAlive now)) ∧
    (keepAliveEntries now entries s timeToKeepAlive).2.1.keepAliveQueue = s.keepAliveQueue ∧
    ∃ tx1, (keepAliveEntries now entries s timeToKeepAlive).2.1.rfTransmitter = some tx1 ∧
      tx1.capacity = tx.capacity ∧
      (tx.capacity ≤ tx.pending.length → tx1 = tx) := by
  induction entries generalizing s timeToKeepAlive tx with
  | nil => exact ⟨rfl, by simp [keepAliveEntries], rfl, rfl, tx, h, rfl, fun _ => rfl⟩
  | cons k rest ih =>
    by_cases hdue : k.lastActivityTimestamp + KEEP_ALIVE_INTERVAL < now
    · have hd : keepAliveDue now k = true := by simp [keepAliveDue, hdue]
      have hcap : (tx.SendCommand (keepAliveCommand k)).2.capacity = tx.capacity := by
        unfold RFTransmitter.SendCommand
        split <;> rfl
      have hfull : tx.capacity ≤ tx.pending.length →
          (tx.SendCommand (keepAliveCommand k)).2 = tx := by
        intro hle
        unfold RFTransmitter.SendCommand
        rw [if_neg (by omega)]
      obtain ⟨h1, h2, h3, h4, tx1, h5, h6, h7⟩ := ih
        { s with
          rfTransmitter := some (tx.SendCommand (keepAliveCommand k)).2
          txCalls := s.txCalls ++ [TxCall.SendCommand (keepAliveCommand k)] }
        (min timeToKeepAlive (now + KEEP_ALIVE_INTERVAL))
        (tx.SendCommand (keepAliveCommand k)).2 rfl
      simp only [keepAliveEntries, hdue, if_true, h]
      refine ⟨?_, ?_, ?_, ?_, tx1, h5, by rw [h6, hcap], ?_⟩
      · simp [h1, afterKeepAlive, hd]
      · rw [h2]; simp [List.filter_cons, hd]
      · rw [h3]; simp [afterKeepAlive, hd, earliestDeadline_cons]
      · rw [h4]
      · intro hle
        have := hfull hle
        rw [this] at h7
        exact h7 hle
    · have hd : keepAliveDue now k = false := by simp [keepAliveDue, hdue]
      obtain ⟨h1, h2, h3, h4, tx1, h5, h6, h7⟩ := ih s
        (min timeToKeepAlive (k.lastActivityTimestamp + KEEP_ALIVE_INTERVAL)) tx h
      simp only [keepAliveEntries, hdue, if_false]
      refine ⟨?_, ?_, ?_, h4, tx1, h5, h6, h7⟩
      · simp [h1, afterKeepAlive, hd]
      · rw [h2]; simp [List.filter_cons, hd]
      · rw [h3]; simp [afterKeepAlive, hd, earliestDeadline_cons]

/-- The `for` loop of the keep-alive task while no transmitter is installed: it
stops at the first shocker that is due. -/
theorem keepAliveEntries_not_installed (now : Int) (entries : List KnownShocker)
    (s : CommandHandlerState) (timeToKeepAlive : Int) (h : s.rfTransmitter = none) :
    (keepAliveEntries now entries s timeToKeepAlive).1 = entries ∧
    (keepAliveEntries now entries s timeToKeepAlive).2.1 = s ∧
    (keepAliveEntries now entries s timeToKeepAlive).2.2
      = earliestDeadline timeToKeepAlive (entries.takeWhile (fun k => !keepAliveDue now k)) := by
  induction entries generalizing timeToKeepAlive with
  | nil => exact ⟨rfl, rfl, rfl⟩
  | cons k rest ih =>
    by_cases hdue : k.lastActivityTimestamp + KEEP_ALIVE_INTERVAL < now
    · have hd : keepAliveDue now k = true := by simp [keepAliveDue, hdue]
      simp only [keepAliveEntries, hdue, if_true, h]
      simp [List.takeWhile_cons, hd, earliestDeadline]
    · have hd : keepAliveDue now k = false := by simp [keepAliveDue, hdue]
      obtain ⟨h1, h2, h3⟩ := ih (min timeToKeepAlive (k.lastActivityTimestamp + KEEP_ALIVE_INTERVAL))
      simp only [keepAliveEntries, hdue, if_false]
      refine ⟨by rw [h1], h2, ?_⟩
      rw [h3]
      simp [List.takeWhile_cons, hd, earliestDeadline_cons]

/-- C16: in one keep-alive pass at time `now` with a transmitter installed, the calls
made on the transmitter are one `SendCommand` with type Vibrate, intensity 0, duration
300 ms and the shocker's own id and model for each tracked shocker whose
`lastActivityTimestamp + 60000 < now`, in the order of the map, and no other call; the
`lastActivityTimestamp` of each such shocker becomes `now` and the other shockers stay
as they are. So with A active at 0 and B at 30000, a pass at 60001 submits for A only,
and a following pass at 90001 submits for B only. -/
theorem keepAlivePass_fires_due_shockers (s : CommandHandlerState) (task : KeepAliveTask)
    (now : Int) (tx : RFTransmitter) (h : s.rfTransmitter = some tx) :
    (keepAlivePass s task now).1.txCalls
      = s.txCalls ++ (task.activityMap.filter
            (fun k => decide (k.lastActivityTimestamp + 60000 < now))).map
          (fun k => TxCall.SendCommand ⟨k.model, k.shockerId, ShockerCommandType.Vibrate, 0, 300⟩) ∧
    (keepAlivePass s task now).2.activityMap
      = task.activityMap.map (fun k =>
          if k.lastActivityTimestamp + 60000 < now then { k with lastActivityTimestamp := now }
          else k) ∧
    ∀ (modelA modelB : ShockerModelType) (idA idB : Nat) (timeToKeepAlive : Int),
      (keepAlivePass s ⟨timeToKeepAlive, [⟨false, modelA, idA, 0⟩, ⟨false, modelB, idB, 30000⟩]⟩
          60001).1.txCalls
        = s.txCalls ++ [TxCall.SendCommand ⟨modelA, idA, ShockerCommandType.Vibrate, 0, 300⟩] ∧
      (keepAlivePass
          (keepAlivePass s
            ⟨timeToKeepAlive, [⟨false, modelA, idA, 0⟩, ⟨false, modelB, idB, 30000⟩]⟩ 60001).1
          (keepAlivePass s
            ⟨timeToKeepAlive, [⟨false, modelA, idA, 0⟩, ⟨false, modelB, idB, 30000⟩]⟩ 60001).2
          90001).1.txCalls
        = s.txCalls ++ [TxCall.SendCommand ⟨modelA, idA, ShockerCommandType.Vibrate, 0, 300⟩,
            TxCall.SendCommand ⟨modelB, idB, ShockerCommandType.Vibrate, 0, 300⟩] := by
  have hgen : ∀ (s : CommandHandlerState) (task : KeepAliveTask) (now : Int) (tx : RFTransmitter),
      s.rfTransmitter = some tx →
      (keepAlivePass s task now).1.txCalls
        = s.txCalls ++ (task.activityMap.filter (keepAliveDue now)).map
            (fun k => TxCall.SendCommand (keepAliveCommand k)) ∧
      (keepAlivePass s task now).2.activityMap = task.activityMap.map (afterKeepAlive now) ∧
      ∃ tx1, (keepAlivePass s task now).1.rfTransmitter = some tx1 := by
    intro s task now tx h
    obtain ⟨h1, h2, -, -, tx1, h5, -, -⟩ :=
      keepAliveEntries_installed now task.activityMap s (now + KEEP_ALIVE_INTERVAL) tx h
    exact ⟨h2, h1, tx1, h5⟩
  obtain ⟨g1, g2, -⟩ := hgen s task now tx h
  have hafter : afterKeepAlive now = fun k =>
      if k.lastActivityTimestamp + 60000 < now then { k with lastActivityTimestamp := now }
      else k := by
    funext k
    simp [afterKeepAlive, keepAliveDue, KEEP_ALIVE_INTERVAL]
  refine ⟨g1, by rw [g2, hafter], ?_⟩
  intro modelA modelB idA idB timeToKeepAlive
  obtain ⟨a1, a2, tx1, a3⟩ := hgen s
    ⟨timeToKeepAlive, [⟨false, modelA, idA, 0⟩, ⟨false, modelB, idB, 30000⟩]⟩ 60001 tx h
  obtain ⟨b1, -, -⟩ := hgen _ (keepAlivePass s
    ⟨timeToKeepAlive, [⟨false, modelA, idA, 0⟩, ⟨false, modelB, idB, 30000⟩]⟩ 60001).2
    90001 tx1 a3
  refine ⟨?_, ?_⟩
  · rw [a1]
    simp [keepAliveDue, KEEP_ALIVE_INTERVAL, keepAliveCommand, KEEP_ALIVE_DURATION]
  · rw [b1, a1, a2]
    simp [keepAliveDue, afterKeepAlive, KEEP_ALIVE_INTERVAL, keepAliveCommand, KEEP_ALIVE_DURATION]

theorem keepAlivePass_fires_due_shockers_witness :
    (keepAlivePass
        { rfTransmitter := some { capacity := 8, pending := [] }, keepAliveQueue := none,
          txCalls := [] }
        ⟨60000, [⟨false, 1, 10, 0⟩, ⟨false, 2, 20, 30000⟩]⟩ 60001).1.txCalls
      = [] ++ [TxCall.SendCommand ⟨1, 10, ShockerCommandType.Vibrate, 0, 300⟩] :=
  ((keepAlivePass_fires_due_shockers
      { rfTransmitter := some { capacity := 8, pending := [] }, keepAliveQueue := none,
        txCalls := [] }
      ⟨60000, [⟨false, 1, 10, 0⟩, ⟨false, 2, 20, 30000⟩]⟩ 60001
      { capacity := 8, pending := [] } rfl).2.2 1 2 10 20 60000).1

theorem takeWhile_not_due_of_none_due (now : Int) (entries : List KnownShocker)
    (h : ∀ k ∈ entries, ¬ (k.lastActivityTimestamp + 60000 < now)) :
    entries.takeWhile (fun k => !keepAliveDue now k) = entries := by
  rw [List.takeWhile_eq_self_iff]
  intro k hk
  have := h k hk
  simp [keepAliveDue, KEEP_ALIVE_INTERVAL, this]

theorem calculateEepyTime_eq (timeToKeepAlive now : Int) :
    (calculateEepyTime timeToKeepAlive now : Int) = max 0 (min (timeToKeepAlive - now) 60000) := by
  unfold calculateEepyTime KEEP_ALIVE_INTERVAL
  simp only
  split
  · omega
  · split <;> omega

/-- C17 (as amended): after a keep-alive pass at time `now` made with a transmitter
installed, or in which no tracked shocker is due, the wake deadline `timeToKeepAlive`
is the minimum of `now + 60000` and `lastActivityTimestamp + 60000` over all tracked
shockers, with their values after the pass: it is at most each of these and equal to
one of them. The sleep time that `calculateEepyTime` derives from it at the time
`current` is the deadline minus `current` clamped into [0, 60000]: 0 when the deadline
has passed and never more than 60000. -/
theorem keepAlivePass_wake_deadline (s : CommandHandlerState) (task : KeepAliveTask) (now : Int)
    (h : s.rfTransmitter ≠ none ∨
      ∀ k ∈ task.activityMap, ¬ (k.lastActivityTimestamp + 60000 < now)) :
    (keepAlivePass s task now).2.timeToKeepAlive
      = earliestDeadline (now + 60000) (keepAlivePass s task now).2.activityMap ∧
    (keepAlivePass s task now).2.timeToKeepAlive ≤ now + 60000 ∧
    (∀ k ∈ (keepAlivePass s task now).2.activityMap,
      (keepAlivePass s task now).2.timeToKeepAlive ≤ k.lastActivityTimestamp + 60000) ∧
    ((keepAlivePass s task now).2.timeToKeepAlive = now + 60000 ∨
      ∃ k ∈ (keepAlivePass s task now).2.activityMap,
        (keepAlivePass s task now).2.timeToKeepAlive = k.lastActivityTimestamp + 60000) ∧
    ∀ current : Int,
      (calculateEepyTime (keepAlivePass s task now).2.timeToKeepAlive current : Int)
        = max 0 (min ((keepAlivePass s task now).2.timeToKeepAlive - current) 60000) ∧
      ((keepAlivePass s task now).2.timeToKeepAlive ≤ current →
        calculateEepyTime (keepAlivePass s task now).2.timeToKeepAlive current = 0) ∧
      calculateEepyTime (keepAlivePass s task now).2.timeToKeepAlive current ≤ 60000 := by
  have hdl : (keepAlivePass s task now).2.timeToKeepAlive
      = earliestDeadline (now + 60000) (keepAlivePass s task now).2.activityMap := by
    cases htx : s.rfTransmitter with
    | some tx =>
      obtain ⟨h1, -, h3, -⟩ :=
        keepAliveEntries_installed now task.activityMap s (now + KEEP_ALIVE_INTERVAL) tx htx
      simp only [keepAlivePass]
      rw [h3, h1]
      rfl
    | none =>
      rcases h with h | h
      · exact absurd htx h
      · obtain ⟨h1, -, h3⟩ :=
          keepAliveEntries_not_installed now task.activityMap s (now + KEEP_ALIVE_INTERVAL) htx
        simp only [keepAlivePass]
        rw [h3, h1, takeWhile_not_due_of_none_due now task.activityMap h]
        rfl
  obtain ⟨m1, m2, m3⟩ :=
    earliestDeadline_is_min (now + 60000) (keepAlivePass s task now).2.activityMap
  refine ⟨hdl, by rw [hdl]; exact m1, ?_, ?_, ?_⟩
  · intro k hk
    rw [hdl]
    exact m2 k hk
  · rw [hdl]
    exact m3
  · intro current
    have hc := calculateEepyTime_eq (keepAlivePass s task now).2.timeToKeepAlive current
    refine ⟨hc, ?_, ?_⟩
    · intro hle
      omega
    · omega

theorem keepAlivePass_wake_deadline_witness :
    (keepAlivePass
        { rfTransmitter := some { capacity := 8, pending := [] }, keepAliveQueue := none,
          txCalls := [] }
        ⟨60000, [⟨false, 1, 10, 0⟩, ⟨false, 2, 20, 30000⟩]⟩ 60001).2.timeToKeepAlive
      = earliestDeadline (60001 + 60000)
          (keepAlivePass
            { rfTransmitter := some { capacity := 8, pending := [] }, keepAliveQueue := none,
              txCalls := [] }
            ⟨60000, [⟨false, 1, 10, 0⟩, ⟨false, 2, 20, 30000⟩]⟩ 60001).2.activityMap :=
  (keepAlivePass_wake_deadline
    { rfTransmitter := some { capacity := 8, pending := [] }, keepAliveQueue := none,
      txCalls := [] }
    ⟨60000, [⟨false, 1, 10, 0⟩, ⟨false, 2, 20, 30000⟩]⟩ 60001 (Or.inl (by decide))).1

/-- C17 (the claim as stated fails): in a pass at 60001 made while no transmitter is
installed, with one tracked shocker last active at 0, the loop stops at that shocker:
`timeToKeepAlive` is left at 60001 + 60000 = 120001, while the minimum over the
tracked shockers is 0 + 60000 = 60000. -/
theorem keepAlivePass_deadline_without_transmitter :
    (keepAlivePass { rfTransmitter := none, keepAliveQueue := none, txCalls := [] }
        ⟨60000, [⟨false, 1, 10, 0⟩]⟩ 60001).2.timeToKeepAlive = 120001 ∧
    earliestDeadline (60001 + 60000)
        (keepAlivePass { rfTransmitter := none, keepAliveQueue := none, txCalls := [] }
          ⟨60000, [⟨false, 1, 10, 0⟩]⟩ 60001).2.activityMap = 60000 := by
  decide

/-- C18 (as amended): in a pass at time `now` made with a transmitter installed, the
`lastActivityTimestamp` of every tracked shocker that is due is set to `now` even
when the transmit attempt fails: with a transmitter whose queue is full every
`SendCommand` of the pass returns false and the transmitter is left as it was, and
the timestamps of the due shockers are `now` all the same. In a pass made while no
transmitter is installed the loop stops at the first due shocker, and no
timestamp and nothing else changes. -/
theorem keepAlivePass_advances_when_send_fails (s : CommandHandlerState)
    (task : KeepAliveTask) (now : Int) :
    (∀ tx, s.rfTransmitter = some tx →
      (keepAlivePass s task now).2.activityMap
        = task.activityMap.map (fun k =>
            if k.lastActivityTimestamp + 60000 < now then { k with lastActivityTimestamp := now }
            else k) ∧
      (tx.capacity ≤ tx.pending.length →
        (∀ k, (tx.SendCommand (keepAliveCommand k)).1 = false) ∧
        (keepAlivePass s task now).1.rfTransmitter = some tx)) ∧
    (s.rfTransmitter = none →
      (keepAlivePass s task now).2.activityMap = task.activityMap ∧
      (keepAlivePass s task now).1 = s) := by
  refine ⟨?_, ?_⟩
  · intro tx htx
    obtain ⟨h1, -, -, -, tx1, h5, -, h7⟩ :=
      keepAliveEntries_installed now task.activityMap s (now + KEEP_ALIVE_INTERVAL) tx htx
    have hafter : afterKeepAlive now = fun k =>
        if k.lastActivityTimestamp + 60000 < now then { k with lastActivityTimestamp := now }
        else k := by
      funext k
      simp [afterKeepAlive, keepAliveDue, KEEP_ALIVE_INTERVAL]
    refine ⟨?_, ?_⟩
    · simp only [keepAlivePass]
      rw [h1, hafter]
    · intro hfull
      refine ⟨?_, ?_⟩
      · intro k
        unfold RFTransmitter.SendCommand
        rw [if_neg (by omega)]
      · simp only [keepAlivePass]
        rw [h5, h7 hfull]
  · intro hnone
    obtain ⟨h1, h2, -⟩ :=
      keepAliveEntries_not_installed now task.activityMap s (now + KEEP_ALIVE_INTERVAL) hnone
    exact ⟨h1, h2⟩

theorem keepAlivePass_advances_when_send_fails_witness :
    (keepAlivePass
        { rfTransmitter := some { capacity := 0, pending := [] }, keepAliveQueue := none,
          txCalls := [] }
        ⟨60000, [⟨false, 1, 10, 0⟩]⟩ 60001).2.activityMap
      = [⟨false, 1, 10, 0⟩].map (fun k =>
          if k.lastActivityTimestamp + 60000 < 60001 then { k with lastActivityTimestamp := 60001 }
          else k) ∧
    (keepAlivePass { rfTransmitter := none, keepAliveQueue := none, txCalls := [] }
        ⟨60000, [⟨false, 1, 10, 0⟩]⟩ 60001).2.activityMap = [⟨false, 1, 10, 0⟩] :=
  ⟨((keepAlivePass_advances_when_send_fails
      { rfTransmitter := some { capacity := 0, pending := [] }, keepAliveQueue := none,
        txCalls := [] }
      ⟨60000, [⟨false, 1, 10, 0⟩]⟩ 60001).1 { capacity := 0, pending := [] } rfl).1,
   ((keepAlivePass_advances_when_send_fails
      { rfTransmitter := none, keepAliveQueue := none, txCalls := [] }
      ⟨60000, [⟨false, 1, 10, 0⟩]⟩ 60001).2 rfl).1⟩

/-- C18 (the claim as stated fails): in a pass at 60001 made while no transmitter is
installed, a keep-alive is due for the tracked shocker last active at 0, and its
`lastActivityTimestamp` is still 0 after the pass, not 60001. -/
theorem keepAlivePass_keeps_timestamp_without_transmitter :
    keepAliveDue 60001 ⟨false, 1, 10, 0⟩ = true ∧
    (keepAlivePass { rfTransmitter := none, keepAliveQueue := none, txCalls := [] }
        ⟨60000, [⟨false, 1, 10, 0⟩]⟩ 60001).2.activityMap = [⟨false, 1, 10, 0⟩] := by
  decide

/-! ### Switching the keep-alive task on and off -/

theorem waitForKeepAliveTask_returns (answers : List Bool) (queue : List KnownShocker)
    (h : true ∈ answers) : ∃ q, waitForKeepAliveTask answers queue = some q := by
  induction answers generalizing queue with
  | nil => simp at h
  | cons a rest ih =>
    cases a with
    | true => exact ⟨queue, rfl⟩
    | false =>
      have hrest : true ∈ rest := by simpa using h
      exact ih _ hrest

/-- C19: `_internalSetKeepAliveEnabled` called with `enabled = true` while the queue
and the task handle both exist, or with `enabled = false` while the queue does not
exist, returns true and leaves everything as it was: no queue and no task is created
or deleted. A disable of an enabled keep-alive returns, and returns true, as soon as
the task is reported deleted; whenever it has returned true the queue handle is null,
the one queue has been deleted, and a following enable (the queue and the task being
created successfully) returns true with a fresh, empty queue and the new task. -/
theorem internalSetKeepAliveEnabled_idempotent (env : KeepAliveEnv) (s : KeepAliveState) :
    (s.keepAliveQueue ≠ none → s.keepAliveTaskHandle ≠ none →
      _internalSetKeepAliveEnabled env s true = some (true, s)) ∧
    (s.keepAliveQueue = none →
      _internalSetKeepAliveEnabled env s false = some (true, s)) ∧
    (s.keepAliveQueue ≠ none → s.keepAliveTaskHandle ≠ none →
      (true ∈ env.taskDeleted →
        ∃ s1, _internalSetKeepAliveEnabled env s false = some (true, s1)) ∧
      ∀ s1, _internalSetKeepAliveEnabled env s false = some (true, s1) →
        s1.keepAliveQueue = none ∧
        s1.rtosCalls = s.rtosCalls ++ [RtosCall.vQueueDelete] ∧
        ∀ (env2 : KeepAliveEnv) (handle : Nat),
          env2.queueCreated = true → env2.taskCreated = some handle →
          _internalSetKeepAliveEnabled env2 s1 true
            = some (true,
                { keepAliveQueue := some [], keepAliveTaskHandle := some handle,
                  rtosCalls := s1.rtosCalls
                    ++ [RtosCall.xQueueCreate, RtosCall.TaskCreateExpensive handle] })) := by
  refine ⟨?_, ?_, ?_⟩
  · intro hq hh
    obtain ⟨q, hq⟩ := Option.ne_none_iff_exists'.mp hq
    obtain ⟨t, hh⟩ := Option.ne_none_iff_exists'.mp hh
    simp [_internalSetKeepAliveEnabled, hq, hh]
  · intro hq
    simp [_internalSetKeepAliveEnabled, hq]
  · intro hq hh
    obtain ⟨q, hq⟩ := Option.ne_none_iff_exists'.mp hq
    obtain ⟨t, hh⟩ := Option.ne_none_iff_exists'.mp hh
    have hdis : _internalSetKeepAliveEnabled env s false
        = match waitForKeepAliveTask env.taskDeleted q with
          | none => none
          | some _ =>
            some (true,
              { s with keepAliveQueue := none,
                       rtosCalls := s.rtosCalls ++ [RtosCall.vQueueDelete] }) := by
      simp [_internalSetKeepAliveEnabled, hq, hh]
    refine ⟨?_, ?_⟩
    · intro hdel
      obtain ⟨q1, hq1⟩ := waitForKeepAliveTask_returns env.taskDeleted q hdel
      rw [hdis, hq1]
      exact ⟨_, rfl⟩
    · intro s1 hs1
      rw [hdis] at hs1
      cases hw : waitForKeepAliveTask env.taskDeleted q with
      | none => rw [hw] at hs1; simp at hs1
      | some q1 =>
        rw [hw] at hs1
        simp only [Option.some.injEq, Prod.mk.injEq, true_and] at hs1
        subst hs1
        refine ⟨rfl, rfl, ?_⟩
        intro env2 handle hqc htc
        simp [_internalSetKeepAliveEnabled, hqc, htc, hh]

theorem internalSetKeepAliveEnabled_idempotent_witness :
    _internalSetKeepAliveEnabled ⟨true, some 7, [false, true]⟩
        { keepAliveQueue := some [], keepAliveTaskHandle := some 3, rtosCalls := [] } true
      = some (true, { keepAliveQueue := some [], keepAliveTaskHandle := some 3, rtosCalls := [] }) ∧
    _internalSetKeepAliveEnabled ⟨true, some 7, [false, true]⟩
        { keepAliveQueue := none, keepAliveTaskHandle := some 3, rtosCalls := [] } false
      = some (true, { keepAliveQueue := none, keepAliveTaskHandle := some 3, rtosCalls := [] }) ∧
    ∃ s1, _internalSetKeepAliveEnabled ⟨true, some 7, [false, true]⟩
        { keepAliveQueue := some [], keepAliveTaskHandle := some 3, rtosCalls := [] } false
      = some (true, s1) :=
  ⟨(internalSetKeepAliveEnabled_idempotent ⟨true, some 7, [false, true]⟩
      { keepAliveQueue := some [], keepAliveTaskHandle := some 3, rtosCalls := [] }).1
      (by decide) (by decide),
   (internalSetKeepAliveEnabled_idempotent ⟨true, some 7, [false, true]⟩
      { keepAliveQueue := none, keepAliveTaskHandle := some 3, rtosCalls := [] }).2.1 rfl,
   ((internalSetKeepAliveEnabled_idempotent ⟨true, some 7, [false, true]⟩
      { keepAliveQueue := some [], keepAliveTaskHandle := some 3, rtosCalls := [] }).2.2
      (by decide) (by decide)).1 (by decide)⟩

/-! ### The activity message of `HandleCommand` -/

/-- C20: with a transmitter installed, `HandleCommand` returns the result of the
`SendCommand` call it makes. When that result is true and the keep-alive queue
exists, the queue afterwards is the queue after one `xQueueSend` of the message with
`killTask = false`, the command's shocker id and model and `lastActivityTimestamp =
now + d`, where d is the duration handed to the transmitter (the caller's `durationMs`,
or 300 for a Stop): that message is appended when the queue has a free slot. When
the result is false the queue is as it was, and a queue that does not exist still
does not exist afterwards. -/
theorem HandleCommand_activity_message (s : CommandHandlerState) (tx : RFTransmitter) (now : Int)
    (model : ShockerModelType) (shockerId : Nat) (type : ShockerCommandType)
    (intensity durationMs : Nat) (h : s.rfTransmitter = some tx) :
    (HandleCommand s now model shockerId type intensity durationMs).1
      = ((if type = ShockerCommandType.Stop then tx.ClearPendingCommands else tx).SendCommand
          ⟨model, shockerId,
            if type = ShockerCommandType.Stop then ShockerCommandType.Vibrate else type,
            if type = ShockerCommandType.Stop then 0 else intensity,
            if type = ShockerCommandType.Stop then 300 else durationMs⟩).1 ∧
    (∀ q, s.keepAliveQueue = some q →
      (HandleCommand s now model shockerId type intensity durationMs).1 = true →
      (HandleCommand s now model shockerId type intensity durationMs).2.keepAliveQueue
        = some (xQueueSendKeepAlive q
            ⟨false, model, shockerId,
              now + ((if type = ShockerCommandType.Stop then 300 else durationMs : Nat) : Int)⟩).2 ∧
      (q.length < 32 →
        (HandleCommand s now model shockerId type intensity durationMs).2.keepAliveQueue
          = some (q ++ [⟨false, model, shockerId,
              now + ((if type = ShockerCommandType.Stop then 300 else durationMs : Nat) : Int)⟩]))) ∧
    ((HandleCommand s now model shockerId type intensity durationMs).1 = false →
      (HandleCommand s now model shockerId type intensity durationMs).2.keepAliveQueue
        = s.keepAliveQueue) ∧
    (s.keepAliveQueue = none →
      (HandleCommand s now model shockerId type intensity durationMs).2.keepAliveQueue = none) := by
  by_cases hstop : type = ShockerCommandType.Stop
  · subst hstop
    refine ⟨by simp [HandleCommand, h], ?_, ?_, ?_⟩
    · intro q hq hok
      have hok1 : (tx.ClearPendingCommands.SendCommand
          ⟨model, shockerId, ShockerCommandType.Vibrate, 0, 300⟩).1 = true := by
        simpa [HandleCommand, h] using hok
      refine ⟨by simp [HandleCommand, h, hq, hok1], ?_⟩
      intro hlen
      simp [HandleCommand, h, hq, hok1, xQueueSendKeepAlive, KEEP_ALIVE_QUEUE_LENGTH, hlen]
    · intro hok
      have hok1 : (tx.ClearPendingCommands.SendCommand
          ⟨model, shockerId, ShockerCommandType.Vibrate, 0, 300⟩).1 = false := by
        simpa [HandleCommand, h] using hok
      cases hq : s.keepAliveQueue <;> simp [HandleCommand, h, hq, hok1]
    · intro hq
      simp [HandleCommand, h, hq]
  · refine ⟨by simp [HandleCommand, h, hstop], ?_, ?_, ?_⟩
    · intro q hq hok
      have hok1 : (tx.SendCommand ⟨model, shockerId, type, intensity, durationMs⟩).1 = true := by
        simpa [HandleCommand, h, hstop] using hok
      refine ⟨by simp [HandleCommand, h, hq, hok1, hstop], ?_⟩
      intro hlen
      simp [HandleCommand, h, hq, hok1, hstop, xQueueSendKeepAlive, KEEP_ALIVE_QUEUE_LENGTH, hlen]
    · intro hok
      have hok1 : (tx.SendCommand ⟨model, shockerId, type, intensity, durationMs⟩).1 = false := by
        simpa [HandleCommand, h, hstop] using hok
      cases hq : s.keepAliveQueue <;> simp [HandleCommand, h, hq, hok1, hstop]
    · intro hq
      simp [HandleCommand, h, hq, hstop]

theorem HandleCommand_activity_message_witness :
    (HandleCommand
        { rfTransmitter := some { capacity := 4, pending := [] }, keepAliveQueue := some [],
          txCalls := [] }
        1000 2 7 ShockerCommandType.Stop 80 2000).2.keepAliveQueue
      = some ([] ++ [⟨false, 2, 7,
          1000 + ((if ShockerCommandType.Stop = ShockerCommandType.Stop then 300 else 2000 : Nat) : Int)⟩]) :=
  (((HandleCommand_activity_message
      { rfTransmitter := some { capacity := 4, pending := [] }, keepAliveQueue := some [],
        txCalls := [] }
      { capacity := 4, pending := [] } 1000 2 7 ShockerCommandType.Stop 80 2000 rfl).2.1
      [] rfl (by decide)).2 (by decide))

/-! ### The readers and the download callback -/

/-- When the chunk parser answers Ok, the buffer holds the whole chunk. -/
theorem parseChunk_ok_length (P : Platform) (b : List Nat) (pos size : Nat)
    (h : (_parseChunk P b pos size).1 = ParserState.Ok) :
    (_parseChunk P b pos size).2.1 + (_parseChunk P b pos size).2.2 + 2 ≤ b.length := by
  unfold _parseChunk at h ⊢
  generalize (if pos = 0 then _parseChunkHeader P b pos size
    else (ParserState.Ok, pos, size)) = header at h ⊢
  rcases header with ⟨st, pp, pl⟩
  cases st
  · simp only at h ⊢
    split_ifs at h ⊢ with h1 h2
    show pp + pl + 2 ≤ b.length
    omega
  · simp at h
  · simp at h

/-- C15 (the code at a failing input): in fixed-length mode with content length 10,
on a stream of 20 bytes of which `available()` reports 20, the one read of
`_readStreamData` takes `min(bytesAvailable, HTTP_BUFFER_SIZE)` = 20 bytes, all 20 are
passed to the callback and `nWritten` is 20: the read is not limited to the bytes
that are left of the content length. -/
theorem readStreamData_exceeds_content_length :
    _readStreamData [⟨true, 100, 20, 20⟩, ⟨true, 200, 0, 0⟩] (List.replicate 20 65) 10
        (fun _ _ => true) 0 1000
      = some ({ result := RequestResult.Success, nWritten := 20 },
          [(0, List.replicate 20 65)]) := by
  decide

/-! ### The end of a chunked read -/

theorem isCRLF_lt_length (b : List Nat) (p : Nat) (h : _isCRLF b p = true) :
    p + 1 < b.length := by
  unfold _isCRLF at h
  simp only [Bool.and_eq_true, beq_iff_eq] at h
  have := h.2
  by_contra hge
  rw [List.getElem?_eq_none (by omega)] at this
  simp at this

theorem tryFindCRLF_first (b : List Nat) (p : Nat) (hp : _isCRLF b p = true)
    (hfirst : ∀ i, i < p → _isCRLF b i = false) : _tryFindCRLF b b.length = some p := by
  unfold _tryFindCRLF
  have := isCRLF_lt_length b p hp
  exact find_range_first _ _ p (by omega) hp hfirst

theorem takeWhile_spec (q : Nat → Bool) (l : List Nat) :
    (∀ i, i < (l.takeWhile q).length → ∃ c, l[i]? = some c ∧ q c = true) ∧
    ((l.takeWhile q).length < l.length → ∃ c, l[(l.takeWhile q).length]? = some c ∧ q c = false) ∧
    l.take (l.takeWhile q).length = l.takeWhile q := by
  induction l with
  | nil => simp
  | cons x xs ih =>
    by_cases hx : q x = true
    · obtain ⟨h1, h2, h3⟩ := ih
      simp only [List.takeWhile_cons, hx, if_true, List.length_cons]
      refine ⟨?_, ?_, ?_⟩
      · intro i hi
        cases i with
        | zero => exact ⟨x, by simp, hx⟩
        | succ i =>
          simp only [List.getElem?_cons_succ]
          exact h1 i (by omega)
      · intro hlt
        simp only [List.getElem?_cons_succ]
        exact h2 (by omega)
      · simp only [List.take_succ_cons, h3]
    · have hx2 : q x = false := by simpa using hx
      have hnil : (x :: xs).takeWhile q = [] := by simp [List.takeWhile_cons, hx2]
      rw [hnil]
      simp only [List.length_nil]
      refine ⟨by intro i hi; omega, ?_, by simp⟩
      intro _
      exact ⟨x, by simp, hx2⟩

/-- The search for ';' in `_parseChunkHeader` ends at the end of the size field. -/
theorem sizeFieldEnd_eq (b : List Nat) (p : Nat) (hp : p ≤ b.length) :
    (match (List.range p).find? (fun i => b[i]? == some 59) with
      | some i => i
      | none => p) = (sizeFieldOf (b.take p)).length ∧
    b.take (sizeFieldOf (b.take p)).length = sizeFieldOf (b.take p) := by
  unfold sizeFieldOf
  obtain ⟨h1, h2, h3⟩ := takeWhile_spec (fun c => c != 59) (b.take p)
  have hlen : (b.take p).length = p := by simp [hp]
  have hk : ((b.take p).takeWhile (fun c => c != 59)).length ≤ p := by
    have := congrArg List.length h3
    rw [List.length_take, hlen] at this
    omega
  have hget : ∀ i, i < p → (b.take p)[i]? = b[i]? := by
    intro i hi
    rw [List.getElem?_take]
    simp [hi]
  refine ⟨?_, ?_⟩
  · have hbefore : ∀ i, i < ((b.take p).takeWhile (fun c => c != 59)).length →
        (fun i => b[i]? == some 59) i = false := by
      intro i hi
      obtain ⟨c, hc, hq⟩ := h1 i hi
      rw [hget i (by omega)] at hc
      simp only [hc]
      simpa using hq
    by_cases hlt : ((b.take p).takeWhile (fun c => c != 59)).length < p
    · obtain ⟨c, hc, hq⟩ := h2 (by omega)
      rw [hget _ hlt] at hc
      have hat : (fun i => b[i]? == some 59)
          ((b.take p).takeWhile (fun c => c != 59)).length = true := by
        have hc59 : c = 59 := by simpa using hq
        simp only [hc, hc59]
        rfl
      rw [find_range_first _ p _ hlt hat hbefore]
    · have : ((b.take p).takeWhile (fun c => c != 59)).length = p := by omega
      rw [find_range_none _ p (fun i hi => hbefore i (by omega))]
      exact this.symm
  · have : b.take ((b.take p).takeWhile (fun c => c != 59)).length
        = (b.take p).take ((b.take p).takeWhile (fun c => c != 59)).length := by
      rw [List.take_take, min_eq_left hk]
    rw [this]
    exact h3

theorem hexDigitValue_lt (c d : Nat) (h : hexDigitValue c = some d) : d < 16 := by
  unfold hexDigitValue at h
  split_ifs at h <;> simp only [Option.some.injEq] at h <;> omega

/-- When the digit loop of `_tryParseHexSizeT` succeeds, every character is a
hexadecimal digit and the result is the value of the digits. -/
theorem parseHexDigits_some (acc : Nat) (field : List Nat) (v : Nat)
    (h : parseHexDigits acc field = some v) :
    (∀ c ∈ field, hexDigitValue c ≠ none) ∧
    v = field.foldl (fun acc c => 16 * acc + (hexDigitValue c).getD 0) acc := by
  induction field generalizing acc with
  | nil =>
    simp only [parseHexDigits, Option.some.injEq] at h
    simp [h]
  | cons c rest ih =>
    simp only [parseHexDigits] at h
    cases hd : hexDigitValue c with
    | none => rw [hd] at h; simp at h
    | some d =>
      rw [hd] at h
      simp only at h
      obtain ⟨h1, h2⟩ := ih _ h
      refine ⟨?_, ?_⟩
      · intro x hx
        rcases List.mem_cons.mp hx with rfl | hx
        · rw [hd]; simp
        · exact h1 x hx
      · rw [h2, List.foldl_cons, hd, shift_or_digit _ _ (hexDigitValue_lt c d hd)]
        simp only [Option.getD_some]
        congr 1
        omega

theorem tryParseHexSizeT_some (P : Platform) (field : List Nat) (v : Nat)
    (h : _tryParseHexSizeT P field = some v) :
    (∀ c ∈ field, hexDigitValue c ≠ none) ∧ v = hexValue field := by
  unfold _tryParseHexSizeT at h
  split at h
  · simp at h
  · exact parseHexDigits_some 0 field v h

/-- The header parser on a buffer whose first CRLF is at `p` and whose size field is
malformed. -/
theorem parseChunkHeader_invalid (P : Platform) (buffer : List Nat) (p headerLen payloadLen : Nat)
    (hlen : 5 ≤ buffer.length) (hp : _isCRLF buffer p = true)
    (hfirst : ∀ i, i < p → _isCRLF buffer i = false)
    (hbad : sizeFieldOf (buffer.take p) = [] ∨ 16 < (sizeFieldOf (buffer.take p)).length ∨
      (∃ c ∈ sizeFieldOf (buffer.take p), hexDigitValue c = none) ∨
      HTTP_DOWNLOAD_SIZE_LIMIT < hexValue (sizeFieldOf (buffer.take p))) :
    (_parseChunkHeader P buffer headerLen payloadLen).1 = ParserState.Invalid := by
  have hpl := isCRLF_lt_length buffer p hp
  obtain ⟨hend, htake⟩ := sizeFieldEnd_eq buffer p (by omega)
  unfold _parseChunkHeader
  rw [if_neg (by omega), tryFindCRLF_first buffer p hp hfirst]
  simp only [hend, htake]
  split
  · rfl
  · split
    · rfl
    · rename_i hbounds
      cases hparse : _tryParseHexSizeT P (sizeFieldOf (buffer.take p)) with
      | none => rfl
      | some v =>
        obtain ⟨hhex, hv⟩ := tryParseHexSizeT_some P _ v hparse
        simp only
        rcases hbad with hb | hb | ⟨c, hc, hnone⟩ | hb
        · rw [hb] at hbounds; simp at hbounds
        · omega
        · exact absurd hnone (hhex c hc)
        · rw [if_pos (by omega)]

theorem isCRLF_prefix_eq (b s : List Nat) (i : Nat) (hpre : b <+: s) (hi : i + 1 < b.length) :
    _isCRLF b i = _isCRLF s i := by
  unfold _isCRLF
  rw [ getElem?_of_prefix b s i hpre (by omega), getElem?_of_prefix b s (i + 1) hpre hi]

theorem parseChunkHeader_no_crlf (P : Platform) (b : List Nat) (x y : Nat)
    (h : ∀ i, _isCRLF b i = false) :
    _parseChunkHeader P b x y = (ParserState.NeedMoreData, x, y) := by
  unfold _parseChunkHeader
  split
  · rfl
  · have : _tryFindCRLF b b.length = none := by
      unfold _tryFindCRLF
      exact find_range_none _ _ (fun i _ => h i)
    rw [this]

/-- The header parser on the first bytes of a stream whose first CRLF is at `p`:
it asks for more data until it has five bytes and the CRLF. -/
theorem parseChunkHeader_before_crlf (P : Platform) (b s : List Nat) (p x y : Nat)
    (hpre : b <+: s) (hfirst : ∀ i, i < p → _isCRLF s i = false)
    (hshort : b.length < 5 ∨ b.length < p + 2) :
    _parseChunkHeader P b x y = (ParserState.NeedMoreData, x, y) := by
  by_cases h5 : b.length < 5
  · unfold _parseChunkHeader
    rw [if_pos h5]
  · have hlt : b.length < p + 2 := by omega
    apply parseChunkHeader_no_crlf
    intro i
    by_contra hne
    have htrue : _isCRLF b i = true := by simpa using hne
    have hi := isCRLF_lt_length b i htrue
    rw [isCRLF_prefix_eq b s i hpre hi, hfirst i (by omega)] at htrue
    simp at htrue

/-- The header parser on the first bytes of a stream with a malformed size field,
once it has five bytes and the first CRLF. -/
theorem parseChunkHeader_prefix_invalid (P : Platform) (b s : List Nat) (p x y : Nat)
    (hpre : b <+: s) (hp : _isCRLF s p = true)
    (hfirst : ∀ i, i < p → _isCRLF s i = false)
    (hbad : sizeFieldOf (s.take p) = [] ∨ 16 < (sizeFieldOf (s.take p)).length ∨
      (∃ c ∈ sizeFieldOf (s.take p), hexDigitValue c = none) ∨
      HTTP_DOWNLOAD_SIZE_LIMIT < hexValue (sizeFieldOf (s.take p)))
    (h5 : 5 ≤ b.length) (hlong : p + 2 ≤ b.length) :
    (_parseChunkHeader P b x y).1 = ParserState.Invalid := by
  have htake : b.take p = s.take p := by
    obtain ⟨t, rfl⟩ := hpre
    rw [List.take_append_of_le_length (by omega)]
  apply parseChunkHeader_invalid P b p x y h5
  · rw [isCRLF_prefix_eq b s p hpre (by omega)]; exact hp
  · intro i hi
    rw [isCRLF_prefix_eq b s i hpre (by omega)]
    exact hfirst i hi
  · rw [htake]; exact hbad

theorem parseChunk_of_header_invalid (P : Platform) (b : List Nat) (size : Nat)
    (h : (_parseChunkHeader P b 0 size).1 = ParserState.Invalid) :
    (_parseChunk P b 0 size).1 = ParserState.Invalid := by
  unfold _parseChunk
  simp only [if_true]
  generalize _parseChunkHeader P b 0 size = header at h ⊢
  rcases header with ⟨st, pp, pl⟩
  simp only at h
  subst h
  rfl

theorem parseChunk_of_header_needMore (P : Platform) (b : List Nat) (size : Nat)
    (h : _parseChunkHeader P b 0 size = (ParserState.NeedMoreData, 0, size)) :
    _parseChunk P b 0 size = (ParserState.NeedMoreData, 0, size) := by
  unfold _parseChunk
  simp only [if_true, h]

/-- A pass from `parseMore` in which the parser answers Invalid. -/
theorem parseMore_of_invalid (P : Platform) (cb : Nat → List Nat → Bool) (f : Nat)
    (r : ChunkedReader)
    (h : (_parseChunk P r.buffer r.payloadPos r.payloadSize).1 = ParserState.Invalid) :
    ∃ r1, parseMore P cb (f + 1) r = some (LoopStep.exit RequestResult.RequestFailed r1) ∧
      r1.calls = r.calls ∧ r1.totalWritten = r.totalWritten ∧ r1.buffer = r.buffer := by
  refine ⟨{ r with
      state := ParserState.Invalid
      payloadPos := (_parseChunk P r.buffer r.payloadPos r.payloadSize).2.1
      payloadSize := (_parseChunk P r.buffer r.payloadPos r.payloadSize).2.2 }, ?_, rfl, rfl, rfl⟩
  simp only [parseMore, h]

/-- A pass from `parseMore` in which the parser asks for more data. -/
theorem parseMore_of_needMore (P : Platform) (cb : Nat → List Nat → Bool) (f : Nat)
    (r : ChunkedReader) (pos size : Nat)
    (h : _parseChunk P r.buffer r.payloadPos r.payloadSize = (ParserState.NeedMoreData, pos, size)) :
    parseMore P cb (f + 1) r
      = if r.buffer.length = HTTP_BUFFER_SIZE then
          some (LoopStep.exit RequestResult.RequestFailed
            { r with state := ParserState.NeedMoreData, payloadPos := pos, payloadSize := size })
        else
          some (LoopStep.next
            { r with state := ParserState.NeedMoreData, payloadPos := pos, payloadSize := size }) := by
  simp only [parseMore, h]

/-- The loop of the chunked reader on a stream whose first header line has a
malformed size field, entered before the parser has seen that line. -/
theorem readLoopChunked_malformed (P : Platform) (cb : Nat → List Nat → Bool) (begin : Int)
    (timeoutMs : Nat) (s : List Nat) (p : Nat)
    (h5 : 5 ≤ s.length) (hp : _isCRLF s p = true)
    (hfirst : ∀ i, i < p → _isCRLF s i = false)
    (hbad : sizeFieldOf (s.take p) = [] ∨ 16 < (sizeFieldOf (s.take p)).length ∨
      (∃ c ∈ sizeFieldOf (s.take p), hexDigitValue c = none) ∨
      HTTP_DOWNLOAD_SIZE_LIMIT < hexValue (sizeFieldOf (s.take p)))
    (events : List StreamEvent)
    (hev : ∀ e ∈ events, e.connected = true ∧ e.now ≤ begin + timeoutMs ∧
      0 < e.available ∧ 0 < e.readLen)
    (stream : List Nat) (r : ChunkedReader)
    (hbody : r.buffer ++ stream = s) (hpos : r.payloadPos = 0)
    (hstate : r.state ≠ ParserState.Invalid)
    (hshort : r.buffer.length < 5 ∨ r.buffer.length < p + 2)
    (hcap : r.buffer.length < HTTP_BUFFER_SIZE)
    (hlen : stream.length ≤ events.length) :
    ∃ r1, readLoopChunked P cb begin timeoutMs events stream r
        = some (RequestResult.RequestFailed, r1) ∧
      r1.calls = r.calls ∧ r1.totalWritten = r.totalWritten := by
  have hpl := isCRLF_lt_length s p hp
  induction events generalizing stream r with
  | nil =>
    have hs : stream.length = 0 := by simpa using hlen
    have := congrArg List.length hbody
    rw [List.length_append] at this
    omega
  | cons e events ih =>
    obtain ⟨hconn, hnow, havail, hread⟩ := hev e (List.mem_cons_self e events)
    have hslen : r.buffer.length + stream.length = s.length := by
      have := congrArg List.length hbody
      rw [List.length_append] at this
      exact this
    have hn : min e.readLen (min (HTTP_BUFFER_SIZE - r.buffer.length) stream.length) ≠ 0 := by
      omega
    have hcond : (!(e.connected && r.state != ParserState.Invalid)) = false := by
      simp [hconn, hstate]
    rw [readLoopChunked]
    simp only [hcond, Bool.false_eq_true, if_false]
    rw [if_neg (by omega), if_neg (by omega)]
    simp only [hn, if_false]
    generalize hnn : min e.readLen (min (HTTP_BUFFER_SIZE - r.buffer.length) stream.length) = n
      at hn ⊢
    have hnle : n ≤ stream.length := by omega
    have hncap : r.buffer.length + n ≤ HTTP_BUFFER_SIZE := by omega
    have hpre : r.buffer ++ stream.take n <+: s :=
      ⟨stream.drop n, by rw [List.append_assoc, List.take_append_drop]; exact hbody⟩
    have hblen : (r.buffer ++ stream.take n).length = r.buffer.length + n := by
      rw [List.length_append, List.length_take]; omega
    by_cases hnow2 : 5 ≤ (r.buffer ++ stream.take n).length ∧ p + 2 ≤ (r.buffer ++ stream.take n).length
    · -- the header line is in the buffer: Invalid
      have hinv := parseChunk_of_header_invalid P (r.buffer ++ stream.take n) r.payloadSize
        (parseChunkHeader_prefix_invalid P _ s p 0 r.payloadSize hpre hp hfirst hbad
          hnow2.1 hnow2.2)
      obtain ⟨r1, h1, h2, h3, -⟩ := parseMore_of_invalid P cb (r.buffer ++ stream.take n).length
        ⟨r.buffer ++ stream.take n, r.payloadPos, r.payloadSize, r.state, r.totalWritten, r.calls⟩
        (by simp only [hpos]; exact hinv)
      rw [h1]
      exact ⟨r1, rfl, h2, h3⟩
    · -- more data is needed
      have hshort2 : (r.buffer ++ stream.take n).length < 5 ∨
          (r.buffer ++ stream.take n).length < p + 2 := by omega
      have hnmd := parseChunk_of_header_needMore P (r.buffer ++ stream.take n) r.payloadSize
        (parseChunkHeader_before_crlf P _ s p 0 r.payloadSize hpre hfirst hshort2)
      have hstep := parseMore_of_needMore P cb (r.buffer ++ stream.take n).length
        ⟨r.buffer ++ stream.take n, r.payloadPos, r.payloadSize, r.state, r.totalWritten, r.calls⟩
        0 r.payloadSize (by simp only [hpos]; exact hnmd)
      rw [hstep]
      by_cases hfull : (r.buffer ++ stream.take n).length = HTTP_BUFFER_SIZE
      · simp only [hfull, if_true]
        exact ⟨_, rfl, rfl, rfl⟩
      · simp only [hfull, if_false]
        have hlen1 : (stream.drop n).length ≤ events.length := by
          rw [List.length_drop]
          simp only [List.length_cons] at hlen
          omega
        obtain ⟨r1, g1, g2, g3⟩ := ih (fun e he => hev e (List.mem_cons_of_mem _ he))
          (stream.drop n)
          ⟨r.buffer ++ stream.take n, 0, r.payloadSize, ParserState.NeedMoreData,
            r.totalWritten, r.calls⟩
          (by simp only [List.append_assoc, List.take_append_drop]; exact hbody) rfl (by simp)
          hshort2 (by simp only; omega) hlen1
        exact ⟨r1, g1, g2, g3⟩

/-- C11: for every buffer of at least 5 bytes whose first CRLF is at `p`, if the size
field of the header line (the bytes before the first ';' of the first `p` bytes, or all
of them when there is no ';') is empty, is longer than 16 characters, contains a
character that is not a hexadecimal digit, or has a value above 200*1024*1024, then
`_parseChunkHeader` returns Invalid; and the chunked reader run on a stream of these
bytes (connection up, no timeout, reads of at least one byte) stops with RequestFailed,
without having called the callback and with `nWritten` = 0. A buffer that starts with
"ZZZ\r\n" is such a buffer. -/
theorem parseChunkHeader_rejects_malformed_size (P : Platform) (buffer : List Nat) (p : Nat)
    (hlen : 5 ≤ buffer.length) (hp : _isCRLF buffer p = true)
    (hfirst : ∀ i, i < p → _isCRLF buffer i = false)
    (hbad : sizeFieldOf (buffer.take p) = [] ∨ 16 < (sizeFieldOf (buffer.take p)).length ∨
      (∃ c ∈ sizeFieldOf (buffer.take p), hexDigitValue c = none) ∨
      200 * 1024 * 1024 < hexValue (sizeFieldOf (buffer.take p))) :
    (∀ headerLen payloadLen,
      (_parseChunkHeader P buffer headerLen payloadLen).1 = ParserState.Invalid) ∧
    ∀ (events : List StreamEvent) (downloadCallback : Nat → List Nat → Bool) (begin : Int)
      (timeoutMs : Nat),
      (∀ e ∈ events, e.connected = true ∧ e.now ≤ begin + timeoutMs ∧
        0 < e.available ∧ 0 < e.readLen) →
      buffer.length ≤ events.length →
      _readStreamDataChunked P events buffer downloadCallback begin timeoutMs
        = some ({ result := RequestResult.RequestFailed, nWritten := 0 }, []) := by
  refine ⟨?_, ?_⟩
  · intro headerLen payloadLen
    exact parseChunkHeader_invalid P buffer p headerLen payloadLen hlen hp hfirst hbad
  · intro events cb begin timeoutMs hev hevlen
    obtain ⟨r1, h1, h2, h3⟩ := readLoopChunked_malformed P cb begin timeoutMs buffer p hlen hp
      hfirst hbad events hev buffer
      { buffer := [], payloadPos := 0, payloadSize := 0, state := ParserState.NeedMoreData,
        totalWritten := 0, calls := [] }
      rfl rfl (by simp) (Or.inl (by simp)) (by simp [HTTP_BUFFER_SIZE]) hevlen
    unfold _readStreamDataChunked
    simp only [h1]
    simp only at h2 h3
    rw [h2, h3]

theorem parseChunkHeader_rejects_malformed_size_witness :
    (_parseChunkHeader esp32 [90, 90, 90, 13, 10, 104, 105, 13, 10] 0 0).1 = ParserState.Invalid ∧
    _readStreamDataChunked esp32 (List.replicate 9 ⟨true, 500, 1, 1⟩)
        [90, 90, 90, 13, 10, 104, 105, 13, 10] (fun _ _ => true) 0 1000
      = some ({ result := RequestResult.RequestFailed, nWritten := 0 }, []) :=
  ⟨(parseChunkHeader_rejects_malformed_size esp32 [90, 90, 90, 13, 10, 104, 105, 13, 10] 3
      (by decide) (by decide) (by decide) (by decide)).1 0 0,
   (parseChunkHeader_rejects_malformed_size esp32 [90, 90, 90, 13, 10, 104, 105, 13, 10] 3
      (by decide) (by decide) (by decide) (by decide)).2
      (List.replicate 9 ⟨true, 500, 1, 1⟩) (fun _ _ => true) 0 1000 (by decide) (by decide)⟩


/-! ### Chunks that do not fit into the buffer -/

theorem chunksOf_append (xs ys : List (List Nat)) :
    chunksOf (xs ++ ys) = chunksOf xs ++ chunksOf ys := by
  induction xs with
  | nil => rfl
  | cons x xs ih =>
    show encodeChunk x ++ chunksOf (xs ++ ys) = (encodeChunk x ++ chunksOf xs) ++ chunksOf ys
    rw [ih, List.append_assoc]

/-- The header parser on a buffer that starts with a complete header line, with or
without a chunk extension. -/
theorem parseChunkHeader_ok_line (P : Platform) (line rest : List Nat) (n x y : Nat)
    (hcr : ∀ c ∈ line, c ≠ 13) (hv : ValidSizeField P (sizeFieldOf line) n)
    (hlen : 5 ≤ (line ++ 13 :: 10 :: rest).length) :
    _parseChunkHeader P (line ++ 13 :: 10 :: rest) x y = (ParserState.Ok, line.length + 2, n) := by
  have hne : line ≠ [] := by
    intro h0
    apply hv.ne_nil
    rw [h0]
    rfl
  have hpos : line.length ≠ 0 := by
    have := List.length_pos.mpr hne; omega
  have htake : (line ++ 13 :: 10 :: rest).take line.length = line := List.take_left' rfl
  obtain ⟨hend, hfield⟩ := sizeFieldEnd_eq (line ++ 13 :: 10 :: rest) line.length
    (by simp only [List.length_append]; omega)
  rw [htake] at hend hfield
  have hfpos : (sizeFieldOf line).length ≠ 0 := by
    have := List.length_pos.mpr hv.ne_nil; omega
  have hbound : ¬ (sizeFieldOf line).length > 16 := by have := hv.length_le; omega
  have hlimit : ¬ n > HTTP_DOWNLOAD_SIZE_LIMIT := by have := hv.small; omega
  unfold _parseChunkHeader
  rw [if_neg (by omega), tryFindCRLF_header line rest hcr]
  simp only [hpos, if_false, hend, hfield, hfpos, hbound, false_or,
    tryParseHexSizeT_valid P _ n hv, hlimit]

/-- The chunk parser on a buffer that holds the beginning of a chunk whose header
line may carry an extension, not all of the chunk. -/
theorem parseChunk_partial_line (P : Platform) (line q b : List Nat) (pos size : Nat)
    (hcr : ∀ c ∈ line, c ≠ 13) (hv : ValidSizeField P (sizeFieldOf line) q.length)
    (hpre : b <+: line ++ 13 :: 10 :: (q ++ [13, 10]))
    (hlt : b.length < line.length + 2 + q.length + 2)
    (hps : pos = 0 ∨ (pos = line.length + 2 ∧ size = q.length)) :
    ∃ pos1 size1, _parseChunk P b pos size = (ParserState.NeedMoreData, pos1, size1) ∧
      (pos1 = 0 ∨ (pos1 = line.length + 2 ∧ size1 = q.length)) := by
  unfold _parseChunk
  rcases hps with h0 | ⟨h1, h2⟩
  · rw [if_pos h0]
    by_cases hb : b.length ≤ line.length + 1
    · -- the header line is not complete
      have hpre2 : b <+: line ++ [13] := by
        have hfull : line ++ [13] <+: line ++ 13 :: 10 :: (q ++ [13, 10]) :=
          ⟨10 :: (q ++ [13, 10]), by simp⟩
        exact List.prefix_of_prefix_length_le hpre hfull (by simpa using hb)
      rw [parseChunkHeader_short P line b pos size hcr hpre2]
      exact ⟨pos, size, rfl, Or.inl h0⟩
    · by_cases h5 : b.length < 5
      · have : _parseChunkHeader P b pos size = (ParserState.NeedMoreData, pos, size) := by
          unfold _parseChunkHeader
          rw [if_pos h5]
        rw [this]
        exact ⟨pos, size, rfl, Or.inl h0⟩
      · -- the header line is complete, the chunk is not
        have hfull : line ++ [13, 10] <+: line ++ 13 :: 10 :: (q ++ [13, 10]) :=
          ⟨q ++ [13, 10], by simp⟩
        have hpre2 : line ++ [13, 10] <+: b :=
          List.prefix_of_prefix_length_le hfull hpre (by simp; omega)
        obtain ⟨rest, hrest⟩ := hpre2
        have hb2 : b = line ++ 13 :: 10 :: rest := by rw [← hrest]; simp
        rw [hb2, parseChunkHeader_ok_line P line rest q.length pos size hcr hv
          (by rw [← hb2]; omega)]
        simp only
        rw [if_pos (by rw [← hb2]; omega)]
        exact ⟨_, _, rfl, Or.inr ⟨rfl, rfl⟩⟩
  · rw [if_neg (by omega)]
    simp only
    rw [if_pos (by omega)]
    exact ⟨pos, size, rfl, Or.inr ⟨h1, h2⟩⟩

/-- A pass from `parseMore` in which the parser finds a complete chunk that the
callback accepts. -/
theorem parseMore_of_accepted_chunk (P : Platform) (cb : Nat → List Nat → Bool) (f : Nat)
    (r : ChunkedReader) (pos len : Nat) (hlen : len ≠ 0)
    (hparse : _parseChunk P r.buffer r.payloadPos r.payloadSize = (ParserState.Ok, pos, len))
    (hacc : cb r.totalWritten ((r.buffer.drop pos).take len) = true) :
    parseMore P cb (f + 1) r
      = if (_alignChunk r.buffer pos len).length > 0 then
          parseMore P cb f
            { buffer := _alignChunk r.buffer pos len, payloadPos := 0, payloadSize := 0,
              state := ParserState.Ok, totalWritten := r.totalWritten + len,
              calls := r.calls ++ [(r.totalWritten, (r.buffer.drop pos).take len)] }
        else
          some (LoopStep.next
            { buffer := _alignChunk r.buffer pos len, payloadPos := 0, payloadSize := 0,
              state := ParserState.Ok, totalWritten := r.totalWritten + len,
              calls := r.calls ++ [(r.totalWritten, (r.buffer.drop pos).take len)] }) := by
  simp only [parseMore, hparse, hlen, hacc, if_false, Bool.not_true, Bool.false_eq_true]

theorem prefix_of_append_eq (b s c t : List Nat) (h : b ++ s = c ++ t)
    (hlt : b.length ≤ c.length) : b <+: c :=
  List.prefix_of_prefix_length_le ⟨s, h⟩ ⟨t, rfl⟩ hlt

theorem split_of_append_eq (b s c t : List Nat) (h : b ++ s = c ++ t)
    (hge : c.length ≤ b.length) : ∃ b2, b = c ++ b2 ∧ b2 ++ s = t := by
  obtain ⟨b2, hb2⟩ := List.prefix_of_prefix_length_le (⟨t, rfl⟩ : c <+: c ++ t) ⟨s, h⟩ hge
  refine ⟨b2, hb2.symm, ?_⟩
  rw [← hb2, List.append_assoc] at h
  exact List.append_cancel_left h

/-- From the label `parseMore`, on a buffer that together with the bytes `s` still to
come is the chunks of `ps` followed by a chunk that is longer than the buffer: the
complete chunks `done` of the buffer are delivered, and then either the buffer is
full and the run ends with RequestFailed, or the loop goes on with less than one
chunk in the buffer. -/
theorem parseMore_before_large_chunk (P : Platform) (hP : 2 ≤ P.sizeofSizeT)
    (cb : Nat → List Nat → Bool) (line q rest : List Nat)
    (hcr : ∀ c ∈ line, c ≠ 13) (hv : ValidSizeField P (sizeFieldOf line) q.length)
    (hbig : HTTP_BUFFER_SIZE < line.length + 2 + q.length + 2)
    (ps : List (List Nat)) (hps : ∀ p ∈ ps, p ≠ [] ∧ (encodeChunk p).length ≤ HTTP_BUFFER_SIZE)
    (s : List Nat) (fuel : Nat) (r : ChunkedReader)
    (hacc : ∀ c ∈ deliveries r.totalWritten ps, cb c.1 c.2 = true)
    (hfuel : r.buffer.length < fuel) (hcap : r.buffer.length ≤ HTTP_BUFFER_SIZE)
    (hbody : r.buffer ++ s = chunksOf ps ++ (line ++ 13 :: 10 :: (q ++ 13 :: 10 :: rest)))
    (hvars : HeaderVarsBefore ps line q r) :
    ∃ done rest1 r1, ps = done ++ rest1 ∧
      r1.buffer ++ s = chunksOf rest1 ++ (line ++ 13 :: 10 :: (q ++ 13 :: 10 :: rest)) ∧
      r1.totalWritten = r.totalWritten + totalLength done ∧
      r1.calls = r.calls ++ deliveries r.totalWritten done ∧
      ((parseMore P cb fuel r = some (LoopStep.exit RequestResult.RequestFailed r1) ∧
          rest1 = [] ∧ r1.buffer.length = HTTP_BUFFER_SIZE) ∨
       (parseMore P cb fuel r = some (LoopStep.next r1) ∧
          HeaderVarsBefore rest1 line q r1 ∧ r1.state ≠ ParserState.Invalid ∧
          r1.buffer.length < nextChunkLength rest1 line q ∧
          r1.buffer.length < HTTP_BUFFER_SIZE)) := by
  induction ps generalizing fuel r with
  | nil =>
    obtain ⟨f, rfl⟩ : ∃ f, fuel = f + 1 := ⟨fuel - 1, by omega⟩
    have hbody1 : r.buffer ++ s
        = (line ++ 13 :: 10 :: (q ++ [13, 10])) ++ rest := by
      rw [hbody]; simp [chunksOf]
    have hpre : r.buffer <+: line ++ 13 :: 10 :: (q ++ [13, 10]) :=
      prefix_of_append_eq _ _ _ _ hbody1 (by simp; omega)
    have hvars1 : r.payloadPos = 0 ∨
        (r.payloadPos = line.length + 2 ∧ r.payloadSize = q.length) := hvars
    obtain ⟨pos1, size1, hparse, hv1⟩ := parseChunk_partial_line P line q r.buffer
      r.payloadPos r.payloadSize hcr hv hpre (by omega) hvars1
    have hstep := parseMore_of_needMore P cb f r pos1 size1 hparse
    refine ⟨[], [], ⟨r.buffer, pos1, size1, ParserState.NeedMoreData, r.totalWritten, r.calls⟩,
      rfl, hbody, by simp [totalLength], by simp [deliveries], ?_⟩
    by_cases hfull : r.buffer.length = HTTP_BUFFER_SIZE
    · rw [if_pos hfull] at hstep
      exact Or.inl ⟨hstep, rfl, hfull⟩
    · rw [if_neg hfull] at hstep
      refine Or.inr ⟨hstep, hv1, by simp, ?_, ?_⟩
      · show r.buffer.length < line.length + 2 + q.length + 2
        omega
      · show r.buffer.length < HTTP_BUFFER_SIZE
        omega
  | cons p ps ih =>
    obtain ⟨f, rfl⟩ : ∃ f, fuel = f + 1 := ⟨fuel - 1, by omega⟩
    have hbody1 : r.buffer ++ s = encodeChunk p
        ++ (chunksOf ps ++ (line ++ 13 :: 10 :: (q ++ 13 :: 10 :: rest))) := by
      rw [hbody]; simp [chunksOf]
    have hfit := (hps p (List.mem_cons_self p ps)).2
    have hv2 := validSizeField_toHex P hP p hfit
    have hvars1 : r.payloadPos = 0 ∨
        (r.payloadPos = (toHex p.length).length + 2 ∧ r.payloadSize = p.length) := hvars
    by_cases hlt : r.buffer.length < (encodeChunk p).length
    · have hpre : r.buffer <+: encodeChunk p :=
        prefix_of_append_eq _ _ _ _ hbody1 (by omega)
      obtain ⟨pos1, size1, hparse, hv1⟩ := parseChunk_partial P (toHex p.length) p r.buffer
        r.payloadPos r.payloadSize hv2 hpre (by rw [encodeChunk_length] at hlt; exact hlt) hvars1
      have hstep := parseMore_of_needMore P cb f r pos1 size1 hparse
      rw [if_neg (by omega)] at hstep
      refine ⟨[], p :: ps,
        ⟨r.buffer, pos1, size1, ParserState.NeedMoreData, r.totalWritten, r.calls⟩,
        rfl, hbody, by simp [totalLength], by simp [deliveries],
        Or.inr ⟨hstep, hv1, by simp, hlt, ?_⟩⟩
      show r.buffer.length < HTTP_BUFFER_SIZE
      omega
    · obtain ⟨b2, hb, hb2⟩ := split_of_append_eq _ _ _ _ hbody1 (by omega)
      have hparse := parseChunk_complete P (toHex p.length) p b2 r.payloadPos r.payloadSize
        hv2 hvars1
      have hbuf : toHex p.length ++ 13 :: 10 :: (p ++ 13 :: 10 :: b2) = r.buffer := by
        rw [hb]; simp [encodeChunk]
      have hdata : (r.buffer.drop ((toHex p.length).length + 2)).take p.length = p := by
        rw [← hbuf]; exact payload_of_buffer _ p b2
      have halign : _alignChunk r.buffer ((toHex p.length).length + 2) p.length = b2 := by
        rw [hb]
        exact alignChunk_eq _ b2 _ _ (by rw [encodeChunk_length])
      rw [hbuf] at hparse
      have hpne : p.length ≠ 0 := by
        have := (hps p (by simp)).1
        exact fun h0 => this (List.length_eq_zero.mp h0)
      have hacc0 : cb r.totalWritten
          ((r.buffer.drop ((toHex p.length).length + 2)).take p.length) = true := by
        rw [hdata]
        exact hacc (r.totalWritten, p) (by simp [deliveries])
      have hstep := parseMore_of_accepted_chunk P cb f r _ p.length hpne hparse hacc0
      rw [halign, hdata] at hstep
      have hrest : ∀ x ∈ ps, x ≠ [] ∧ (encodeChunk x).length ≤ HTTP_BUFFER_SIZE :=
        fun x hx => hps x (List.mem_cons_of_mem p hx)
      have hblen : r.buffer.length = (encodeChunk p).length + b2.length := by
        rw [hb, List.length_append]
      have hb2len : b2.length < f := by
        rw [encodeChunk_length] at hblen
        omega
      have hacc1 : ∀ c ∈ deliveries (r.totalWritten + p.length) ps, cb c.1 c.2 = true :=
        fun c hc => hacc c (by simp only [deliveries]; exact List.mem_cons_of_mem _ hc)
      by_cases hb2pos : b2.length > 0
      · rw [if_pos hb2pos] at hstep
        obtain ⟨done, rest1, r1, h0, h1, h2, h3, h4⟩ := ih hrest f
            { buffer := b2, payloadPos := 0, payloadSize := 0, state := ParserState.Ok,
              totalWritten := r.totalWritten + p.length,
              calls := r.calls ++ [(r.totalWritten, p)] }
            hacc1 hb2len (by simp only; omega) hb2 (Or.inl rfl)
        refine ⟨p :: done, rest1, r1, by rw [h0]; rfl, h1, ?_, ?_, ?_⟩
        · rw [h2]; simp [totalLength]; omega
        · rw [h3]; simp [deliveries]
        · rw [hstep]; exact h4
      · rw [if_neg hb2pos] at hstep
        have hnil : b2 = [] := List.length_eq_zero.mp (by omega)
        subst hnil
        refine ⟨[p], ps, _, rfl, hb2, by simp [totalLength], by simp [deliveries],
          Or.inr ⟨hstep, Or.inl rfl, by simp, ?_, by simp [HTTP_BUFFER_SIZE]⟩⟩
        show 0 < nextChunkLength ps line q
        unfold nextChunkLength
        cases ps with
        | nil => simp only; omega
        | cons x xs => simp only; rw [encodeChunk_length]; omega

theorem chunksOf_length_append (xs ys : List (List Nat)) :
    (chunksOf (xs ++ ys)).length = (chunksOf xs).length + (chunksOf ys).length := by
  rw [chunksOf_append, List.length_append]

/-- The loop of the chunked reader, entered with less than one chunk in the buffer,
on the chunks of `ps` followed by a chunk that is longer than the buffer. -/
theorem readLoopChunked_large_chunk (P : Platform) (hP : 2 ≤ P.sizeofSizeT)
    (cb : Nat → List Nat → Bool) (begin : Int) (timeoutMs : Nat) (line q rest : List Nat)
    (hcr : ∀ c ∈ line, c ≠ 13) (hv : ValidSizeField P (sizeFieldOf line) q.length)
    (hbig : HTTP_BUFFER_SIZE < line.length + 2 + q.length + 2)
    (events : List StreamEvent)
    (hev : ∀ e ∈ events, e.connected = true ∧ e.now ≤ begin + timeoutMs ∧
      0 < e.available ∧ 0 < e.readLen)
    (ps : List (List Nat)) (hps : ∀ p ∈ ps, p ≠ [] ∧ (encodeChunk p).length ≤ HTTP_BUFFER_SIZE)
    (s : List Nat) (r : ChunkedReader)
    (hacc : ∀ c ∈ deliveries r.totalWritten ps, cb c.1 c.2 = true)
    (hlen : (chunksOf ps).length + HTTP_BUFFER_SIZE ≤ r.buffer.length + events.length)
    (hbody : r.buffer ++ s = chunksOf ps ++ (line ++ 13 :: 10 :: (q ++ 13 :: 10 :: rest)))
    (hcap : r.buffer.length < HTTP_BUFFER_SIZE)
    (hvars : HeaderVarsBefore ps line q r) (hstate : r.state ≠ ParserState.Invalid) :
    ∃ r1, readLoopChunked P cb begin timeoutMs events s r
        = some (RequestResult.RequestFailed, r1) ∧
      r1.buffer.length = HTTP_BUFFER_SIZE ∧
      r1.totalWritten = r.totalWritten + totalLength ps ∧
      r1.calls = r.calls ++ deliveries r.totalWritten ps := by
  have hTlen : (line ++ 13 :: 10 :: (q ++ 13 :: 10 :: rest)).length
      = line.length + 2 + q.length + 2 + rest.length := by
    simp only [List.length_append, List.length_cons]; omega
  induction events generalizing ps s r with
  | nil =>
    simp only [List.length_nil] at hlen
    omega
  | cons e events ih =>
    obtain ⟨hconn, hnow, havail, hread⟩ := hev e (List.mem_cons_self e events)
    have hslen : r.buffer.length + s.length
        = (chunksOf ps).length + (line ++ 13 :: 10 :: (q ++ 13 :: 10 :: rest)).length := by
      have := congrArg List.length hbody
      simpa only [List.length_append] using this
    have hn : min e.readLen (min (HTTP_BUFFER_SIZE - r.buffer.length) s.length) ≠ 0 := by
      omega
    have hcond : (!(e.connected && r.state != ParserState.Invalid)) = false := by
      simp [hconn, hstate]
    rw [readLoopChunked]
    simp only [hcond, Bool.false_eq_true, if_false]
    rw [if_neg (by omega), if_neg (by omega)]
    simp only [hn, if_false]
    generalize hnn : min e.readLen (min (HTTP_BUFFER_SIZE - r.buffer.length) s.length) = n
      at hn ⊢
    have hblen : (r.buffer ++ s.take n).length = r.buffer.length + n := by
      rw [List.length_append, List.length_take]; omega
    have hbody1 : (r.buffer ++ s.take n) ++ s.drop n
        = chunksOf ps ++ (line ++ 13 :: 10 :: (q ++ 13 :: 10 :: rest)) := by
      rw [List.append_assoc, List.take_append_drop]; exact hbody
    obtain ⟨done, rest1, r1, h0, h1, h2, h3, h4⟩ :=
      parseMore_before_large_chunk P hP cb line q rest hcr hv hbig ps hps (s.drop n)
        ((r.buffer ++ s.take n).length + 1)
        ⟨r.buffer ++ s.take n, r.payloadPos, r.payloadSize, r.state, r.totalWritten, r.calls⟩
        hacc (by simp) (by simp only; omega) hbody1 hvars
    simp only at h2 h3
    rcases h4 with ⟨hstep, hnil, hfull⟩ | ⟨hstep, hvars1, hstate1, -, hcap1⟩
    · rw [hstep]
      subst hnil
      rw [List.append_nil] at h0
      subst h0
      exact ⟨r1, rfl, hfull, h2, h3⟩
    · rw [hstep]
      simp only
      have hrest : ∀ x ∈ rest1, x ≠ [] ∧ (encodeChunk x).length ≤ HTTP_BUFFER_SIZE :=
        fun x hx => hps x (by rw [h0]; exact List.mem_append_right done hx)
      have hacc1 : ∀ c ∈ deliveries r1.totalWritten rest1, cb c.1 c.2 = true := by
        intro c hc
        apply hacc c
        rw [h0, deliveries_append, ← h2]
        exact List.mem_append_right _ hc
      have hlen1 : (chunksOf rest1).length + HTTP_BUFFER_SIZE
          ≤ r1.buffer.length + events.length := by
        have g1 := congrArg List.length h1
        simp only [List.length_append, List.length_drop, List.length_cons] at g1
        have g3 := chunksOf_length_append done rest1
        rw [← h0] at g3
        simp only [List.length_cons] at hlen
        simp only [List.length_append, List.length_cons] at hslen
        omega
      obtain ⟨r2, g1, g2, g3, g4⟩ := ih (fun e he => hev e (List.mem_cons_of_mem _ he))
        rest1 hrest (s.drop n) r1 hacc1 hlen1 h1 hcap1 hvars1 hstate1
      refine ⟨r2, g1, g2, ?_, ?_⟩
      · rw [g3, h2, h0, totalLength_append]; omega
      · rw [g4, h3, h2, h0, deliveries_append]; simp

/-- C14: for every chunk with a valid header (a header line without '\r' whose size
field, the bytes before its first ';', is accepted by the parser and gives the length
of the payload) whose header line, payload and trailing CRLF together are longer than
4096 bytes, and that follows any number of chunks that fit into the buffer and whose
payloads the callback accepts, the chunked reader (connection up, no timeout, reads
of at least one byte) ends with RequestFailed when its buffer holds 4096 bytes; the
callback has received the payloads of the chunks before, each once and in order, and
no byte of the chunk that is too large, and `nWritten` is the number of bytes of the
payloads before. -/
theorem readStreamDataChunked_chunk_too_large (P : Platform) (hP : 2 ≤ P.sizeofSizeT)
    (downloadCallback : Nat → List Nat → Bool) (begin : Int) (timeoutMs : Nat)
    (line q rest : List Nat)
    (hcr : ∀ c ∈ line, c ≠ 13) (hv : ValidSizeField P (sizeFieldOf line) q.length)
    (hbig : 4096 < line.length + 2 + q.length + 2)
    (events : List StreamEvent)
    (hev : ∀ e ∈ events, e.connected = true ∧ e.now ≤ begin + timeoutMs ∧
      0 < e.available ∧ 0 < e.readLen)
    (ps : List (List Nat)) (hps : ∀ p ∈ ps, p ≠ [] ∧ (encodeChunk p).length ≤ HTTP_BUFFER_SIZE)
    (hacc : ∀ c ∈ deliveries 0 ps, downloadCallback c.1 c.2 = true)
    (hlen : (chunksOf ps).length + 4096 ≤ events.length) :
    (∃ r1, readLoopChunked P downloadCallback begin timeoutMs events
        (chunksOf ps ++ (line ++ 13 :: 10 :: (q ++ 13 :: 10 :: rest)))
        { buffer := [], payloadPos := 0, payloadSize := 0, state := ParserState.NeedMoreData,
          totalWritten := 0, calls := [] } = some (RequestResult.RequestFailed, r1) ∧
      r1.buffer.length = 4096) ∧
    _readStreamDataChunked P events
        (chunksOf ps ++ (line ++ 13 :: 10 :: (q ++ 13 :: 10 :: rest)))
        downloadCallback begin timeoutMs
      = some ({ result := RequestResult.RequestFailed, nWritten := totalLength ps },
          deliveries 0 ps) := by
  obtain ⟨r1, h1, h2, h3, h4⟩ := readLoopChunked_large_chunk P hP downloadCallback begin
    timeoutMs line q rest hcr hv hbig events hev ps hps
    (chunksOf ps ++ (line ++ 13 :: 10 :: (q ++ 13 :: 10 :: rest)))
    { buffer := [], payloadPos := 0, payloadSize := 0, state := ParserState.NeedMoreData,
      totalWritten := 0, calls := [] }
    hacc (by simpa [HTTP_BUFFER_SIZE] using hlen) rfl (by simp [HTTP_BUFFER_SIZE])
    (Or.inl rfl) (by simp)
  refine ⟨⟨r1, h1, h2⟩, ?_⟩
  unfold _readStreamDataChunked
  simp only [h1]
  simp only at h3 h4
  simp [h3, h4]

theorem readStreamDataChunked_chunk_too_large_witness :
    _readStreamDataChunked esp32 (List.replicate 4103 ⟨true, 500, 1, 1⟩)
        (chunksOf [[104, 105]]
          ++ ([102, 102, 100] ++ 13 :: 10 :: (List.replicate 4093 0 ++ 13 :: 10 :: [])))
        (fun _ _ => true) 0 1000
      = some ({ result := RequestResult.RequestFailed, nWritten := totalLength [[104, 105]] },
          deliveries 0 [[104, 105]]) :=
  (readStreamDataChunked_chunk_too_large esp32 (by decide) (fun _ _ => true) 0 1000
    [102, 102, 100] (List.replicate 4093 0) [] (by decide)
    (by
      rw [List.length_replicate]
      exact ⟨by decide, by decide, by decide, by decide, by decide, by decide⟩)
    (by rw [List.length_replicate]; decide)
    (List.replicate 4103 ⟨true, 500, 1, 1⟩)
    (by
      intro e he
      rw [List.eq_of_mem_replicate he]
      decide)
    [[104, 105]] (by decide) (by decide)
    (by rw [List.length_replicate]; decide)).2


/-! ### WiFiScanManager: one scan at a time -/

theorem getElem?_set_cases (l : List ScanTaskPhase) (t i : Nat) (a p : ScanTaskPhase)
    (h : (l.set t a)[i]? = some p) : (i = t ∧ p = a) ∨ (i ≠ t ∧ l[i]? = some p) := by
  by_cases hit : t = i
  · subst hit
    rw [List.getElem?_set] at h
    simp only [if_true] at h
    split at h
    · simp only [Option.some.injEq] at h
      exact Or.inl ⟨rfl, h.symm⟩
    · simp at h
  · rw [List.getElem?_set_ne hit] at h
    exact Or.inr ⟨fun e => hit e.symm, h⟩

theorem scanStep_activeIsStored (s : WiFiScanState) (a : ScanAction) (h : ActiveIsStored s) :
    ActiveIsStored (scanStep s a) := by
  cases a with
  | StartScan taskCreated =>
    simp only [scanStep, StartScan]
    split
    · exact h
    · rename_i hany
      split
      · exact h
      · intro i p hi hp
        simp only at hi ⊢
        by_cases hlt : i < s.tasks.length
        · rw [List.getElem?_append_left hlt] at hi
          have hs := h i p hi hp
          exfalso
          apply hany
          rw [hs]
          simp only [Option.any_some, taskDeleted, hi, Bool.not_eq_true', beq_eq_false_iff_ne, ne_eq,
            Option.some.injEq]
          intro hpd
          rw [hpd] at hp
          simp [ScanTaskPhase.active] at hp
        · have hge : s.tasks.length ≤ i := by omega
          rw [List.getElem?_append_right hge] at hi
          have : i - s.tasks.length = 0 := by
            by_contra hne
            have : [ScanTaskPhase.scanning][i - s.tasks.length]? = none := by
              apply List.getElem?_eq_none
              simp only [List.length_singleton]
              omega
            rw [this] at hi
            simp at hi
          congr 1
          omega
  | AbortScan =>
    simp only [scanStep, AbortScan]
    split
    · exact h
    · rename_i handle hh
      split
      · exact h
      · intro i p hi hp
        simp only [_notifyStatusChangedHandlers] at hi ⊢
        rcases getElem?_set_cases _ _ _ _ _ hi with ⟨-, rfl⟩ | ⟨hne, hi2⟩
        · simp [ScanTaskPhase.active] at hp
        · have := h i p hi2 hp
          rw [hh] at this
          simp only [Option.some.injEq] at this
          exact absurd this.symm hne
  | taskReports task status =>
    simp only [scanStep]
    split
    · rename_i ht
      intro i p hi hp
      simp only [_notifyStatusChangedHandlers] at hi ⊢
      rcases getElem?_set_cases _ _ _ _ _ hi with ⟨rfl, -⟩ | ⟨-, hi2⟩
      · exact h i ScanTaskPhase.scanning ht rfl
      · exact h i p hi2 hp
    · exact h
  | taskClearsHandle task =>
    simp only [scanStep]
    split
    · rename_i ht
      intro i p hi hp
      simp only at hi ⊢
      rcases getElem?_set_cases _ _ _ _ _ hi with ⟨-, rfl⟩ | ⟨hne, hi2⟩
      · simp [ScanTaskPhase.active] at hp
      · have h1 := h i p hi2 hp
        have h2 := h task ScanTaskPhase.reported ht rfl
        rw [h1] at h2
        simp only [Option.some.injEq] at h2
        exact absurd h2 hne
    · exact h
  | taskDeletesItself task =>
    simp only [scanStep]
    split
    · intro i p hi hp
      simp only at hi ⊢
      rcases getElem?_set_cases _ _ _ _ _ hi with ⟨-, rfl⟩ | ⟨-, hi2⟩
      · simp [ScanTaskPhase.active] at hp
      · exact h i p hi2 hp
    · exact h

theorem foldl_scanStep_activeIsStored (actions : List ScanAction) (s : WiFiScanState)
    (h : ActiveIsStored s) : ActiveIsStored (actions.foldl scanStep s) := by
  induction actions generalizing s with
  | nil => exact h
  | cons a rest ih => exact ih _ (scanStep_activeIsStored s a h)

theorem scanRun_activeIsStored (handlers : List Nat) (actions : List ScanAction) :
    ActiveIsStored (scanRun handlers actions) := by
  apply foldl_scanStep_activeIsStored
  intro i p hi
  simp at hi

/-- C21: `StartScan` called while `s_scanTaskHandle` holds the handle of a task that
is not deleted returns false and leaves the state as it is: no task is created and
the stored handle is unchanged. So in every state reached from start-up by calls of
`StartScan` and `AbortScan` and by the steps of the scan tasks, any two active tasks
(tasks that were not deleted and have not yet cleared the task handle) are the same
task, the one whose handle is stored. -/
theorem StartScan_while_scanning (s : WiFiScanState) (taskCreated : Bool) (handle : Nat)
    (hstored : s.scanTaskHandle = some handle) (halive : taskDeleted s handle = false) :
    StartScan s taskCreated = (false, s) ∧
    ∀ (handlers : List Nat) (actions : List ScanAction) (i j : Nat) (p q : ScanTaskPhase),
      (scanRun handlers actions).tasks[i]? = some p → p.active = true →
      (scanRun handlers actions).tasks[j]? = some q → q.active = true →
      i = j ∧ (scanRun handlers actions).scanTaskHandle = some i := by
  refine ⟨?_, ?_⟩
  · unfold StartScan
    rw [hstored]
    simp [halive]
  · intro handlers actions i j p q hi hp hj hq
    have h1 := scanRun_activeIsStored handlers actions i p hi hp
    have h2 := scanRun_activeIsStored handlers actions j q hj hq
    refine ⟨?_, h1⟩
    rw [h1] at h2
    simpa using h2

theorem StartScan_while_scanning_witness :
    StartScan { scanTaskHandle := some 0, tasks := [ScanTaskPhase.scanning],
                statusChangedHandlers := [7], statusCalls := [] } true
      = (false, { scanTaskHandle := some 0, tasks := [ScanTaskPhase.scanning],
                  statusChangedHandlers := [7], statusCalls := [] }) ∧
    scanRun [7] [ScanAction.StartScan true, ScanAction.StartScan true, ScanAction.AbortScan,
        ScanAction.StartScan true, ScanAction.taskReports 1 WiFiScanStatus.Completed,
        ScanAction.taskClearsHandle 1, ScanAction.StartScan true]
      = { scanTaskHandle := some 2,
          tasks := [ScanTaskPhase.deleted, ScanTaskPhase.exiting, ScanTaskPhase.scanning],
          statusChangedHandlers := [7],
          statusCalls := [(7, WiFiScanStatus.Aborted), (7, WiFiScanStatus.Completed)] } :=
  ⟨(StartScan_while_scanning
      { scanTaskHandle := some 0, tasks := [ScanTaskPhase.scanning],
        statusChangedHandlers := [7], statusCalls := [] } true 0 rfl (by decide)).1,
   by decide⟩

/-! ### WiFiScanManager: aborting a scan -/

theorem filter_calls_of_not_mem (handlers : List Nat) (status : WiFiScanStatus) (key : Nat)
    (h : key ∉ handlers) :
    (handlers.map (fun k => (k, status))).filter (fun call => decide (call.1 = key)) = [] := by
  rw [List.filter_eq_nil_iff]
  intro c hc
  obtain ⟨k, hk, rfl⟩ := List.mem_map.mp hc
  simp only [decide_eq_true_eq]
  intro e
  exact h (e ▸ hk)

theorem filter_calls_of_mem (handlers : List Nat) (status : WiFiScanStatus) (key : Nat)
    (hnd : handlers.Nodup) (h : key ∈ handlers) :
    (handlers.map (fun k => (k, status))).filter (fun call => decide (call.1 = key))
      = [(key, status)] := by
  induction handlers with
  | nil => simp at h
  | cons a rest ih =>
    rw [List.nodup_cons] at hnd
    by_cases ha : a = key
    · subst ha
      simp only [List.map_cons, List.filter_cons, decide_True, if_true]
      rw [filter_calls_of_not_mem rest status a hnd.1]
    · have hk : key ∈ rest := by
        rcases List.mem_cons.mp h with e | e
        · exact absurd e.symm ha
        · exact e
      simp only [List.map_cons, List.filter_cons, ha, decide_False, Bool.false_eq_true, if_false]
      exact ih hnd.2 hk

/-- C22: `AbortScan` called while `s_scanTaskHandle` holds the handle of a task that
is not deleted returns true, deletes that task, sets the handle to `nullptr`
(`IsScanning` is false afterwards) and makes exactly the calls `handler(Aborted)`, one
for every entry of `s_statusChangedHandlers` in the order of the map, so that every
registered handler (the keys of a map are distinct) gets one call, with Aborted; called while the
handle is `nullptr` or the task is deleted, it returns false and changes nothing, so
no handler is called. -/
theorem AbortScan_notifies_handlers (s : WiFiScanState) :
    (∀ handle, s.scanTaskHandle = some handle → taskDeleted s handle = false →
      (AbortScan s).1 = true ∧
      (AbortScan s).2.scanTaskHandle = none ∧ IsScanning (AbortScan s).2 = false ∧
      (AbortScan s).2.tasks = s.tasks.set handle ScanTaskPhase.deleted ∧
      (AbortScan s).2.statusChangedHandlers = s.statusChangedHandlers ∧
      (AbortScan s).2.statusCalls
        = s.statusCalls ++ s.statusChangedHandlers.map (fun key => (key, WiFiScanStatus.Aborted)) ∧
      (s.statusChangedHandlers.Nodup → ∀ key ∈ s.statusChangedHandlers,
        ((AbortScan s).2.statusCalls.drop s.statusCalls.length).filter
            (fun call => decide (call.1 = key))
          = [(key, WiFiScanStatus.Aborted)])) ∧
    ((s.scanTaskHandle = none ∨
        ∃ handle, s.scanTaskHandle = some handle ∧ taskDeleted s handle = true) →
      AbortScan s = (false, s)) := by
  refine ⟨?_, ?_⟩
  · intro handle hh hd
    have hab : AbortScan s = (true, _notifyStatusChangedHandlers
        { s with tasks := s.tasks.set handle ScanTaskPhase.deleted, scanTaskHandle := none }
        WiFiScanStatus.Aborted) := by
      unfold AbortScan
      rw [hh]
      simp [hd]
    rw [hab]
    refine ⟨rfl, rfl, rfl, rfl, rfl, rfl, ?_⟩
    intro hnd key hkey
    simp only [_notifyStatusChangedHandlers, List.drop_left]
    exact filter_calls_of_mem _ _ key hnd hkey
  · intro h
    unfold AbortScan
    rcases h with h | ⟨handle, hh, hd⟩
    · rw [h]
    · rw [hh]
      simp [hd]

theorem AbortScan_notifies_handlers_witness :
    (AbortScan { scanTaskHandle := some 0, tasks := [ScanTaskPhase.scanning],
                 statusChangedHandlers := [3, 7], statusCalls := [] }).2.statusCalls
      = [(3, WiFiScanStatus.Aborted), (7, WiFiScanStatus.Aborted)] ∧
    AbortScan { scanTaskHandle := none, tasks := [ScanTaskPhase.deleted],
                statusChangedHandlers := [3, 7], statusCalls := [] }
      = (false, { scanTaskHandle := none, tasks := [ScanTaskPhase.deleted],
                  statusChangedHandlers := [3, 7], statusCalls := [] }) :=
  ⟨((AbortScan_notifies_handlers
      { scanTaskHandle := some 0, tasks := [ScanTaskPhase.scanning],
        statusChangedHandlers := [3, 7], statusCalls := [] }).1 0 rfl (by decide)).2.2.2.2.2.1,
   (AbortScan_notifies_handlers
      { scanTaskHandle := none, tasks := [ScanTaskPhase.deleted],
        statusChangedHandlers := [3, 7], statusCalls := [] }).2 (Or.inl rfl)⟩

/-! ### WiFiScanManager: the scanning task -/

theorem scanChannel_ok (channel : Nat) (retval : Int) (trace : ScanTrace)
    (h : _isScanError retval = false) :
    _scanChannel channel retval trace
      = (retval, { trace with scanned := trace.scanned ++ [channel] }) := by
  simp [_scanChannel, h]

/-- The loop of `_scanningTaskImpl` over `count` notifications that are exactly
CHANNEL_DONE, none of them the last one of the scan. -/
theorem scanLoop_advance (count : Nat) (rest : List (Option Nat)) (scans : List Int)
    (channel : Nat) (trace : ScanTrace)
    (hlt : count < channel) (hle : channel ≤ 255) (hlen : count ≤ scans.length)
    (hok : ∀ r ∈ scans.take count, _isScanError r = false) :
    scanLoop (List.replicate count (some CHANNEL_DONE) ++ rest) scans channel trace
      = scanLoop rest (scans.drop count) (channel - count)
          { trace with scanned := trace.scanned ++ channelsBelow channel count } := by
  induction count generalizing scans channel trace with
  | zero => simp [channelsBelow]
  | succ n ih =>
    cases scans with
    | nil => simp at hlen
    | cons r scans =>
      have hr : _isScanError r = false := hok r (by simp)
      have hch : (channel + 255) % 256 = channel - 1 := by omega
      have hpos : ¬ channel - 1 ≤ 0 := by omega
      rw [List.replicate_succ, List.cons_append, scanLoop]
      simp only [ne_eq, not_true_eq_false, if_false, hch, hpos]
      rw [scanChannel_ok _ _ _ hr]
      simp only [hr, Bool.false_eq_true, if_false]
      rw [ih scans (channel - 1) _ (by omega) (by omega)
        (by simp only [List.length_cons] at hlen; omega)
        (fun x hx => hok x (by simp only [List.take_succ_cons]; exact List.mem_cons_of_mem _ hx))]
      simp only [List.drop_succ_cons, channelsBelow, List.append_assoc, List.singleton_append]
      congr 1
      omega

theorem scanLoop_never_channel_zero (waits : List (Option Nat)) (scans : List Int)
    (channel : Nat) (trace : ScanTrace) (status : WiFiScanStatus) (trace1 : ScanTrace)
    (h0 : 0 ∉ trace.scanned)
    (h : scanLoop waits scans channel trace = some (status, trace1)) :
    0 ∉ trace1.scanned := by
  induction waits generalizing scans channel trace with
  | nil => simp [scanLoop] at h
  | cons w waits ih =>
    cases w with
    | none =>
      simp only [scanLoop, Option.some.injEq, Prod.mk.injEq] at h
      rw [← h.2]; exact h0
    | some flags =>
      rw [scanLoop] at h
      by_cases h1 : flags ≠ CHANNEL_DONE
      · rw [if_pos h1] at h
        have hsame : trace1 = trace := by
          split_ifs at h <;> simp only [Option.some.injEq, Prod.mk.injEq] at h <;> exact h.2.symm
        rw [hsame]; exact h0
      · rw [if_neg h1] at h
        simp only at h
        by_cases h4 : (channel + 255) % 256 ≤ 0
        · rw [if_pos h4] at h
          simp only [Option.some.injEq, Prod.mk.injEq] at h; rw [← h.2]; exact h0
        · rw [if_neg h4] at h
          cases scans with
          | nil => simp at h
          | cons r scans =>
            simp only at h
            have hsc : 0 ∉ (_scanChannel ((channel + 255) % 256) r trace).2.scanned := by
              unfold _scanChannel _handleScanError
              split <;> (try split) <;> simp only [List.mem_append, List.mem_singleton, not_or] <;>
                exact ⟨h0, by omega⟩
            split_ifs at h with h5
            · simp only [Option.some.injEq, Prod.mk.injEq] at h; rw [← h.2]; exact hsc
            · exact ih scans _ _ hsc h

theorem scanningTaskImpl_after_notifications (scans : List Int) (count : Nat)
    (rest : List (Option Nat)) (hcount : count < 13) (hlen : 13 ≤ scans.length)
    (hok : ∀ r ∈ scans.take 13, _isScanError r = false) :
    _scanningTaskImpl scans (List.replicate count (some CHANNEL_DONE) ++ rest)
      = scanLoop rest (scans.drop (count + 1)) (13 - count)
          { scanned := 13 :: channelsBelow 13 count,
            statuses := [WiFiScanStatus.Started, WiFiScanStatus.InProgress], notified := [] } := by
  cases scans with
  | nil => simp at hlen
  | cons r scans =>
    have hr : _isScanError r = false := hok r (by simp)
    unfold _scanningTaskImpl
    simp only [OPENSHOCK_WIFI_SCAN_MAX_CHANNEL]
    rw [scanChannel_ok _ _ _ hr]
    simp only [hr, Bool.false_eq_true, if_false, List.nil_append]
    rw [scanLoop_advance count rest scans 13 _ hcount (by omega)
      (by simp only [List.length_cons] at hlen; omega)
      (fun x hx => hok x (by
        simp only [List.take_succ_cons]
        exact List.mem_cons_of_mem _ (List.mem_of_mem_take
          (by rw [List.take_take, min_eq_left (by omega)]; exact hx : x ∈ (scans.take 12).take count))))]
    simp only [List.drop_succ_cons, List.singleton_append]

/-- C23: when the first 13 scans start without error, `_scanningTaskImpl` run on 13
notifications that are exactly CHANNEL_DONE (whatever follows them) returns Completed,
having started the scans on the channels 13, 12, ..., 1 in that order, and after
fewer than 13 such notifications it is still waiting; after fewer than 13 of them, a
wait that times out gives TimedOut, a notification with the WIFI_DISABLED bit gives
Aborted (whatever its other bits), and any other notification different from
CHANNEL_DONE gives Error. In no run at all is a scan started on channel 0. -/
theorem scanningTaskImpl_channels (scans : List Int) (hlen : 13 ≤ scans.length)
    (hok : ∀ r ∈ scans.take 13, _isScanError r = false) :
    (∀ more, _scanningTaskImpl scans (List.replicate 13 (some CHANNEL_DONE) ++ more)
      = some (WiFiScanStatus.Completed,
          { scanned := [13, 12, 11, 10, 9, 8, 7, 6, 5, 4, 3, 2, 1],
            statuses := [WiFiScanStatus.Started, WiFiScanStatus.InProgress],
            notified := [] })) ∧
    (∀ count, count < 13 →
      _scanningTaskImpl scans (List.replicate count (some CHANNEL_DONE)) = none) ∧
    (∀ count more, count < 13 →
      (_scanningTaskImpl scans (List.replicate count (some CHANNEL_DONE) ++ none :: more)).map
        Prod.fst = some WiFiScanStatus.TimedOut) ∧
    (∀ count flags more, count < 13 → flags &&& WIFI_DISABLED ≠ 0 →
      (_scanningTaskImpl scans
        (List.replicate count (some CHANNEL_DONE) ++ some flags :: more)).map Prod.fst
        = some WiFiScanStatus.Aborted) ∧
    (∀ count flags more, count < 13 → flags ≠ CHANNEL_DONE → flags &&& WIFI_DISABLED = 0 →
      (_scanningTaskImpl scans
        (List.replicate count (some CHANNEL_DONE) ++ some flags :: more)).map Prod.fst
        = some WiFiScanStatus.Error) ∧
    (∀ (anyScans : List Int) (waits : List (Option Nat)) (status : WiFiScanStatus)
      (trace : ScanTrace),
      _scanningTaskImpl anyScans waits = some (status, trace) → 0 ∉ trace.scanned) := by
  refine ⟨?_, ?_, ?_, ?_, ?_, ?_⟩
  · intro more
    have h := scanningTaskImpl_after_notifications scans 12 (some CHANNEL_DONE :: more)
      (by omega) hlen hok
    have hrep : List.replicate 13 (some CHANNEL_DONE) ++ more
        = List.replicate 12 (some CHANNEL_DONE) ++ some CHANNEL_DONE :: more := by
      rw [show (13 : Nat) = 12 + 1 from rfl, List.replicate_succ']
      simp
    rw [hrep, h]
    simp [scanLoop, channelsBelow]
  · intro count hcount
    have h := scanningTaskImpl_after_notifications scans count [] hcount hlen hok
    rw [List.append_nil] at h
    rw [h]
    rfl
  · intro count more hcount
    rw [scanningTaskImpl_after_notifications scans count _ hcount hlen hok]
    rfl
  · intro count flags more hcount hflags
    rw [scanningTaskImpl_after_notifications scans count _ hcount hlen hok]
    have hne : flags ≠ CHANNEL_DONE := by
      intro e
      rw [e] at hflags
      exact hflags (by decide)
    simp only [scanLoop, hne, ne_eq, not_false_eq_true, if_true, hflags, Option.map_some']
  · intro count flags more hcount hne hflags
    rw [scanningTaskImpl_after_notifications scans count _ hcount hlen hok]
    simp only [scanLoop, hne, ne_eq, not_false_eq_true, if_true, hflags, not_true_eq_false,
      if_false, ite_self, Option.map_some']
  · intro anyScans waits status trace h
    unfold _scanningTaskImpl at h
    cases anyScans with
    | nil => simp at h
    | cons r rest =>
      simp only at h
      have hsc : 0 ∉ (_scanChannel OPENSHOCK_WIFI_SCAN_MAX_CHANNEL r
          { scanned := [], statuses := [], notified := [] }).2.scanned := by
        unfold _scanChannel _handleScanError
        split <;> (try split) <;> simp [OPENSHOCK_WIFI_SCAN_MAX_CHANNEL]
      split_ifs at h with h1
      · simp only [Option.some.injEq, Prod.mk.injEq] at h
        rw [← h.2]; exact hsc
      · exact scanLoop_never_channel_zero waits rest _ _ status trace (by simpa using hsc) h

theorem scanningTaskImpl_channels_witness :
    _scanningTaskImpl (List.replicate 13 0) (List.replicate 13 (some CHANNEL_DONE) ++ [])
      = some (WiFiScanStatus.Completed,
          { scanned := [13, 12, 11, 10, 9, 8, 7, 6, 5, 4, 3, 2, 1],
            statuses := [WiFiScanStatus.Started, WiFiScanStatus.InProgress],
            notified := [] }) :=
  (scanningTaskImpl_channels (List.replicate 13 0) (by decide) (by decide)).1 []


/-! ### Well-formed chunk headers -/

/-- On hexadecimal digits the digit loop of `_tryParseHexSizeT` succeeds. -/
theorem parseHexDigits_of_hex (acc : Nat) (field : List Nat)
    (h : ∀ c ∈ field, hexDigitValue c ≠ none) :
    parseHexDigits acc field
      = some (field.foldl (fun acc c => 16 * acc + (hexDigitValue c).getD 0) acc) := by
  induction field generalizing acc with
  | nil => rfl
  | cons c rest ih =>
    cases hd : hexDigitValue c with
    | none => exact absurd hd (h c (by simp))
    | some d =>
      simp only [parseHexDigits, hd, List.foldl_cons, Option.getD_some]
      rw [ih _ (fun x hx => h x (List.mem_cons_of_mem _ hx)),
        shift_or_digit _ _ (hexDigitValue_lt c d hd)]
      congr 2
      omega

theorem tryParseHexSizeT_of_hex (P : Platform) (field : List Nat) (hne : field ≠ [])
    (hsize : field.length ≤ P.sizeofSizeT * 2) (h : ∀ c ∈ field, hexDigitValue c ≠ none) :
    _tryParseHexSizeT P field = some (hexValue field) := by
  unfold _tryParseHexSizeT
  have h1 : field.isEmpty = false := by
    cases field with
    | nil => exact absurd rfl hne
    | cons c cs => rfl
  have h2 : ¬ field.length > P.sizeofSizeT * 2 := by omega
  simp only [h1, h2, decide_False, Bool.or_self, Bool.false_eq_true, if_false]
  exact parseHexDigits_of_hex 0 field h

/-- The header parser on a buffer whose first CRLF is at `p` and whose size field is
well formed. -/
theorem parseChunkHeader_valid (P : Platform) (buffer : List Nat) (p headerLen payloadLen : Nat)
    (hlen : 5 ≤ buffer.length) (hp : _isCRLF buffer p = true)
    (hfirst : ∀ i, i < p → _isCRLF buffer i = false)
    (hne : sizeFieldOf (buffer.take p) ≠ [])
    (h16 : (sizeFieldOf (buffer.take p)).length ≤ 16)
    (hsize : (sizeFieldOf (buffer.take p)).length ≤ P.sizeofSizeT * 2)
    (hhex : ∀ c ∈ sizeFieldOf (buffer.take p), hexDigitValue c ≠ none)
    (hvalue : hexValue (sizeFieldOf (buffer.take p)) ≤ HTTP_DOWNLOAD_SIZE_LIMIT) :
    _parseChunkHeader P buffer headerLen payloadLen
      = (ParserState.Ok, p + 2, hexValue (sizeFieldOf (buffer.take p))) := by
  have hpl := isCRLF_lt_length buffer p hp
  obtain ⟨hend, htake⟩ := sizeFieldEnd_eq buffer p (by omega)
  have hp0 : p ≠ 0 := by
    intro h0
    apply hne
    rw [h0]
    rfl
  have hfpos : (sizeFieldOf (buffer.take p)).length ≠ 0 := by
    have := List.length_pos.mpr hne; omega
  have hbound : ¬ (sizeFieldOf (buffer.take p)).length > 16 := by omega
  have hlimit : ¬ hexValue (sizeFieldOf (buffer.take p)) > HTTP_DOWNLOAD_SIZE_LIMIT := by omega
  unfold _parseChunkHeader
  rw [if_neg (by omega), tryFindCRLF_first buffer p hp hfirst]
  simp only [hp0, if_false, hend, htake, hfpos, hbound, false_or,
    tryParseHexSizeT_of_hex P _ hne hsize hhex, hlimit]

/-- The header parser on a buffer whose first CRLF is at `p` and whose size field has
more characters than `std::size_t` has hexadecimal digits. -/
theorem parseChunkHeader_too_many_digits (P : Platform) (buffer : List Nat)
    (p headerLen payloadLen : Nat)
    (hlen : 5 ≤ buffer.length) (hp : _isCRLF buffer p = true)
    (hfirst : ∀ i, i < p → _isCRLF buffer i = false)
    (hlong : P.sizeofSizeT * 2 < (sizeFieldOf (buffer.take p)).length) :
    (_parseChunkHeader P buffer headerLen payloadLen).1 = ParserState.Invalid := by
  have hpl := isCRLF_lt_length buffer p hp
  obtain ⟨hend, htake⟩ := sizeFieldEnd_eq buffer p (by omega)
  have hnone : _tryParseHexSizeT P (sizeFieldOf (buffer.take p)) = none := by
    unfold _tryParseHexSizeT
    have : decide ((sizeFieldOf (buffer.take p)).length > P.sizeofSizeT * 2) = true := by
      simpa using hlong
    simp only [this, Bool.or_true, if_true]
  unfold _parseChunkHeader
  rw [if_neg (by omega), tryFindCRLF_first buffer p hp hfirst]
  simp only [hend, htake, hnone]
  split
  · rfl
  · split
    · rfl
    · rfl

/-- C24 (as amended): for every buffer of at least 5 bytes whose first CRLF is at
offset `p` and whose size field (the bytes before the first ';' within the first `p`
bytes, or all `p` bytes) consists of 1 to 16 hexadecimal digits, in either case and
no more than `sizeof(std::size_t) * 2` of them (8 on the 32-bit target), with a value
of at most 200*1024*1024, `_parseChunkHeader` returns Ok with `payloadLen` the
hexadecimal value of the size field and `headerLen` = `p + 2`; and every buffer with
the same size field, whatever extension follows it, gives Ok and the same
`payloadLen`. And every buffer of at least 5 bytes whose size field has more than
`sizeof(std::size_t) * 2` characters is answered Invalid, whatever its value. -/
theorem parseChunkHeader_accepts_size_field (P : Platform) (buffer : List Nat) (p : Nat)
    (hlen : 5 ≤ buffer.length) (hp : _isCRLF buffer p = true)
    (hfirst : ∀ i, i < p → _isCRLF buffer i = false)
    (hne : 1 ≤ (sizeFieldOf (buffer.take p)).length)
    (h16 : (sizeFieldOf (buffer.take p)).length ≤ 16)
    (hsize : (sizeFieldOf (buffer.take p)).length ≤ P.sizeofSizeT * 2)
    (hhex : ∀ c ∈ sizeFieldOf (buffer.take p), hexDigitValue c ≠ none)
    (hvalue : hexValue (sizeFieldOf (buffer.take p)) ≤ 200 * 1024 * 1024) :
    (∀ headerLen payloadLen, _parseChunkHeader P buffer headerLen payloadLen
      = (ParserState.Ok, p + 2, hexValue (sizeFieldOf (buffer.take p)))) ∧
    (∀ (other : List Nat) (q headerLen payloadLen : Nat), 5 ≤ other.length →
      _isCRLF other q = true → (∀ i, i < q → _isCRLF other i = false) →
      sizeFieldOf (other.take q) = sizeFieldOf (buffer.take p) →
      (_parseChunkHeader P other headerLen payloadLen).1 = ParserState.Ok ∧
      (_parseChunkHeader P other headerLen payloadLen).2.2
        = hexValue (sizeFieldOf (buffer.take p))) ∧
    (∀ (other : List Nat) (q headerLen payloadLen : Nat), 5 ≤ other.length →
      _isCRLF other q = true → (∀ i, i < q → _isCRLF other i = false) →
      P.sizeofSizeT * 2 < (sizeFieldOf (other.take q)).length →
      (_parseChunkHeader P other headerLen payloadLen).1 = ParserState.Invalid) := by
  have hne1 : sizeFieldOf (buffer.take p) ≠ [] := by
    intro h0
    rw [h0] at hne
    simp at hne
  refine ⟨?_, ?_, ?_⟩
  rotate_left 2
  · intro other q headerLen payloadLen hlen2 hq hfirst2 hlong
    exact parseChunkHeader_too_many_digits P other q headerLen payloadLen hlen2 hq hfirst2 hlong
  · intro headerLen payloadLen
    exact parseChunkHeader_valid P buffer p headerLen payloadLen hlen hp hfirst hne1 h16 hsize
      hhex hvalue
  · intro other q headerLen payloadLen hlen2 hq hfirst2 hsame
    rw [parseChunkHeader_valid P other q headerLen payloadLen hlen2 hq hfirst2
      (by rw [hsame]; exact hne1) (by rw [hsame]; exact h16) (by rw [hsame]; exact hsize)
      (by rw [hsame]; exact hhex) (by rw [hsame]; exact hvalue), hsame]
    exact ⟨rfl, rfl⟩

theorem parseChunkHeader_accepts_size_field_witness :
    _parseChunkHeader esp32 [49, 65, 59, 120, 13, 10, 104, 105] 0 0 = (ParserState.Ok, 6, 26) ∧
    (_parseChunkHeader esp32 [49, 65, 13, 10, 104, 105] 0 0).2.2 = 26 ∧
    (_parseChunkHeader esp32 [48, 48, 48, 48, 48, 48, 48, 49, 65, 59, 120, 13, 10] 0 0).1
      = ParserState.Invalid :=
  ⟨(parseChunkHeader_accepts_size_field esp32 [49, 65, 59, 120, 13, 10, 104, 105] 4
      (by decide) (by decide) (by decide) (by decide) (by decide) (by decide) (by decide)
      (by decide)).1 0 0,
   ((parseChunkHeader_accepts_size_field esp32 [49, 65, 59, 120, 13, 10, 104, 105] 4
      (by decide) (by decide) (by decide) (by decide) (by decide) (by decide) (by decide)
      (by decide)).2.1 [49, 65, 13, 10, 104, 105] 2 0 0 (by decide) (by decide) (by decide)
      (by decide)).2,
   (parseChunkHeader_accepts_size_field esp32 [49, 65, 59, 120, 13, 10, 104, 105] 4
      (by decide) (by decide) (by decide) (by decide) (by decide) (by decide) (by decide)
      (by decide)).2.2 [48, 48, 48, 48, 48, 48, 48, 49, 65, 59, 120, 13, 10] 11 0 0
      (by decide) (by decide) (by decide) (by decide)⟩

/-- C24 (the claim as stated fails): on the 32-bit target the buffer "000000001\r\n\r\n",
whose size field is 9 hexadecimal digits with the value 1, is answered Invalid:
`_tryParseHexSizeT` refuses more than `sizeof(std::size_t) * 2` = 8 digits. -/
theorem parseChunkHeader_rejects_nine_digits :
    (_parseChunkHeader esp32 [48, 48, 48, 48, 48, 48, 48, 48, 49, 13, 10, 13, 10] 0 0).1
      = ParserState.Invalid ∧
    sizeFieldOf ([48, 48, 48, 48, 48, 48, 48, 48, 49, 13, 10, 13, 10].take 9)
      = [48, 48, 48, 48, 48, 48, 48, 48, 49] ∧
    hexValue [48, 48, 48, 48, 48, 48, 48, 48, 49] = 1 ∧
    _tryParseHexSizeT esp32 [48, 48, 48, 48, 48, 48, 48, 48, 49] = none := by
  refine ⟨by decide, by decide, by decide, by decide⟩

/-! ### The chunk parser after the header -/

/-- C25: for every buffer and every header already parsed (`payloadPos` not 0),
`_parseChunk` leaves `payloadPos` and `payloadLen` as they are and returns
NeedMoreData exactly when the buffer holds less than `payloadPos + payloadLen + 2`
bytes, and otherwise Ok if the bytes at the offsets `payloadPos + payloadLen` and
`payloadPos + payloadLen + 1` are CR LF and Invalid if not. And whenever `_parseChunk`
returns Ok, with or without a header parsed before, the payload range and the span
that `_alignChunk` removes lie inside the buffer: the payload handed to the callback
has `payloadLen` bytes, and `_alignChunk` leaves the bytes after the chunk. -/
theorem parseChunk_after_header (P : Platform) (buffer : List Nat) (payloadPos payloadLen : Nat)
    (hpos : payloadPos ≠ 0) :
    _parseChunk P buffer payloadPos payloadLen
      = (if buffer.length < payloadPos + payloadLen + 2 then ParserState.NeedMoreData
         else if buffer[payloadPos + payloadLen]? = some 13 ∧
            buffer[payloadPos + payloadLen + 1]? = some 10 then ParserState.Ok
         else ParserState.Invalid,
         payloadPos, payloadLen) ∧
    ((_parseChunk P buffer payloadPos payloadLen).1 = ParserState.NeedMoreData
      ↔ buffer.length < payloadPos + payloadLen + 2) ∧
    ∀ (pos len pos1 len1 : Nat),
      _parseChunk P buffer pos len = (ParserState.Ok, pos1, len1) →
      pos1 + len1 + 2 ≤ buffer.length ∧
      ((buffer.drop pos1).take len1).length = len1 ∧
      _alignChunk buffer pos1 len1 = buffer.drop (pos1 + len1 + 2) ∧
      (_alignChunk buffer pos1 len1).length + (pos1 + len1 + 2) = buffer.length := by
  have hmain : _parseChunk P buffer payloadPos payloadLen
      = (if buffer.length < payloadPos + payloadLen + 2 then ParserState.NeedMoreData
         else if buffer[payloadPos + payloadLen]? = some 13 ∧
            buffer[payloadPos + payloadLen + 1]? = some 10 then ParserState.Ok
         else ParserState.Invalid,
         payloadPos, payloadLen) := by
    unfold _parseChunk
    rw [if_neg hpos]
    simp only
    by_cases hlt : buffer.length < payloadPos + payloadLen + 2
    · rw [if_pos hlt, if_pos hlt]
    · rw [if_neg hlt, if_neg hlt]
      have hoff : payloadPos + payloadLen + 2 - 2 = payloadPos + payloadLen := by omega
      rw [hoff]
      by_cases hcr : buffer[payloadPos + payloadLen]? = some 13 ∧
          buffer[payloadPos + payloadLen + 1]? = some 10
      · rw [if_pos hcr]
        simp [_isCRLF, hcr.1, hcr.2]
      · rw [if_neg hcr]
        have : _isCRLF buffer (payloadPos + payloadLen) = false := by
          unfold _isCRLF
          by_contra hne
          apply hcr
          simpa using hne
        simp [this]
  refine ⟨hmain, ?_, ?_⟩
  · rw [hmain]
    simp only
    constructor
    · intro h
      by_contra hge
      rw [if_neg hge] at h
      split_ifs at h
    · intro h
      rw [if_pos h]
  · intro pos len pos1 len1 hok
    have hle : pos1 + len1 + 2 ≤ buffer.length := by
      have := parseChunk_ok_length P buffer pos len (by rw [hok])
      rw [hok] at this
      exact this
    refine ⟨hle, ?_, ?_, ?_⟩
    · rw [List.length_take, List.length_drop]
      omega
    · unfold _alignChunk
      simp only
      split
      · rw [List.take_of_length_le]
        rw [List.length_drop]
      · rename_i hrem
        have : buffer.length ≤ pos1 + len1 + 2 := by omega
        rw [List.drop_of_length_le this]
    · rw [alignChunk_length]
      omega

theorem parseChunk_after_header_witness :
    _parseChunk esp32 [50, 13, 10, 104, 105, 13, 10] 3 2 = (ParserState.Ok, 3, 2) ∧
    _parseChunk esp32 [50, 13, 10, 104, 105, 13] 3 2 = (ParserState.NeedMoreData, 3, 2) ∧
    _parseChunk esp32 [50, 13, 10, 104, 105, 33, 33] 3 2 = (ParserState.Invalid, 3, 2) :=
  ⟨(parseChunk_after_header esp32 [50, 13, 10, 104, 105, 13, 10] 3 2 (by decide)).1,
   (parseChunk_after_header esp32 [50, 13, 10, 104, 105, 13] 3 2 (by decide)).1,
   (parseChunk_after_header esp32 [50, 13, 10, 104, 105, 33, 33] 3 2 (by decide)).1⟩

/-! ### Rate limiter: what an admission keeps and what a rejection sets -/

/-- C26 (the code at a failing input): on a fresh limiter built by `_rateLimitFactory`,
for the backend domain or any other, `tryRequest` at the times 0 and 2000 is admitted
both times, and afterwards the recorded timestamps are [2000] only: the timestamp 0,
which is not older than 2000 minus the longest window (10000 ms or more), was dropped,
because the pruning loop compares with `m_limits.back()`, the shortest window
(1000 ms). -/
theorem tryRequest_drops_timestamp_inside_longest_window (apiDomain domain : List Char) :
    ((_rateLimitFactory apiDomain domain).tryRequests [0, 2000]).map
        (fun r => (r.1, r.2.requests)) = some ([true, true], [2000]) ∧
    (⟨10000, 10⟩ : Limit) ∈ (_rateLimitFactory apiDomain domain).limits ∧
    (_rateLimitFactory apiDomain domain).limits.getLast? = some ⟨1000, 5⟩ := by
  unfold _rateLimitFactory
  split <;> decide

/-- C27: when `tryRequest` at time `now` is not inside a cooldown and some window's
count is reached by the number of retained timestamps, `it` being the first such
window in stored order, it returns false, the recorded timestamps afterwards are the
retained ones (none is added), and `blockUntilMs` is `now + it.durationMs`; every
`tryRequest` at a time before that instant then returns false and leaves the limiter
as it is. -/
theorem tryRequest_rejection_sets_cooldown (rl : RateLimit) (now : Int) (back it : Limit)
    (before after : List Limit)
    (hblock : rl.blockUntilMs ≤ now)
    (hlimits : rl.limits = before ++ it :: after)
    (hback : rl.limits.getLast? = some back)
    (hbefore : ∀ l ∈ before,
      (rl.requests.dropWhile (fun q => decide (q < now - back.durationMs))).length < l.count)
    (hit : it.count ≤
      (rl.requests.dropWhile (fun q => decide (q < now - back.durationMs))).length) :
    rl.tryRequest now
      = some (false,
          { blockUntilMs := now + it.durationMs, limits := rl.limits,
            requests := rl.requests.dropWhile (fun q => decide (q < now - back.durationMs)) }) ∧
    ∀ later : Int, later < now + it.durationMs →
      RateLimit.tryRequest
          { blockUntilMs := now + it.durationMs, limits := rl.limits,
            requests := rl.requests.dropWhile (fun q => decide (q < now - back.durationMs)) }
          later
        = some (false,
            { blockUntilMs := now + it.durationMs, limits := rl.limits,
              requests := rl.requests.dropWhile (fun q => decide (q < now - back.durationMs)) }) := by
  have hfind : rl.limits.find? (fun limit => decide
      ((rl.requests.dropWhile (fun q => decide (q < now - back.durationMs))).length
        ≥ limit.count)) = some it := by
    rw [hlimits, List.find?_append]
    have hnone : before.find? (fun limit => decide
        ((rl.requests.dropWhile (fun q => decide (q < now - back.durationMs))).length
          ≥ limit.count)) = none := by
      rw [List.find?_eq_none]
      intro l hl
      have := hbefore l hl
      simp only [ge_iff_le, decide_eq_true_eq, not_le]
      exact this
    rw [hnone]
    simp only [Option.none_or, List.find?_cons]
    have : decide ((rl.requests.dropWhile (fun q => decide (q < now - back.durationMs))).length
        ≥ it.count) = true := by
      simp only [ge_iff_le, decide_eq_true_eq]
      exact hit
    rw [this]
  refine ⟨?_, ?_⟩
  · rw [RateLimit.tryRequest_eq rl now back hback hblock, hfind]
  · intro later hlater
    exact RateLimit.tryRequest_blocked _ later hlater

theorem tryRequest_rejection_sets_cooldown_witness :
    RateLimit.tryRequest
        { blockUntilMs := 0, limits := [⟨10000, 10⟩, ⟨1000, 5⟩], requests := [0, 0, 0, 0, 0] } 500
      = some (false,
          { blockUntilMs := 500 + 1000, limits := [⟨10000, 10⟩, ⟨1000, 5⟩],
            requests := [0, 0, 0, 0, 0] }) :=
  (tryRequest_rejection_sets_cooldown
    { blockUntilMs := 0, limits := [⟨10000, 10⟩, ⟨1000, 5⟩], requests := [0, 0, 0, 0, 0] } 500
    ⟨1000, 5⟩ ⟨1000, 5⟩ [⟨10000, 10⟩] [] (by decide) rfl rfl (by decide) (by decide)).1


/-! ### The pin of the transmitter -/

/-- C29: `SetRfTxPin` with an invalid output pin returns InvalidPin and leaves the
state, so the installed transmitter, as it is. With a valid pin it returns
InternalError exactly when the new transmitter is not ok or the pin cannot be saved,
and then no transmitter is installed afterwards, whatever was installed before
(`CommandHandler::Ok` is false); otherwise it returns Success and the new transmitter
is installed. Nothing but the transmitter changes. -/
theorem SetRfTxPin_result (env : SetRfTxPinEnv) (s : CommandHandlerState) :
    (env.validOutputPin = false → SetRfTxPin env s = (SetGPIOResultCode.InvalidPin, s)) ∧
    (env.validOutputPin = true →
      ((SetRfTxPin env s).1 = SetGPIOResultCode.InternalError ↔
        (env.rfxmitOk = false ∨ env.configSaved = false)) ∧
      ((SetRfTxPin env s).1 = SetGPIOResultCode.Success ↔
        (env.rfxmitOk = true ∧ env.configSaved = true)) ∧
      ((SetRfTxPin env s).1 = SetGPIOResultCode.InternalError →
        (SetRfTxPin env s).2.rfTransmitter = none ∧
        CommandHandler.Ok (SetRfTxPin env s).2 = false) ∧
      ((SetRfTxPin env s).1 = SetGPIOResultCode.Success →
        (SetRfTxPin env s).2.rfTransmitter = some env.rfxmit ∧
        CommandHandler.Ok (SetRfTxPin env s).2 = true) ∧
      (SetRfTxPin env s).2.keepAliveQueue = s.keepAliveQueue ∧
      (SetRfTxPin env s).2.txCalls = s.txCalls) := by
  refine ⟨?_, ?_⟩
  · intro h
    simp [SetRfTxPin, h]
  · intro h
    cases hok : env.rfxmitOk <;> cases hsaved : env.configSaved <;>
      cases htx : s.rfTransmitter <;>
      simp [SetRfTxPin, CommandHandler.Ok, h, hok, hsaved, htx]

theorem SetRfTxPin_result_witness :
    SetRfTxPin { validOutputPin := false, rfxmit := ⟨4, []⟩, rfxmitOk := true, configSaved := true }
        { rfTransmitter := some ⟨2, []⟩, keepAliveQueue := none, txCalls := [] }
      = (SetGPIOResultCode.InvalidPin,
          { rfTransmitter := some ⟨2, []⟩, keepAliveQueue := none, txCalls := [] }) ∧
    (SetRfTxPin { validOutputPin := true, rfxmit := ⟨4, []⟩, rfxmitOk := true, configSaved := false }
        { rfTransmitter := some ⟨2, []⟩, keepAliveQueue := none, txCalls := [] }).2.rfTransmitter
      = none :=
  ⟨(SetRfTxPin_result
      { validOutputPin := false, rfxmit := ⟨4, []⟩, rfxmitOk := true, configSaved := true }
      { rfTransmitter := some ⟨2, []⟩, keepAliveQueue := none, txCalls := [] }).1 rfl,
   (((SetRfTxPin_result
      { validOutputPin := true, rfxmit := ⟨4, []⟩, rfxmitOk := true, configSaved := false }
      { rfTransmitter := some ⟨2, []⟩, keepAliveQueue := none, txCalls := [] }).2 rfl).2.2.1
      (by decide)).1⟩

/-! ### The WiFi credentials -/

/-- The first loop of `AddWiFiCredentials` on a list without the id 0 that has an
entry for the SSID: it ends at that entry, with the id of the entry. -/
theorem markUsedIds_existing (ssid password : List Char) (list : List WiFiCredentials)
    (bits : List Nat) (hids : ∀ c ∈ list, c.id ≠ 0) (hmem : ∃ c ∈ list, c.ssid = ssid) :
    ∃ entries id bits1, markUsedIds ssid password list bits = some (entries, id, bits1) ∧
      entries.length = list.length ∧ id ≠ 0 := by
  induction list generalizing bits with
  | nil => simp at hmem
  | cons c rest ih =>
    by_cases hc : c.ssid = ssid
    · refine ⟨{ c with password := password } :: rest, c.id, bits, ?_, rfl, hids c (by simp)⟩
      rw [markUsedIds.eq_def]
      simp only [hc, if_true]
    · have hid : c.id ≠ 0 := hids c (by simp)
      have hmem1 : ∃ d ∈ rest, d.ssid = ssid := by
        obtain ⟨d, hd, hs⟩ := hmem
        rcases List.mem_cons.mp hd with e | e
        · rw [e] at hs; exact absurd hs hc
        · exact ⟨d, e, hs⟩
      obtain ⟨entries, id, bits1, h1, h2, h3⟩ := ih (bits ++ [c.id - 1])
        (fun d hd => hids d (List.mem_cons_of_mem _ hd)) hmem1
      refine ⟨c :: entries, id, bits1, ?_, by simp [h2], h3⟩
      rw [markUsedIds.eq_def]
      simp only [hc, hid, if_false, h1]

/-- For every credentials list without the id 0 that has an entry for the SSID,
`AddWiFiCredentials` appends an entry: the list grows by one. -/
theorem AddWiFiCredentials_existing_grows (list : List WiFiCredentials)
    (ssid password : List Char) (hids : ∀ c ∈ list, c.id ≠ 0)
    (hmem : ∃ c ∈ list, c.ssid = ssid) :
    ∃ id list1, AddWiFiCredentials list ssid password = some (id, list1) ∧ id ≠ 0 ∧
      list1.length = list.length + 1 := by
  obtain ⟨entries, id, bits1, h1, h2, h3⟩ := markUsedIds_existing ssid password list [] hids hmem
  have hfree : firstAvailableId bits1 id ≠ 0 := by
    unfold firstAvailableId
    split
    · omega
    · exact h3
  refine ⟨firstAvailableId bits1 id, entries ++ [⟨firstAvailableId bits1 id, ssid, password⟩],
    ?_, hfree, by simp [h2]⟩
  simp [AddWiFiCredentials, h1, hfree]

/-- C30 (the code at a failing input): on the list with the one entry (id 2, "home",
"old"), `AddWiFiCredentials("home", "new")` updates the password of the entry and
then goes on to the search for a free id, which overwrites the id of the entry found:
it returns 1, not 2, and appends a second entry for "home", with the id 1. On the list
(2, "home", "old"), (1, "cafe", "pw") the entry it appends has the id 1 of "cafe". -/
theorem AddWiFiCredentials_existing_ssid_appends :
    AddWiFiCredentials [⟨2, "home".toList, "old".toList⟩] "home".toList "new".toList
      = some (1, [⟨2, "home".toList, "new".toList⟩, ⟨1, "home".toList, "new".toList⟩]) ∧
    AddWiFiCredentials [⟨2, "home".toList, "old".toList⟩, ⟨1, "cafe".toList, "pw".toList⟩]
        "home".toList "new".toList
      = some (1, [⟨2, "home".toList, "new".toList⟩, ⟨1, "cafe".toList, "pw".toList⟩,
          ⟨1, "home".toList, "new".toList⟩]) := by
  refine ⟨by decide, by decide⟩

/-! ### The release of a firmware version -/

/-- C28 (the code at failing inputs): when the three URLs are formatted and the
request for the hashes succeeds, `TryGetFirmwareRelease` returns true on a hash list
without lines, writing no hash, and on a hash list whose one line is a 64-character
hash and the file name "app.bin", writing `appBinaryHash` only: the variables
`foundAppHash` and `foundFilesystemHash` are not looked at after the loop. -/
theorem TryGetFirmwareRelease_without_filesystem_hash (U : StringUtils) (x : ReleaseFetch)
    (release : FirmwareRelease) (appUrl fsUrl hashesUrl : List Char)
    (happ : x.appBinaryUrl = some appUrl) (hfs : x.filesystemBinaryUrl = some fsUrl)
    (hurl : x.sha256HashesUrl = some hashesUrl) (hres : x.result = RequestResult.Success) :
    (U.StringSplitNewLines x.data = [] →
      TryGetFirmwareRelease U x release
        = (true, { release with appBinaryUrl := appUrl, filesystemBinaryUrl := fsUrl })) ∧
    (∀ line part0 part1 bytes, U.StringSplitNewLines x.data = [line] →
      U.StringSplitWhiteSpace line = [part0, part1] →
      (U.StringTrim part0).length = 64 → U.StringTrim part1 = "app.bin".toList →
      U.TryParseHex (U.StringTrim part0) = some bytes →
      TryGetFirmwareRelease U x release
        = (true, { appBinaryUrl := appUrl, appBinaryHash := bytes,
                   filesystemBinaryUrl := fsUrl,
                   filesystemBinaryHash := release.filesystemBinaryHash }) ∧
      ¬ HasHashEntry U x.data "staticfs.bin".toList) := by
  refine ⟨?_, ?_⟩
  · intro hlines
    simp [TryGetFirmwareRelease, happ, hfs, hurl, hres, hlines, parseHashes]
  · intro line part0 part1 bytes hlines hparts hlen hfile hparse
    refine ⟨?_, ?_⟩
    · have hpre : "./".toList.isPrefixOf "app.bin".toList = false := by decide
      simp [TryGetFirmwareRelease, happ, hfs, hurl, hres, hlines, parseHashes, hparts, hlen,
        hfile, hpre, _tryParseIntoHash, hparse]
    · rintro ⟨l, hl, p0, p1, hsplit, hname⟩
      rw [hlines, List.mem_singleton] at hl
      subst hl
      rw [hparts] at hsplit
      simp only [List.cons.injEq, and_true] at hsplit
      obtain ⟨-, rfl⟩ := hsplit
      rw [hfile] at hname
      revert hname
      decide

theorem TryGetFirmwareRelease_without_filesystem_hash_witness :
    TryGetFirmwareRelease
        { StringSplitNewLines := fun data => [data],
          StringSplitWhiteSpace := fun _ => [List.replicate 64 '0', "app.bin".toList],
          StringTrim := fun s => s, TryParseHex := fun _ => some (List.replicate 32 0) }
        { appBinaryUrl := some "a".toList, filesystemBinaryUrl := some "f".toList,
          sha256HashesUrl := some "h".toList, result := RequestResult.Success,
          data := List.replicate 64 '0' ++ " app.bin".toList }
        { appBinaryUrl := [], appBinaryHash := [], filesystemBinaryUrl := [],
          filesystemBinaryHash := [] }
      = (true, { appBinaryUrl := "a".toList, appBinaryHash := List.replicate 32 0,
                 filesystemBinaryUrl := "f".toList, filesystemBinaryHash := [] }) :=
  ((TryGetFirmwareRelease_without_filesystem_hash
    { StringSplitNewLines := fun data => [data],
      StringSplitWhiteSpace := fun _ => [List.replicate 64 '0', "app.bin".toList],
      StringTrim := fun s => s, TryParseHex := fun _ => some (List.replicate 32 0) }
    { appBinaryUrl := some "a".toList, filesystemBinaryUrl := some "f".toList,
      sha256HashesUrl := some "h".toList, result := RequestResult.Success,
      data := List.replicate 64 '0' ++ " app.bin".toList }
    { appBinaryUrl := [], appBinaryHash := [], filesystemBinaryUrl := [],
      filesystemBinaryHash := [] }
    "a".toList "f".toList "h".toList rfl rfl rfl rfl).2
    (List.replicate 64 '0' ++ " app.bin".toList) (List.replicate 64 '0') "app.bin".toList
    (List.replicate 32 0) rfl rfl (by decide) rfl rfl).1


/-! ### The readers return Cancelled when the callback rejects -/

end OpenShock
